import Mathlib

/-! # gravity: request decoding and dispatch

A shallow embedding of `decoder.go`, `handler.go`, `controller.go`, `api.go` and
`error.go` of `github.com/tylermmorton/gravity`, followed by theorems about it.

Conventions of the embedding

* Go strings are `String`; byte loops run over `String.data`.
* A Go result pair `(value, error)` is a pair `α × Option Error`; `none` is the nil error.
* A function of the decoder that can panic inside `reflect` returns `Option Stop` in the place
  of the error: `none` when it runs to its end without error, the error it returns, or the
  value it panics with; the other components are then the storage as the function left it.
* Code that mutates storage through `reflect.Value.Set` returns the new content of that storage.
* Machine integers are `Int`/`Nat` with explicit wrapping at conversions.
* Routines of the Go standard library other than integer and boolean parsing are the fields of
  `Env`. Of the JSON codec, `jsonRead` follows `json.Unmarshal` on invalid input and on flat
  objects, and `jsonWrite` follows `json.Marshal` on flat structs; the codec of `Env` is free
  elsewhere.
-/

namespace Gravity

/-! ## Errors -/

/-- Error values that travel through the decoder and the dispatch core. -/
inductive Error where
  /-- A `*strconv.NumError` wrapping `strconv.ErrSyntax`. -/
  | numSyntax (fn : String) (num : String)
  /-- A `*strconv.NumError` wrapping `strconv.ErrRange`. -/
  | numRange (fn : String) (num : String)
  /-- A `*strconv.NumError` for a bit size outside 0..64. -/
  | numBitSize (fn : String) (num : String) (bitSize : Nat)
  /-- The value of `fmt.Errorf("unsupported type: %v", typ)` in `resolve`. -/
  | unsupportedType (typ : String)
  /-- The value of `fmt.Errorf("invalid decode type: %v", kind)` in `DecodeRequest`. -/
  | invalidDecodeType (kind : String)
  /-- The value of `errors.New("mime type provided in Accept header is not supported")`. -/
  | acceptNotSupported
  /-- An error value produced outside this package (codec, time parsing, handler code). -/
  | foreign (msg : String)
  deriving DecidableEq, Repr

/-- The value a panic carries: one that implements `error` (as `panic(err)` in `handleError`
and the run-time errors of Go do), or any other value, such as a string. -/
inductive PanicValue where
  | error (err : Error)
  | other (text : String)
  deriving DecidableEq, Repr

/-- How a function of the decoder stops before its end: it returns an error, or it panics. -/
inductive Stop where
  | error (err : Error)
  | fault (p : PanicValue)
  deriving DecidableEq, Repr

/-- The string that `reflect.Value.Interface` panics with on a value obtained through an
unexported struct field. -/
def interfacePanic : PanicValue :=
  .other "reflect.Value.Interface: cannot return value obtained from unexported field or method"

/-- The string that `reflect.Value.Set` panics with on a value obtained through an unexported
struct field. -/
def setPanic : PanicValue :=
  .other "reflect: reflect.Value.Set using value obtained using unexported field"

/-! ## strconv: integer and boolean parsing -/

/-- The constant `strconv.IntSize` on a 64-bit platform. -/
def IntSize : Nat := 64

/-- The constant `maxUint64` of package strconv. -/
def maxUint64 : Nat := 2 ^ 64 - 1

/-- The helper `lower(c)` of strconv: `c | ('x' - 'X')`. -/
def lower (c : Nat) : Nat := c ||| 0x20

/-- The digit loop of `strconv.ParseUint` for base 10: `n` is the value accumulated so far,
`cutoff` is the least number whose tenfold exceeds `maxUint64`, `maxVal` the largest value of
the requested bit size. -/
def parseUintLoop (s0 : String) (cutoff maxVal : Nat) : List Char → Nat → Nat × Option Error
  | [], n => (n, none)
  | c :: cs, n =>
    let b := c.toNat
    let d? : Option Nat :=
      if 48 ≤ b ∧ b ≤ 57 then some (b - 48)
      else if 97 ≤ lower b ∧ lower b ≤ 122 then some (lower b - 97 + 10)
      else none
    match d? with
    | none => (0, some (.numSyntax "ParseUint" s0))
    | some d =>
      if d ≥ 10 then (0, some (.numSyntax "ParseUint" s0))
      else if n ≥ cutoff then (maxVal, some (.numRange "ParseUint" s0))
      else
        let n10 := n * 10
        let n1 := (n10 + d) % 2 ^ 64
        if n1 < n10 ∨ n1 > maxVal then (maxVal, some (.numRange "ParseUint" s0))
        else parseUintLoop s0 cutoff maxVal cs n1

/-- The function `strconv.ParseUint(s, 10, bitSize)`; the base is 10 at every call site of
`decoder.go`, so the prefix and underscore handling of base 0 is not reached. -/
def ParseUint (s : String) (bitSize : Nat) : Nat × Option Error :=
  if s = "" then (0, some (.numSyntax "ParseUint" s))
  else if bitSize > 64 then (0, some (.numBitSize "ParseUint" s bitSize))
  else
    let bitSize := if bitSize = 0 then IntSize else bitSize
    let cutoff := maxUint64 / 10 + 1
    let maxVal := 2 ^ bitSize - 1
    parseUintLoop s cutoff maxVal s.data 0

/-- Conversion of an integer to a signed machine integer of `bits` bits (two's complement). -/
def wrapInt (bits : Nat) (n : Int) : Int :=
  (n + 2 ^ (bits - 1)) % 2 ^ bits - 2 ^ (bits - 1)

/-- Conversion of a natural number to an unsigned machine integer of `bits` bits. -/
def wrapUint (bits : Nat) (n : Nat) : Nat := n % 2 ^ bits

/-- The function `strconv.ParseInt(s, 10, bitSize)`. -/
def ParseInt (s : String) (bitSize : Nat) : Int × Option Error :=
  if s = "" then (0, some (.numSyntax "ParseInt" s))
  else
    let s0 := s
    let neg := s.data.head? = some '-'
    let s := if s.data.head? = some '+' ∨ s.data.head? = some '-' then String.mk s.data.tail else s
    match ParseUint s bitSize with
    | (_, some (.numSyntax _ _)) => (0, some (.numSyntax "ParseInt" s0))
    | (_, some (.numBitSize _ _ b)) => (0, some (.numBitSize "ParseInt" s0 b))
    | (un, _) =>
      let bitSize := if bitSize = 0 then IntSize else bitSize
      let cutoff : Nat := 2 ^ (bitSize - 1)
      if ¬ neg ∧ un ≥ cutoff then ((cutoff : Int) - 1, some (.numRange "ParseInt" s0))
      else if neg ∧ un > cutoff then (-(cutoff : Int), some (.numRange "ParseInt" s0))
      else
        let n := wrapInt 64 un
        (if neg then wrapInt 64 (-n) else n, none)

/-- The function `strconv.ParseBool`. -/
def ParseBool (str : String) : Bool × Option Error :=
  if str ∈ ["1", "t", "T", "true", "TRUE", "True"] then (true, none)
  else if str ∈ ["0", "f", "F", "false", "FALSE", "False"] then (false, none)
  else (false, some (.numSyntax "ParseBool" str))

/-! ## Types and values seen through reflection -/

/-- The struct tag of a field, read through `Tag.Get`: the value under each key that the
decoder and the JSON codec look up, `""` when the key is absent. -/
structure StructTag where
  query : String
  body : String
  json : String
  deriving DecidableEq, Repr

mutual
/-- A Go type as `reflect.Type` presents it. -/
inductive Typ where
  | string | bool
  /-- The type `time.Time`, a struct of three unannotated fields none of which is a struct. -/
  | time
  /-- The type `time.Duration`, defined over `int64`. -/
  | duration
  | int | int8 | int16 | int32 | int64
  | uint | uint8 | uint16 | uint32 | uint64
  | float32 | float64 | complex64 | complex128
  /-- A defined (named) type over another type, such as `type Status string`. -/
  | defined (name : String) (underlying : Typ)
  | pointer (elem : Typ)
  | slice (elem : Typ)
  /-- A struct type other than `time.Time`; `name` is how the type prints. -/
  | struct (name : String) (fields : List StructField)
  /-- An interface type. -/
  | iface (name : String)
  /-- Any other type (map, chan, func, array), by the printed names of the type and of its
  kind. -/
  | unmodelled (name : String) (kind : String)
/-- A `reflect.StructField`. -/
inductive StructField where
  | mk (Name : String) (Typ : Typ) (Tag : StructTag)
end

/-- The field `Type` of a `reflect.StructField`. -/
def StructField.Typ : StructField → Typ
  | .mk _ t _ => t

/-- The field `Tag` of a `reflect.StructField`. -/
def StructField.Tag : StructField → StructTag
  | .mk _ _ tag => tag

/-- The kinds of `reflect.Kind` that the decoder distinguishes. -/
inductive Kind where
  | Bool | Int | Int8 | Int16 | Int32 | Int64
  | Uint | Uint8 | Uint16 | Uint32 | Uint64
  | Float32 | Float64 | Complex64 | Complex128
  | String | Struct | Pointer | Slice | Interface
  /-- Any other kind (map, chan, func, array), by its printed name. -/
  | Other (name : String)
  deriving DecidableEq, Repr

/-- The method `Kind()` of `reflect.Type`. -/
def Typ.Kind : Typ → Kind
  | .string => .String | .bool => .Bool
  | .time => .Struct | .duration => .Int64
  | .int => .Int | .int8 => .Int8 | .int16 => .Int16 | .int32 => .Int32 | .int64 => .Int64
  | .uint => .Uint | .uint8 => .Uint8 | .uint16 => .Uint16 | .uint32 => .Uint32
  | .uint64 => .Uint64
  | .float32 => .Float32 | .float64 => .Float64
  | .complex64 => .Complex64 | .complex128 => .Complex128
  | .defined _ u => u.Kind
  | .pointer _ => .Pointer
  | .slice _ => .Slice
  | .struct _ _ => .Struct
  | .iface _ => .Interface
  | .unmodelled _ kind => .Other kind

/-- The method `String()` of `reflect.Type`, which `%v` prints. -/
def Typ.String : Typ → String
  | .string => "string" | .bool => "bool"
  | .time => "time.Time" | .duration => "time.Duration"
  | .int => "int" | .int8 => "int8" | .int16 => "int16" | .int32 => "int32" | .int64 => "int64"
  | .uint => "uint" | .uint8 => "uint8" | .uint16 => "uint16" | .uint32 => "uint32"
  | .uint64 => "uint64"
  | .float32 => "float32" | .float64 => "float64"
  | .complex64 => "complex64" | .complex128 => "complex128"
  | .defined name _ => name
  | .pointer e => "*" ++ e.String
  | .slice e => "[]" ++ e.String
  | .struct name _ => name
  | .iface name => name
  | .unmodelled name _ => name

/-- The method `Elem()` of `reflect.Type`, called by the decoder on pointer and slice kinds
only. -/
def Typ.Elem : Typ → Typ
  | .pointer e => e
  | .slice e => e
  | .defined _ u => u.Elem
  | t => t

/-- A Go value. Floating-point numbers are carried as bit patterns, a time as an instant
relative to the zero `time.Time`. -/
inductive Value where
  | string (s : String)
  | bool (b : Bool)
  | time (t : Int)
  /-- A value of a signed integer kind (also `time.Duration`). -/
  | int (n : Int)
  /-- A value of an unsigned integer kind. -/
  | uint (n : Nat)
  | float (bits : Nat)
  | complex (re im : Nat)
  /-- The nil pointer, nil slice or nil interface. -/
  | nil
  /-- A non-nil pointer, given by the content of the storage it points to. -/
  | pointer (v : Value)
  | slice (vs : List Value)
  | struct (fs : List Value)
  /-- A non-nil interface holding `v` of dynamic type `typ`. -/
  | boxed (typ : Typ) (v : Value)
  /-- A value of a type outside the model. -/
  | unmodelled (name : String)

mutual
/-- The zero value of a type, as `new(T)` and `reflect.New` allocate it. -/
def zero : Typ → Value
  | .string => .string "" | .bool => .bool false
  | .time => .time 0 | .duration => .int 0
  | .int => .int 0 | .int8 => .int 0 | .int16 => .int 0 | .int32 => .int 0 | .int64 => .int 0
  | .uint => .uint 0 | .uint8 => .uint 0 | .uint16 => .uint 0 | .uint32 => .uint 0
  | .uint64 => .uint 0
  | .float32 => .float 0 | .float64 => .float 0
  | .complex64 => .complex 0 0 | .complex128 => .complex 0 0
  | .defined _ u => zero u
  | .pointer _ => .nil
  | .slice _ => .nil
  | .struct _ fs => .struct (zeroFields fs)
  | .iface _ => .nil
  | .unmodelled name _ => .unmodelled name
/-- The zero values of the fields of a struct type, in declaration order. -/
def zeroFields : List StructField → List Value
  | [] => []
  | .mk _ t _ :: fs => zero t :: zeroFields fs
end

/-- A `reflect.Value`: storage of type `typ` holding `val`; `flagRO` is set when the value
was obtained through an unexported struct field, and then `Interface` and `Set` panic. -/
structure RValue where
  typ : Typ
  val : Value
  flagRO : Bool

/-- The method `Kind()` of `reflect.Value`. -/
def RValue.Kind (v : RValue) : Kind := v.typ.Kind

/-- A value of type `interface{}`: `none` is the nil interface, `some (t, v)` holds `v` of
dynamic type `t`. -/
abbrev Any := Option (Typ × Value)

/-- The method `Interface()` of `reflect.Value` on a value without `flagRO`: the content of
an interface-kinded storage as it is, any other storage boxed with its own type. -/
def RValue.Interface (v : RValue) : Any :=
  match v.typ.Kind, v.val with
  | .Interface, .boxed t x => some (t, x)
  | .Interface, _ => none
  | _, x => some (v.typ, x)

/-- The function `reflect.TypeOf` printed with `%v`. -/
def typeOfString : Any → String
  | none => "<nil>"
  | some (t, _) => t.String

/-! ## Collaborators -/

/-- The routines this package calls outside itself and outside integer and boolean
parsing. -/
structure Env where
  /-- The function `strconv.ParseFloat(s, bitSize)`. -/
  ParseFloat : String → Nat → Nat × Option Error
  /-- The conversion `float32(x)`. -/
  float32 : Nat → Nat
  /-- The function `strconv.ParseComplex(s, bitSize)`. -/
  ParseComplex : String → Nat → (Nat × Nat) × Option Error
  /-- The conversion `complex64(x)`. -/
  complex64 : Nat × Nat → Nat × Nat
  /-- The function `time.Parse(time.RFC3339, s)`. -/
  timeParse : String → Int × Option Error
  /-- The function `time.ParseDuration`. -/
  ParseDuration : String → Int × Option Error
  /-- The call `json.Unmarshal(b, &data)` where `data` holds a pointer to storage of the given
  type and content: the content after the call, and the error. -/
  Unmarshal : String → Typ → Value → Value × Option Error
  /-- The bytes that `json.NewEncoder(wr).Encode(v)` writes for a response value, and the
  error; with an error nothing is written. -/
  Marshal : Value → String × Option Error
  /-- The bytes that `json.NewEncoder(wr).Encode(&res)` writes for
  `res = ErrorResponse{Error: err, StackTrace: stack}`, and the error. -/
  MarshalErrorResponse : Error → String → String × Option Error
  /-- The function `strconv.Quote`, used in the text of a `*strconv.NumError`. -/
  Quote : String → String
  /-- The trace that `debug.Stack()` returns. -/
  Stack : String
  /-- The function `unicode.IsUpper` on the characters outside ASCII. -/
  IsUpper : Char → Bool

/-- The function `token.IsExported`: the first character of the name is an upper-case letter;
`isUpper` is `unicode.IsUpper` outside ASCII. -/
def isExportedName (isUpper : Char → Bool) (name : String) : Bool :=
  match name.data with
  | [] => false
  | c :: _ => if c.toNat < 128 then decide (65 ≤ c.toNat ∧ c.toNat ≤ 90) else isUpper c

/-- Whether a struct field of this name is exported. `Value.Field(i)` sets `flagRO` on every
field that is not. -/
def IsExported (env : Env) (name : String) : Bool := isExportedName env.IsUpper name

/-! ## decoder.go: the value resolver -/

/-- The function `resolve` of decoder.go: a type switch on the dynamic type of `t`. -/
def resolve (env : Env) (t : Any) (v : String) : Any × Option Error :=
  match t with
  | some (.string, _) => (some (.string, .string v), none)
  | some (.bool, _) =>
    let (b, err) := ParseBool v
    (some (.bool, .bool b), err)
  | some (.time, _) =>
    let (x, err) := env.timeParse v
    (some (.time, .time x), err)
  | some (.duration, _) =>
    let (d, err) := env.ParseDuration v
    (some (.duration, .int d), err)
  | some (.int, _) =>
    let (i, err) := ParseInt v 32
    (some (.int, .int (wrapInt IntSize i)), err)
  | some (.int64, _) =>
    let (i, err) := ParseInt v 64
    (some (.int64, .int i), err)
  | some (.int32, _) =>
    let (i, err) := ParseInt v 32
    (some (.int32, .int (wrapInt 32 i)), err)
  | some (.int16, _) =>
    let (i, err) := ParseInt v 16
    (some (.int16, .int (wrapInt 16 i)), err)
  | some (.int8, _) =>
    let (i, err) := ParseInt v 8
    (some (.int8, .int (wrapInt 8 i)), err)
  | some (.float64, _) =>
    let (x, err) := env.ParseFloat v 64
    (some (.float64, .float x), err)
  | some (.float32, _) =>
    let (i, err) := env.ParseFloat v 32
    (some (.float32, .float (env.float32 i)), err)
  | some (.uint, _) =>
    let (i, err) := ParseUint v 32
    (some (.uint, .uint (wrapUint IntSize i)), err)
  | some (.uint64, _) =>
    let (i, err) := ParseUint v 64
    (some (.uint64, .uint i), err)
  | some (.uint32, _) =>
    let (i, err) := ParseUint v 32
    (some (.uint32, .uint (wrapUint 32 i)), err)
  | some (.uint16, _) =>
    let (i, err) := ParseUint v 16
    (some (.uint16, .uint (wrapUint 16 i)), err)
  | some (.uint8, _) =>
    let (i, err) := ParseUint v 8
    (some (.uint8, .uint (wrapUint 8 i)), err)
  | some (.complex128, _) =>
    let (x, err) := env.ParseComplex v 128
    (some (.complex128, .complex x.1 x.2), err)
  | some (.complex64, _) =>
    let (i, err) := env.ParseComplex v 64
    (some (.complex64, .complex (env.complex64 i).1 (env.complex64 i).2), err)
  | _ => (none, some (.unsupportedType (typeOfString t)))

/-! ## The request -/

/-- The type `url.Values` (and, with canonical keys, `http.Header`): a map from a key to the
list of its values in order of occurrence. -/
abbrev Values := List (String × List String)

/-- The map index `v[key]`: the values under `key`, nil when the key is absent. -/
def Values.index (v : Values) (key : String) : List String :=
  match v.lookup key with
  | some vs => vs
  | none => []

/-- The method `Has` of `url.Values`. -/
def Values.Has (v : Values) (key : String) : Bool := (v.lookup key).isSome

/-- The method `Get` of `url.Values` and of `http.Header`: the first value under `key`, or
`""`. -/
def Values.Get (v : Values) (key : String) : String :=
  match v.index key with
  | [] => ""
  | x :: _ => x

/-- The field `URL` of a request: how it prints, and what `Query()` parses out of it. -/
structure URL where
  text : String
  Query : Values
  deriving DecidableEq, Repr

/-- The body reader of a request: the bytes not yet read, the error a read ends with instead
of end-of-file, the number of `Close` calls made so far, and the error of a read after
`Close`: `http.ErrBodyReadAfterClose` for the body of a request that a server received, none
for `http.NoBody` and for a reader under `io.NopCloser`, as `httptest.NewRequest` makes it. -/
structure Body where
  pending : String
  failure : Option Error
  closed : Nat
  afterClose : Option Error
  deriving DecidableEq, Repr

/-- The function `io.ReadAll` on a body: the bytes read, the error, and the reader after the
call. A closed body that refuses reads yields no bytes and its error. -/
def Body.ReadAll (b : Body) : String × Option Error × Body :=
  match (if 0 < b.closed then b.afterClose else none) with
  | some err => ("", some err, b)
  | none => (b.pending, b.failure, { b with pending := "" })

/-- The method `Close` of the body reader. -/
def Body.Close (b : Body) : Body := { b with closed := b.closed + 1 }

/-- An `*http.Request`, as far as this package reads it. -/
structure Request where
  URL : URL
  Header : Values
  Body : Body
  deriving DecidableEq, Repr

/-! ## decoder.go: the field binder and the request decoder -/

/-- The pieces of `strings.Split(s, ",")` over the characters of `s`. -/
def splitComma : List Char → List (List Char)
  | [] => [[]]
  | c :: cs =>
    if c = ',' then [] :: splitComma cs
    else
      match splitComma cs with
      | [] => [[c]]
      | p :: ps => (c :: p) :: ps

/-- The call `strings.Split(s, ",")`. -/
def Split (s : String) : List String := (splitComma s.data).map String.mk

/-- The function `reflect.ValueOf(v)` stored by `Set` into storage of the kind of `field`: an
interface-kinded storage keeps the dynamic type, any other storage takes the value. Storing
the nil interface faults in Go; `resolve` returns it only together with an error, and then
`Set` is not reached. -/
def RValue.Set (field : RValue) (v : Any) : Value :=
  match v with
  | none => field.val
  | some (t, x) => if field.Kind = .Interface then .boxed t x else x

/-- The function `resolveValue` of decoder.go; the result is the content of `field` after the
call. On a pointer field the token is resolved on a fresh pointee first, and `field.Set` is
reached only without error; on any other field `field.Interface()` comes first. Both panic on
a field with `flagRO`. -/
def resolveValue (env : Env) (field : RValue) (typ : Typ) (value : String) :
    Value × Option Stop :=
  if field.Kind = .Pointer then
    match resolve env (RValue.Interface ⟨typ.Elem, zero typ.Elem, false⟩) value with
    | (_, some err) => (field.val, some (.error err))
    | (v, none) =>
      if field.flagRO then (field.val, some (.fault setPanic))
      else (.pointer (RValue.Set ⟨typ.Elem, zero typ.Elem, false⟩ v), none)
  else if field.flagRO then (field.val, some (.fault interfacePanic))
  else
    match resolve env field.Interface value with
    | (_, some err) => (field.val, some (.error err))
    | (v, none) => (field.Set v, none)

/-- The loop of `resolveValues` over the elements of the slice made by `reflect.MakeSlice`:
element `i` starts as the zero value of the element type, carries no `flagRO`, and is resolved
from `values[i]`. -/
def resolveElems (env : Env) (typ : Typ) : List String → List Value × Option Stop
  | [] => ([], none)
  | value :: rest =>
    match resolveValue env ⟨typ.Elem, zero typ.Elem, false⟩ typ value with
    | (_, some stop) => ([], some stop)
    | (x, none) =>
      match resolveElems env typ rest with
      | (xs, stop) => (x :: xs, stop)

/-- The function `resolveValues` of decoder.go; the result is the content of `field` after
the call. The closing `field.Set` panics on a field with `flagRO`. -/
def resolveValues (env : Env) (field : RValue) (typ : Typ) (values : List String) :
    Value × Option Stop :=
  match resolveElems env typ values with
  | (_, some stop) => (field.val, some stop)
  | (xs, none) =>
    if field.flagRO then (field.val, some (.fault setPanic))
    else (.slice xs, none)

/-- The function `decodeQuery` of decoder.go; the result is the content of `field` after the
call. -/
def decodeQuery (env : Env) (field : RValue) (typ : Typ) (query : Values) (tag : String) :
    Value × Option Stop :=
  let parts := Split tag
  let name := parts.headD ""
  if query.Has name then
    if field.Kind = .Slice then
      let explode := parts.tail.any (fun p => p = "explode")
      let value := if explode then query.index name else Split (query.Get name)
      resolveValues env field typ value
    else resolveValue env field typ (query.Get name)
  else (field.val, none)

/-- The function `decodeBody` of decoder.go, called with a pointer to the storage `data` (a
pointer carries no `flagRO`); the result is the request with its body read, and the content of
the storage after the call. -/
def decodeBody (env : Env) (r : Request) (data : RValue) : Request × Value × Option Error :=
  match r.Body.ReadAll with
  | (_, some err, rest) => ({ r with Body := rest }, data.val, some err)
  | (b, none, rest) =>
    let r := { r with Body := rest.Close }
    if b.length = 0 then (r, data.val, none)
    else if r.Header.Get "Content-Type" = "application/json" then
      match env.Unmarshal b data.typ data.val with
      | (v, err) => (r, v, err)
    else (r, data.val, none)

mutual
/-- The function `decodeStruct` of decoder.go, called with a pointer to the storage `data` of
type `t`; the result is the request after the body reads made on the way, the content of the
storage, the flag `body`, and the error. The function is called on struct kinds only; the walk
over `time.Time` meets three unannotated fields of scalar and pointer kind and changes
nothing. -/
def decodeStruct (env : Env) (r : Request) : Typ → Value → Request × Value × Bool × Option Stop
  | .struct _ fields, .struct vals =>
    match decodeFields env r fields vals false with
    | (r, vals, body, stop) => (r, .struct vals, body, stop)
  | .defined _ u, data => decodeStruct env r u data
  | _, data => (r, data, false, none)
/-- One round of the loop of `decodeStruct`, on the field `f` holding `field`, entered with
the flag `body`. The value `Field(i)` carries `flagRO` when the field is not exported; then
`field.Addr().Interface()` panics, before the walk over a struct field and before the body is
read into a body-annotated field. -/
def decodeField (env : Env) (r : Request) :
    StructField → Value → Bool → Request × Value × Bool × Option Stop
  | .mk name typ tag, field, body =>
    match (if typ.Kind = .Struct then
             if IsExported env name then decodeStruct env r typ field
             else (r, field, body, some (.fault interfacePanic))
           else (r, field, body, none)) with
    | (r, field, body, some stop) => (r, field, body, some stop)
    | (r, field, body, none) =>
      match (if tag.query ≠ "" then
               decodeQuery env ⟨typ, field, !IsExported env name⟩ typ r.URL.Query tag.query
             else (field, none)) with
      | (field, some stop) => (r, field, body, some stop)
      | (field, none) =>
        if tag.body ≠ "" then
          if IsExported env name then
            match decodeBody env r ⟨typ, field, false⟩ with
            | (r, field, err) => (r, field, true, err.map Stop.error)
          else (r, field, true, some (.fault interfacePanic))
        else (r, field, body, none)
/-- The loop of `decodeStruct` from some field on: the fields still to visit with the content
they hold, entered with the flag `body`. -/
def decodeFields (env : Env) (r : Request) :
    List StructField → List Value → Bool → Request × List Value × Bool × Option Stop
  | f :: fs, field :: vals, body =>
    match decodeField env r f field body with
    | (r, field, body, some stop) => (r, field :: vals, body, some stop)
    | (r, field, body, none) =>
      match decodeFields env r fs vals body with
      | (r, vals, body, stop) => (r, field :: vals, body, stop)
  | _, vals, body => (r, vals, body, none)
end

/-- The function `decodeRequest` of decoder.go. -/
def decodeRequest (env : Env) (r : Request) (t : Typ) (data : Value) :
    Request × Value × Option Stop :=
  match decodeStruct env r t data with
  | (r, data, _, some stop) => (r, data, some stop)
  | (r, data, body, none) =>
    if ¬ body then
      match decodeBody env r ⟨t, data, false⟩ with
      | (r, data, err) => (r, data, err.map Stop.error)
    else (r, data, none)

/-- The method `String()` of `reflect.Kind` (the name `String` is taken by the kind). -/
def kindText : Kind → String
  | .Bool => "bool" | .Int => "int" | .Int8 => "int8" | .Int16 => "int16"
  | .Int32 => "int32" | .Int64 => "int64"
  | .Uint => "uint" | .Uint8 => "uint8" | .Uint16 => "uint16" | .Uint32 => "uint32"
  | .Uint64 => "uint64"
  | .Float32 => "float32" | .Float64 => "float64"
  | .Complex64 => "complex64" | .Complex128 => "complex128"
  | .String => "string" | .Struct => "struct" | .Pointer => "ptr" | .Slice => "slice"
  | .Interface => "interface"
  | .Other name => name

/-- The function `DecodeRequest[T]` of decoder.go: the request after the call, the returned
pointer (`none` is nil, `some v` points to `v`) and the error, or the panic that passes
through the function. The type of `new(T)` is the pointer type `*T`, never nil. -/
def DecodeRequest (env : Env) (T : Typ) (req : Request) :
    Request × Option Value × Option Stop :=
  let data := zero T
  let typ := Typ.pointer T
  let typ := if typ.Kind = .Pointer then typ.Elem else typ
  if typ.Kind ≠ .Struct then
    (req, none, some (.error (.invalidDecodeType (kindText typ.Kind))))
  else
    match decodeRequest env req typ data with
    | (req, _, some stop) => (req, none, some stop)
    | (req, data, none) => (req, some data, none)

/-! ## error.go, controller.go, handler.go: the dispatch core -/

/-- The method `Error()` of an error value. -/
def Error.Error (env : Env) : Error → String
  | .numSyntax fn num => "strconv." ++ fn ++ ": parsing " ++ env.Quote num ++ ": invalid syntax"
  | .numRange fn num =>
    "strconv." ++ fn ++ ": parsing " ++ env.Quote num ++ ": value out of range"
  | .numBitSize fn num bitSize =>
    "strconv." ++ fn ++ ": parsing " ++ env.Quote num ++ ": invalid bit size " ++ toString bitSize
  | .unsupportedType typ => "unsupported type: " ++ typ
  | .invalidDecodeType kind => "invalid decode type: " ++ kind
  | .acceptNotSupported => "mime type provided in Accept header is not supported"
  | .foreign msg => msg

/-- How a call into code outside this package ends: it returns, or it panics. -/
inductive Outcome (α : Type) where
  | ret (a : α)
  | fault (p : PanicValue)

/-- An `http.HandlerFunc` that a boundary returns to redirect the request, by its name. -/
abbrev HandlerFunc := String

/-- The lines that the dispatch core prints through `log.Printf`. -/
inductive LogLine where
  /-- The line `[Request] (http) url -> handler type`. -/
  | request (url : String) (handlerType : String)
  /-- The line `[ErrorBoundary] url -> handled`. -/
  | errorHandled (url : String)
  /-- The line `[ErrorBoundary] url -> not implemented`. -/
  | errorNotImplemented (url : String)
  /-- The line `[PanicBoundary] url -> handled`. -/
  | panicHandled (url : String)
  /-- The line `[UncaughtPanic]` with the error and the stack trace. -/
  | uncaughtPanic (url : String) (handlerType : String) (err : Error) (stack : String)
  /-- The line `[UncaughtPanic] url -> failed to write error response`. -/
  | writeFailed (url : String) (err : Error)
  deriving DecidableEq, Repr

/-- What one run of `ServeHTTP` does to the world outside it, in order: lines logged, calls
into the handler and its boundaries, and writes to the response sink. -/
inductive Event where
  | log (line : LogLine)
  /-- The call `v.Validate(req.Context())` on the decoded request. -/
  | validate (request : Value)
  /-- The call `ctl.handler.Handle(req.Context(), request)`. -/
  | handle (request : Value)
  /-- The call `ctl.errorBoundary.ErrorBoundary(wr, req, err)`. -/
  | errorBoundary (req : Request) (err : Error)
  /-- The call `ctl.panicBoundary.PanicBoundary(wr, req, err)`. -/
  | panicBoundary (req : Request) (err : Error)
  /-- The call `h(wr, req)` of a handler that a boundary returned. -/
  | serve (h : HandlerFunc) (req : Request)
  /-- The call `wr.Header().Set(key, value)`. -/
  | setHeader (key value : String)
  /-- The call `wr.WriteHeader(status)`. -/
  | writeHeader (status : Nat)
  /-- The call `wr.Write(bytes)`. -/
  | write (bytes : String)

/-- A handler as `New` receives it: the mandatory `Handle`, and the methods `ErrorBoundary`
and `PanicBoundary` when the handler has them. A boundary returns the handler that takes the
request over, or nil. -/
structure Handler where
  /-- The type of the handler as `%T` prints it. -/
  typeName : String
  Handle : Value → Outcome (Value × Option Error)
  ErrorBoundary : Option (Request → Error → Option HandlerFunc)
  PanicBoundary : Option (Request → Error → Option HandlerFunc)

/-- The struct `controllerImpl[T, K]`, with the request type `T` and the method `Validate` of
`*T` when `*T` is a `SelfValidator`. -/
structure controllerImpl where
  T : Typ
  Validate : Option (Value → Outcome (Option Error))
  handler : Handler
  errorBoundary : Option (Request → Error → Option HandlerFunc)
  panicBoundary : Option (Request → Error → Option HandlerFunc)

/-- The function `New[T, K]` of controller.go. -/
def New (T : Typ) (Validate : Option (Value → Outcome (Option Error))) (h : Handler) :
    controllerImpl :=
  { T := T, Validate := Validate, handler := h,
    errorBoundary := h.ErrorBoundary, panicBoundary := h.PanicBoundary }

/-- The function `http.Error(wr, error, code)`. -/
def httpError (error : String) (code : Nat) : List Event :=
  [.setHeader "Content-Type" "text/plain; charset=utf-8",
   .setHeader "X-Content-Type-Options" "nosniff",
   .writeHeader code,
   .write (error ++ "\n")]

/-- The function `writeErrorResponse` of error.go: what it writes, and the error it returns. -/
def writeErrorResponse (env : Env) (req : Request) (err : Error) (stack : String) :
    List Event × Option Error :=
  if req.Header.Get "Accept" = "application/json" then
    match env.MarshalErrorResponse err stack with
    | (_, some e) => ([], some e)
    | (bytes, none) => ([.write bytes], none)
  else (httpError (err.Error env) 500, none)

/-- The method `handleError` of handler.go: what it does, and the value it panics with when
it panics. -/
def handleError (ctl : controllerImpl) (req : Request) (err : Error) :
    List Event × Option PanicValue :=
  match ctl.errorBoundary with
  | some boundary =>
    match boundary req err with
    | some h => ([.errorBoundary req err, .log (.errorHandled req.URL.text), .serve h req], none)
    | none => ([.errorBoundary req err], none)
  | none => ([.log (.errorNotImplemented req.URL.text)], some (.error err))

/-- The method `handlePanic` of handler.go. -/
def handlePanic (env : Env) (ctl : controllerImpl) (req : Request) (err : Error) : List Event :=
  match ctl.panicBoundary with
  | some boundary =>
    match boundary req err with
    | some h => [.panicBoundary req err, .log (.panicHandled req.URL.text), .serve h req]
    | none => [.panicBoundary req err]
  | none =>
    let stack := env.Stack
    let line := Event.log (.uncaughtPanic req.URL.text ctl.handler.typeName err stack)
    match writeErrorResponse env req err stack with
    | (written, some e) => line :: written ++ [.log (.writeFailed req.URL.text e)]
    | (written, none) => line :: written

/-- The body of the method `ServeHTTP` of handler.go, without the deferred function: what it
does, the value it panics with when it panics, and the request as the decoder left it.
`DecodeRequest` returns a nil target only together with an error; the case of a nil target
without error is closed here without further calls. -/
def serveBody (env : Env) (ctl : controllerImpl) (req : Request) :
    List Event × Option PanicValue × Request :=
  let start := [Event.log (.request req.URL.text ctl.handler.typeName)]
  match DecodeRequest env ctl.T req with
  | (req, _, some (.fault p)) => (start, some p, req)
  | (req, _, some (.error err)) =>
    let (done, p) := handleError ctl req err
    (start ++ done, p, req)
  | (req, none, none) => (start, none, req)
  | (req, some request, none) =>
    let validated : List Event × Option (Outcome (Option Error)) :=
      match ctl.Validate with
      | some v => ([.validate request], some (v request))
      | none => ([], none)
    match validated with
    | (checked, some (.fault p)) => (start ++ checked, some p, req)
    | (checked, some (.ret (some err))) =>
      let (done, p) := handleError ctl req err
      (start ++ checked ++ done, p, req)
    | (checked, _) =>
      match ctl.handler.Handle request with
      | .fault p => (start ++ checked ++ [.handle request], some p, req)
      | .ret (_, some err) =>
        let (done, p) := handleError ctl req err
        (start ++ checked ++ [.handle request] ++ done, p, req)
      | .ret (response, none) =>
        let encoded : List Event × Option Error :=
          if req.Header.Get "Accept" = "application/json" then
            match env.Marshal response with
            | (_, some e) => ([], some e)
            | (bytes, none) => ([.write bytes], none)
          else ([], some .acceptNotSupported)
        match encoded with
        | (written, some err) =>
          let (done, p) := handleError ctl req err
          (start ++ checked ++ [.handle request] ++ written ++ done, p, req)
        | (written, none) =>
          (start ++ checked ++ [.handle request] ++ written ++ [.writeHeader 200], none, req)

/-- The method `ServeHTTP` of handler.go: the body, then the deferred function, which hands a
recovered panic value to `handlePanic` when the value is a non-nil `error`. -/
def ServeHTTP (env : Env) (ctl : controllerImpl) (req : Request) : List Event :=
  match serveBody env ctl req with
  | (done, some (.error err), req) => done ++ handlePanic env ctl req err
  | (done, _, _) => done

/-! ## Decimal tokens -/

/-- The character of the decimal digit `d`. -/
def digitChar (d : Nat) : Char := Char.ofNat (48 + d)

/-- The decimal digits of `n`, most significant first, followed by `acc`. -/
def formatDigits : Nat → Nat → List Char → List Char
  | 0, _, acc => acc
  | fuel + 1, n, acc =>
    if n < 10 then digitChar n :: acc
    else formatDigits fuel (n / 10) (digitChar (n % 10) :: acc)

/-- The function `strconv.FormatUint(n, 10)`: the base-10 token of a natural number. -/
def FormatUint (n : Nat) : String := String.mk (formatDigits (n + 1) n [])

/-- The function `strconv.FormatInt(n, 10)`: the base-10 token of an integer. -/
def FormatInt (n : Int) : String :=
  if n < 0 then String.mk ('-' :: formatDigits (n.natAbs + 1) n.natAbs [])
  else FormatUint n.toNat

/-- The fixed-width integer kinds. -/
inductive IntKind where
  | int8 | int16 | int32 | int64 | uint8 | uint16 | uint32 | uint64
  deriving DecidableEq, Repr

/-- The Go type of a fixed-width integer kind. -/
def IntKind.typ : IntKind → Typ
  | .int8 => .int8 | .int16 => .int16 | .int32 => .int32 | .int64 => .int64
  | .uint8 => .uint8 | .uint16 => .uint16 | .uint32 => .uint32 | .uint64 => .uint64

/-- Whether the kind is signed. -/
def IntKind.signed : IntKind → Bool
  | .int8 | .int16 | .int32 | .int64 => true
  | _ => false

/-- The width of the kind in bits. -/
def IntKind.bits : IntKind → Nat
  | .int8 | .uint8 => 8
  | .int16 | .uint16 => 16
  | .int32 | .uint32 => 32
  | .int64 | .uint64 => 64

/-- The representable range of the kind. -/
def IntKind.InRange (K : IntKind) (n : Int) : Prop :=
  if K.signed then -(2 ^ (K.bits - 1) : Int) ≤ n ∧ n < 2 ^ (K.bits - 1)
  else 0 ≤ n ∧ n < 2 ^ K.bits

/-- The Go value of kind `K` that holds the integer `n`. -/
def IntKind.box (K : IntKind) (n : Int) : Value :=
  if K.signed then .int n else .uint n.toNat

/-- The value the digit loop accumulates over decimal digit characters. -/
def digitsVal (ds : List Char) (a : Nat) : Nat :=
  ds.foldl (fun a c => a * 10 + (c.toNat - 48)) a

instance (K : IntKind) (n : Int) : Decidable (K.InRange n) := by
  unfold IntKind.InRange
  exact inferInstance

/-! ## Vocabulary of the statements -/

/-- The types that have a case of their own in the type switch of `resolve`. -/
def Typ.Supported : Typ → Bool
  | .string | .bool | .time | .duration
  | .int | .int8 | .int16 | .int32 | .int64
  | .uint | .uint8 | .uint16 | .uint32 | .uint64
  | .float32 | .float64 | .complex64 | .complex128 => true
  | _ => false

/-- The characters of `strings.Join(toks, ",")`. -/
def joinComma : List (List Char) → List Char
  | [] => []
  | [t] => t
  | t :: u :: rest => t ++ ',' :: joinComma (u :: rest)

/-- The call `strings.Join(toks, ",")`. -/
def Join (toks : List String) : String := String.mk (joinComma (toks.map String.data))

/-- The value that `resolve` yields for the token `tok` at element type `elem`. -/
def resolved (env : Env) (elem : Typ) (tok : String) : Value :=
  match (resolve env (some (elem, zero elem)) tok).1 with
  | some (_, v) => v
  | none => .nil

mutual
/-- No field that the walk of `decodeStruct` over the type visits carries a body annotation. -/
def noBodyTag : Typ → Bool
  | .struct _ fs => noBodyTagFields fs
  | .defined _ u => noBodyTag u
  | _ => true
/-- The field carries no body annotation, and neither does a field of its struct type. -/
def noBodyTagField : StructField → Bool
  | .mk _ typ tag => tag.body = "" && noBodyTag typ
/-- No field of the list, at any depth of the walk, carries a body annotation. -/
def noBodyTagFields : List StructField → Bool
  | [] => true
  | f :: fs => noBodyTagField f && noBodyTagFields fs
end

mutual
/-- No field that the walk of `decodeStruct` over the type visits carries a query
annotation. -/
def noQueryTag : Typ → Bool
  | .struct _ fs => noQueryTagFields fs
  | .defined _ u => noQueryTag u
  | _ => true
/-- The field carries no query annotation, and neither does a field of its struct type. -/
def noQueryTagField : StructField → Bool
  | .mk _ typ tag => tag.query = "" && noQueryTag typ
/-- No field of the list, at any depth of the walk, carries a query annotation. -/
def noQueryTagFields : List StructField → Bool
  | [] => true
  | f :: fs => noQueryTagField f && noQueryTagFields fs
end

mutual
/-- `FailsIn env r t v err`: the walk of `decodeStruct` over the storage `v` of struct type
`t` comes to a query-annotated field that fails to resolve with `err`. -/
inductive FailsIn (env : Env) : Request → Typ → Value → Error → Prop where
  | struct {r nm fs vs err} :
      FailsAt env r fs vs false err → FailsIn env r (.struct nm fs) (.struct vs) err
  | defined {r nm u v err} :
      FailsIn env r u v err → FailsIn env r (.defined nm u) v err
/-- `FailsAt env r fs vs body err`: the walk of `decodeStruct` over the fields `fs` holding
`vs`, entered with the request `r` and the flag `body`, comes to a query-annotated field whose
parameter is present in the query and fails to resolve with `err`: the first field itself
after the walk over its own struct, if it has one, raised no error (`here`), a field inside the
struct of the first field, which is exported (`inside`), or a field met after the round of the
first field raised no error (`after`). -/
inductive FailsAt (env : Env) : Request → List StructField → List Value → Bool → Error → Prop
    where
  | here {r n typ tag v vs post b r1 v1 b1 v' err} :
      (if typ.Kind = .Struct then
          if IsExported env n then decodeStruct env r typ v
          else (r, v, b, some (.fault interfacePanic))
        else (r, v, b, none)) = (r1, v1, b1, none) →
      tag.query ≠ "" →
      r1.URL.Query.Has ((Split tag.query).headD "") = true →
      decodeQuery env ⟨typ, v1, !IsExported env n⟩ typ r1.URL.Query tag.query =
        (v', some (.error err)) →
      FailsAt env r (.mk n typ tag :: post) (v :: vs) b err
  | inside {r n typ tag v vs post b err} :
      typ.Kind = .Struct → IsExported env n = true → FailsIn env r typ v err →
      FailsAt env r (.mk n typ tag :: post) (v :: vs) b err
  | after {r f v vs fs b r1 v1 b1 err} :
      decodeField env r f v b = (r1, v1, b1, none) →
      FailsAt env r1 fs vs b1 err →
      FailsAt env r (f :: fs) (v :: vs) b err
end

/-- The body of the request is empty and readable: nothing is pending and the read ends
without error. -/
def Request.EmptyBody (r : Request) : Prop :=
  r.Body.pending = "" ∧ r.Body.failure = none

/-- The request was decoded into `request`, which left the request as `req'`, and the
self-validation of the decoded value, when its type has one, returned no error. -/
def Validated (env : Env) (ctl : controllerImpl) (req req' : Request) (request : Value) :
    Prop :=
  DecodeRequest env ctl.T req = (req', some request, none) ∧
  (ctl.Validate = none ∨ ∃ v, ctl.Validate = some v ∧ v request = .ret none)

/-- `StageError env ctl req req' err`: on the request `req`, which the decoder leaves as
`req'`, a stage of the dispatch returns the error `err`: the decode, the self-validation, the
handler, or the representation of the response (an `Accept` header other than
`application/json`, or an error of the encoder). -/
inductive StageError (env : Env) (ctl : controllerImpl) (req : Request) :
    Request → Error → Prop where
  | decode {req' target err} :
      DecodeRequest env ctl.T req = (req', target, some (.error err)) →
      StageError env ctl req req' err
  | validate {req' request v err} :
      DecodeRequest env ctl.T req = (req', some request, none) →
      ctl.Validate = some v → v request = .ret (some err) → StageError env ctl req req' err
  | handle {req' request response err} :
      Validated env ctl req req' request →
      ctl.handler.Handle request = .ret (response, some err) → StageError env ctl req req' err
  | accept {req' request response} :
      Validated env ctl req req' request →
      ctl.handler.Handle request = .ret (response, none) →
      req'.Header.Get "Accept" ≠ "application/json" →
      StageError env ctl req req' .acceptNotSupported
  | encode {req' request response bytes err} :
      Validated env ctl req req' request →
      ctl.handler.Handle request = .ret (response, none) →
      req'.Header.Get "Accept" = "application/json" →
      env.Marshal response = (bytes, some err) → StageError env ctl req req' err

/-- The event is a step of the stages before any failure handling: the request line of the
log, or a call of `Validate` or `Handle`. -/
def Event.isStage : Event → Bool
  | .log (.request _ _) | .validate _ | .handle _ => true
  | _ => false

/-- The event belongs to the error boundary: its call, or the line that it handled the
error. -/
def Event.isErrorBoundary : Event → Bool
  | .errorBoundary _ _ | .log (.errorHandled _) => true
  | _ => false

/-- The event belongs to the fault path: the call of the fault boundary, or a line of the log
that `handlePanic` prints. -/
def Event.isFault : Event → Bool
  | .panicBoundary _ _ | .log (.panicHandled _) | .log (.uncaughtPanic _ _ _ _)
  | .log (.writeFailed _ _) => true
  | _ => false

/-- The event is a write of the dispatch core itself to the response sink. -/
def Event.isSinkWrite : Event → Bool
  | .setHeader _ _ | .writeHeader _ | .write _ => true
  | _ => false

/-- The event is the call of a redirect handler. -/
def Event.isServe : Event → Bool
  | .serve _ _ => true
  | _ => false

/-- The bytes written to the response sink, in order. -/
def responseBody : List Event → String
  | [] => ""
  | .write bytes :: rest => bytes ++ responseBody rest
  | _ :: rest => responseBody rest

/-- The status of the response as `http.ResponseWriter` fixes it: the status of the first
`WriteHeader`, or 200 when `Write` is called before any `WriteHeader`; `none` when the run
neither writes nor sets a status. -/
def responseStatus : List Event → Option Nat
  | [] => none
  | .writeHeader status :: _ => some status
  | .write _ :: _ => some 200
  | _ :: rest => responseStatus rest

/-- Whether the text `needle` occurs in the text `hay`. -/
def containsText (hay needle : String) : Bool :=
  hay.data.tails.any (fun t => needle.data.isPrefixOf t)

/-- The event is a call of `Handle`. -/
def Event.isHandle : Event → Bool
  | .handle _ => true
  | _ => false

/-- The event is a call of `Validate`. -/
def Event.isValidate : Event → Bool
  | .validate _ => true
  | _ => false

/-- The event is a call of the error boundary or of the fault boundary. -/
def Event.isBoundary : Event → Bool
  | .errorBoundary _ _ | .panicBoundary _ _ => true
  | _ => false

/-- What follows a call of `handleError` in a run: the events of `handleError`, and those of
`handlePanic` when `handleError` panics. -/
def errorTail (env : Env) (ctl : controllerImpl) (req : Request) (err : Error) : List Event :=
  (handleError ctl req err).1 ++
    match (handleError ctl req err).2 with
    | some (.error e) => handlePanic env ctl req e
    | _ => []

/-- The error, if there is one, is not the `invalid decode type` error of `DecodeRequest`. -/
def notInvalidType : Option Error → Bool
  | some (.invalidDecodeType _) => false
  | _ => true

/-- The errors that reads of the body end with are its own: none of them is the
`invalid decode type` error of this package. -/
def Body.OwnErrors (b : Body) : Prop :=
  notInvalidType b.failure = true ∧ notInvalidType b.afterClose = true

/-- The function did not stop with the `invalid decode type` error of `DecodeRequest`. -/
def Stop.notInvalidType : Option Stop → Bool
  | some (.error err) => Gravity.notInvalidType (some err)
  | _ => true

/-- The errors that the collaborators return are their own: none of them is the
`invalid decode type` error of this package. -/
structure Env.OwnErrors (env : Env) : Prop where
  ParseFloat : ∀ s bitSize, notInvalidType (env.ParseFloat s bitSize).2 = true
  ParseComplex : ∀ s bitSize, notInvalidType (env.ParseComplex s bitSize).2 = true
  timeParse : ∀ s, notInvalidType (env.timeParse s).2 = true
  ParseDuration : ∀ s, notInvalidType (env.ParseDuration s).2 = true
  Unmarshal : ∀ b t v, notInvalidType (env.Unmarshal b t v).2 = true

/-! ## encoding/json: the scanner, and the reader on flat objects -/

/-- The bytes of a character in UTF-8. -/
def utf8 (c : Char) : List Nat :=
  let n := c.toNat
  if n < 0x80 then [n]
  else if n < 0x800 then [0xC0 + n / 64, 0x80 + n % 64]
  else if n < 0x10000 then [0xE0 + n / 4096, 0x80 + n / 64 % 64, 0x80 + n % 64]
  else [0xF0 + n / 262144, 0x80 + n / 4096 % 64, 0x80 + n / 64 % 64, 0x80 + n % 64]

/-- The bytes of a Go string. -/
def bytesOf (s : String) : List Nat := s.data.flatMap utf8

/-- What the scanner of encoding/json is inside of (`parseObjectKey`, `parseObjectValue` and
`parseArrayValue` of scanner.go). -/
inductive ParseState where
  | objectKey | objectValue | arrayValue
  deriving DecidableEq, Repr

/-- The step functions of the scanner (`stateBeginValue` and the others of scanner.go). -/
inductive ScanStep where
  | beginValueOrEmpty | beginValue | beginStringOrEmpty | beginString
  | endValue | endTop
  | inString | inStringEsc
  /-- The states `stateInStringEscU` to `stateInStringEscU123`, by the number of hexadecimal
  digits still to come. -/
  | inStringEscU (left : Nat)
  | neg | one | zero | dot | dot0 | exp | expSign | exp0
  /-- The states inside the literals `true`, `false` and `null`, by the bytes still to
  come. -/
  | literal (word : String) (rest : List Nat)
  deriving DecidableEq, Repr

/-- The scanner of encoding/json: its step function and its stack, top first. -/
structure Scanner where
  step : ScanStep
  parseState : List ParseState
  deriving Repr

/-- The function `isSpace` of scanner.go. -/
def isSpace (c : Nat) : Bool := c = 32 || c = 9 || c = 13 || c = 10

/-- The function `quoteChar` of scanner.go. -/
def quoteChar (quote : String → String) (c : Nat) : String :=
  if c = 39 then "'\\''"
  else if c = 34 then "'\"'"
  else "'" ++ ((quote (String.singleton (Char.ofNat c))).drop 1).dropRight 1 ++ "'"

/-- The method `error` of the scanner: the message of the `SyntaxError`. -/
def scanError (quote : String → String) (c : Nat) (context : String) :
    Except String Scanner :=
  .error ("invalid character " ++ quoteChar quote c ++ " " ++ context)

/-- The constant `maxNestingDepth` of scanner.go. -/
def maxNestingDepth : Nat := 10000

/-- The method `pushParseState` of the scanner, after the caller has set the next step. -/
def pushParseState (quote : String → String) (s : Scanner) (c : Nat) (newParseState : ParseState)
    (next : ScanStep) : Except String Scanner :=
  if s.parseState.length + 1 ≤ maxNestingDepth then
    .ok { step := next, parseState := newParseState :: s.parseState }
  else scanError quote c "exceeded max depth"

/-- The function `stateEndTop` of scanner.go; the error it records is returned by
`checkValid` at the next byte or at the end of the input. -/
def stateEndTop (quote : String → String) (s : Scanner) (c : Nat) : Except String Scanner :=
  if isSpace c then .ok { s with step := .endTop }
  else scanError quote c "after top-level value"

/-- The function `stateEndValue` of scanner.go. -/
def stateEndValue (quote : String → String) (s : Scanner) (c : Nat) : Except String Scanner :=
  match s.parseState with
  | [] => stateEndTop quote s c
  | ps :: rest =>
    if isSpace c then .ok { s with step := .endValue }
    else
      match ps with
      | .objectKey =>
        if c = 58 then .ok { step := .beginValue, parseState := .objectValue :: rest }
        else scanError quote c "after object key"
      | .objectValue =>
        if c = 44 then .ok { step := .beginString, parseState := .objectKey :: rest }
        else if c = 125 then
          .ok { step := if rest.isEmpty then .endTop else .endValue, parseState := rest }
        else scanError quote c "after object key:value pair"
      | .arrayValue =>
        if c = 44 then .ok { s with step := .beginValue }
        else if c = 93 then
          .ok { step := if rest.isEmpty then .endTop else .endValue, parseState := rest }
        else scanError quote c "after array element"

/-- The function `stateBeginValue` of scanner.go. -/
def stateBeginValue (quote : String → String) (s : Scanner) (c : Nat) : Except String Scanner :=
  if isSpace c then .ok s
  else if c = 123 then pushParseState quote s c .objectKey .beginStringOrEmpty
  else if c = 91 then pushParseState quote s c .arrayValue .beginValueOrEmpty
  else if c = 34 then .ok { s with step := .inString }
  else if c = 45 then .ok { s with step := .neg }
  else if c = 48 then .ok { s with step := .zero }
  else if c = 116 then .ok { s with step := .literal "true" [114, 117, 101] }
  else if c = 102 then .ok { s with step := .literal "false" [97, 108, 115, 101] }
  else if c = 110 then .ok { s with step := .literal "null" [117, 108, 108] }
  else if 49 ≤ c ∧ c ≤ 57 then .ok { s with step := .one }
  else scanError quote c "looking for beginning of value"

/-- The function `stateBeginString` of scanner.go. -/
def stateBeginString (quote : String → String) (s : Scanner) (c : Nat) : Except String Scanner :=
  if isSpace c then .ok s
  else if c = 34 then .ok { s with step := .inString }
  else scanError quote c "looking for beginning of object key string"

/-- The states of scanner.go inside a number, from `state0` on. -/
def state0 (quote : String → String) (s : Scanner) (c : Nat) : Except String Scanner :=
  if c = 46 then .ok { s with step := .dot }
  else if c = 101 ∨ c = 69 then .ok { s with step := .exp }
  else stateEndValue quote s c

/-- The function `stateESign` of scanner.go. -/
def stateESign (quote : String → String) (s : Scanner) (c : Nat) : Except String Scanner :=
  if 48 ≤ c ∧ c ≤ 57 then .ok { s with step := .exp0 }
  else scanError quote c "in exponent of numeric literal"

/-- Whether the byte is a hexadecimal digit. -/
def isHex (c : Nat) : Bool :=
  (48 ≤ c && c ≤ 57) || (97 ≤ c && c ≤ 102) || (65 ≤ c && c ≤ 70)

/-- One call `s.step(s, c)` of the scanner. -/
def scanStep (quote : String → String) (s : Scanner) (c : Nat) : Except String Scanner :=
  match s.step with
  | .beginValueOrEmpty =>
    if isSpace c then .ok s
    else if c = 93 then stateEndValue quote s c
    else stateBeginValue quote s c
  | .beginValue => stateBeginValue quote s c
  | .beginStringOrEmpty =>
    if isSpace c then .ok s
    else if c = 125 then
      stateEndValue quote { s with parseState := .objectValue :: s.parseState.tail } c
    else stateBeginString quote s c
  | .beginString => stateBeginString quote s c
  | .endValue => stateEndValue quote s c
  | .endTop => stateEndTop quote s c
  | .inString =>
    if c = 34 then .ok { s with step := .endValue }
    else if c = 92 then .ok { s with step := .inStringEsc }
    else if c < 32 then scanError quote c "in string literal"
    else .ok s
  | .inStringEsc =>
    if c = 98 ∨ c = 102 ∨ c = 110 ∨ c = 114 ∨ c = 116 ∨ c = 92 ∨ c = 47 ∨ c = 34 then
      .ok { s with step := .inString }
    else if c = 117 then .ok { s with step := .inStringEscU 4 }
    else scanError quote c "in string escape code"
  | .inStringEscU left =>
    if isHex c then .ok { s with step := if left ≤ 1 then .inString else .inStringEscU (left - 1) }
    else scanError quote c "in \\u hexadecimal character escape"
  | .neg =>
    if c = 48 then .ok { s with step := .zero }
    else if 49 ≤ c ∧ c ≤ 57 then .ok { s with step := .one }
    else scanError quote c "in numeric literal"
  | .one =>
    if 48 ≤ c ∧ c ≤ 57 then .ok s
    else state0 quote s c
  | .zero => state0 quote s c
  | .dot =>
    if 48 ≤ c ∧ c ≤ 57 then .ok { s with step := .dot0 }
    else scanError quote c "after decimal point in numeric literal"
  | .dot0 =>
    if 48 ≤ c ∧ c ≤ 57 then .ok s
    else if c = 101 ∨ c = 69 then .ok { s with step := .exp }
    else stateEndValue quote s c
  | .exp =>
    if c = 43 ∨ c = 45 then .ok { s with step := .expSign }
    else stateESign quote s c
  | .expSign => stateESign quote s c
  | .exp0 =>
    if 48 ≤ c ∧ c ≤ 57 then .ok s
    else stateEndValue quote s c
  | .literal word rest =>
    match rest with
    | [] => stateEndValue quote s c
    | x :: xs =>
      if c = x then .ok { s with step := if xs.isEmpty then .endValue else .literal word xs }
      else scanError quote c
        ("in literal " ++ word ++ " (expecting '" ++ String.singleton (Char.ofNat x) ++ "')")

/-- The loop of `checkValid` over the bytes of the input. -/
def scanAll (quote : String → String) : Scanner → List Nat → Except String Scanner
  | s, [] => .ok s
  | s, c :: cs =>
    match scanStep quote s c with
    | .error msg => .error msg
    | .ok s => scanAll quote s cs

/-- The function `checkValid` of scanner.go: the message of the `SyntaxError` of an input that
is not valid JSON, none for a valid one. At the end of the input the method `eof` feeds the
scanner a space. -/
def checkValid (quote : String → String) (data : List Nat) : Option String :=
  match scanAll quote { step := .beginValue, parseState := [] } data with
  | .error msg => some msg
  | .ok s =>
    match s.step with
    | .endTop => none
    | _ =>
      match scanStep quote s 32 with
      | .error msg => some msg
      | .ok s =>
        match s.step with
        | .endTop => none
        | _ => some "unexpected end of JSON input"

/-- A JSON value as the reader meets it. -/
inductive Scalar where
  | null
  | bool (b : Bool)
  /-- A number, by its literal. -/
  | number (literal : String)
  | string (s : String)
  /-- An array or an object, which the reader passes over. -/
  | composite
  deriving DecidableEq, Repr

/-- The rest of the input after the white space at its start. -/
def skipSpace : List Char → List Char
  | [] => []
  | c :: cs => if isSpace c.toNat then skipSpace cs else c :: cs

/-- The character that a one-letter escape of a JSON string stands for (the function
`unquote` of decode.go); none for `\u`, which the reader leaves out. -/
def unescape (c : Char) : Option Char :=
  if c.toNat = 34 ∨ c.toNat = 92 ∨ c.toNat = 47 then some c
  else if c = 'b' then some (Char.ofNat 8)
  else if c = 'f' then some (Char.ofNat 12)
  else if c = 'n' then some (Char.ofNat 10)
  else if c = 'r' then some (Char.ofNat 13)
  else if c = 't' then some (Char.ofNat 9)
  else none

/-- A JSON string from behind its opening quote: the string it stands for and the input
behind its closing quote; `esc` is set behind a backslash, `acc` holds the characters read so
far, last first. -/
def readString : Bool → List Char → List Char → Option (String × List Char)
  | _, _, [] => none
  | true, acc, c :: cs =>
    match unescape c with
    | some x => readString false (x :: acc) cs
    | none => none
  | false, acc, c :: cs =>
    if c.toNat = 34 then some (String.mk acc.reverse, cs)
    else if c.toNat = 92 then readString true acc cs
    else readString false (c :: acc) cs

/-- Whether the character can stand in the literal of a number. -/
def isNumberChar (c : Char) : Bool :=
  c.isDigit || c = '-' || c = '+' || c = '.' || c = 'e' || c = 'E'

/-- The input behind an array or an object of valid JSON, from behind its opening bracket:
`depth` counts the brackets still open, `str` is set inside a string and `esc` behind a
backslash there. -/
def skipComposite : Nat → Bool → Bool → List Char → List Char
  | _, _, _, [] => []
  | depth, true, true, _ :: cs => skipComposite depth true false cs
  | depth, true, false, c :: cs =>
    if c.toNat = 34 then skipComposite depth false false cs
    else if c.toNat = 92 then skipComposite depth true true cs
    else skipComposite depth true false cs
  | depth, false, _, c :: cs =>
    if c.toNat = 34 then skipComposite depth true false cs
    else if c.toNat = 123 ∨ c.toNat = 91 then skipComposite (depth + 1) false false cs
    else if c.toNat = 125 ∨ c.toNat = 93 then
      if depth = 0 then cs else skipComposite (depth - 1) false false cs
    else skipComposite depth false false cs

/-- The value at the start of the input, and the input behind it; none at a string that
holds `\u`. -/
def readScalar (cs : List Char) : Option (Scalar × List Char) :=
  match cs with
  | [] => none
  | c :: rest =>
    if c.toNat = 34 then
      match readString false [] rest with
      | some (s, rest) => some (.string s, rest)
      | none => none
    else if c = 't' then some (.bool true, rest.drop 3)
    else if c = 'f' then some (.bool false, rest.drop 4)
    else if c = 'n' then some (.null, rest.drop 3)
    else if c.toNat = 123 ∨ c.toNat = 91 then some (.composite, skipComposite 0 false false rest)
    else if isNumberChar c then
      some (.number (String.mk (cs.takeWhile isNumberChar)), cs.dropWhile isNumberChar)
    else none

/-- The members of an object of valid JSON from the opening quote of a key on, in order; none
when a string holds `\u`. -/
def readMembers : Nat → List Char → Option (List (String × Scalar))
  | 0, _ => none
  | fuel + 1, cs =>
    match skipSpace cs with
    | [] => none
    | _ :: cs =>
      match readString false [] cs with
      | none => none
      | some (key, cs) =>
        match skipSpace cs with
        | [] => none
        | _ :: cs =>
          match readScalar (skipSpace cs) with
          | none => none
          | some (x, cs) =>
            match skipSpace cs with
            | [] => none
            | d :: cs =>
              if d.toNat = 44 then
                match readMembers fuel cs with
                | some ms => some ((key, x) :: ms)
                | none => none
              else some [(key, x)]

/-- The members of an object of valid JSON from behind its opening brace. -/
def readObject (fuel : Nat) (cs : List Char) : Option (List (String × Scalar)) :=
  match skipSpace cs with
  | [] => none
  | d :: _ => if d.toNat = 125 then some [] else readMembers fuel cs

/-- How the codec sees a struct field. -/
inductive JsonField where
  /-- The codec passes the field over: it is not exported, or tagged `json:"-"`. -/
  | hidden
  /-- The codec reads the field under this name. -/
  | named (name : String)
  /-- A field outside the reader: of struct, pointer or interface kind (embedded fields and
  types with methods of their own), with the option `string`, or with a name outside
  ASCII. -/
  | unmodelled
  deriving DecidableEq, Repr

/-- Whether the character may stand in the name of a `json` tag (`isValidTag` of tags.go), for
ASCII. -/
def isTagChar (c : Char) : Bool :=
  c.isAlphanum || "!#$%&()*+-./:;<=>?@[]^_\x7b|\x7d~ ".data.contains c

/-- The name under which the codec reads a field (`typeFields` of encode.go): the name in the
`json` tag when there is a valid one, the name of the field otherwise. -/
def jsonField (isUpper : Char → Bool) : StructField → JsonField
  | .mk name typ tag =>
    if typ.Kind = .Struct ∨ typ.Kind = .Pointer ∨ typ.Kind = .Interface then .unmodelled
    else if !isExportedName isUpper name then .hidden
    else if tag.json = "-" then .hidden
    else
      let parts := Split tag.json
      let tagName := parts.headD ""
      if parts.tail.contains "string" then .unmodelled
      else if !(name.data.all fun c => decide (c.toNat < 128)) ||
          !(tagName.data.all fun c => decide (c.toNat < 128)) then .unmodelled
      else if tagName ≠ "" ∧ tagName.data.all isTagChar then .named tagName
      else .named name

/-- The letters of the name in lower case: two ASCII names are equal under
`bytes.EqualFold` when these agree. -/
def foldName (s : String) : String := String.mk (s.data.map Char.toLower)

/-- The index of the first field that the test selects. -/
def firstField (p : JsonField → Bool) : List JsonField → Option Nat
  | [] => none
  | f :: fs =>
    if p f then some 0
    else
      match firstField p fs with
      | some i => some (i + 1)
      | none => none

/-- The field that an object key selects: the first field with this very name, or else the
first whose name equals the key without regard to case. -/
def findField (names : List JsonField) (key : String) : Option Nat :=
  match firstField (fun f => decide (f = .named key)) names with
  | some i => some i
  | none =>
    firstField (fun f =>
      match f with
      | .named name => decide (foldName name = foldName key)
      | _ => false) names

/-- The method `literalStore` of decode.go on a value and storage of a string, boolean or
integer type: the content of the storage after the call; none where the codec reports a type
error (an array or an object included), or on storage of another type. A `null` leaves such
storage as it was. -/
def literalStore (t : Typ) (old : Value) (x : Scalar) : Option Value :=
  let signed (bits : Nat) : Option Value :=
    match x with
    | .null => some old
    | .number lit =>
      match ParseInt lit 64 with
      | (n, none) =>
        if -(2 ^ (bits - 1) : Int) ≤ n ∧ n < 2 ^ (bits - 1) then some (.int n) else none
      | _ => none
    | _ => none
  let unsigned (bits : Nat) : Option Value :=
    match x with
    | .null => some old
    | .number lit =>
      match ParseUint lit 64 with
      | (n, none) => if n < 2 ^ bits then some (.uint n) else none
      | _ => none
    | _ => none
  match t with
  | .string =>
    match x with
    | .null => some old
    | .string s => some (.string s)
    | _ => none
  | .bool =>
    match x with
    | .null => some old
    | .bool b => some (.bool b)
    | _ => none
  | .int => signed 64 | .int8 => signed 8 | .int16 => signed 16 | .int32 => signed 32
  | .int64 => signed 64 | .duration => signed 64
  | .uint => unsigned 64 | .uint8 => unsigned 8 | .uint16 => unsigned 16
  | .uint32 => unsigned 32 | .uint64 => unsigned 64
  | _ => none

/-- The call of `literalStore` on field `i` of a struct with these fields and this content:
the content of the fields after the call. -/
def storeField : List StructField → List Value → Nat → Scalar → Option (List Value)
  | f :: _, old :: vals, 0, x =>
    match literalStore f.Typ old x with
    | some v => some (v :: vals)
    | none => none
  | _ :: fs, old :: vals, i + 1, x =>
    match storeField fs vals i x with
    | some vals => some (old :: vals)
    | none => none
  | _, _, _, _ => none

/-- The loop of the method `object` of decode.go over the members of an object, on a struct
with these fields and this content. A key that selects no field is passed over; a later
member overwrites an earlier one. -/
def storeMembers (fields : List StructField) (names : List JsonField) :
    List (String × Scalar) → List Value → Option (List Value)
  | [], vals => some vals
  | (key, x) :: ms, vals =>
    if !(key.data.all fun c => decide (c.toNat < 128)) then none
    else
      match findField names key with
      | none => storeMembers fields names ms vals
      | some i =>
        match storeField fields vals i x with
        | some vals => storeMembers fields names ms vals
        | none => none

/-- The names of the fields that the codec reads, when no two of them agree. -/
def hasDuplicate : List JsonField → Bool
  | [] => false
  | f :: fs =>
    (match f with
     | .named _ => fs.contains f
     | _ => false) || hasDuplicate fs

/-- The method `object` of decode.go on a struct with these fields and this content, from
behind the opening brace of the object: the content of the fields after the call; none where
the reader does not follow the codec. -/
def readStruct (isUpper : Char → Bool) (fuel : Nat) (cs : List Char)
    (fields : List StructField) (vals : List Value) : Option (List Value) :=
  let names := fields.map (jsonField isUpper)
  if names.contains .unmodelled || hasDuplicate names || fields.length != vals.length then none
  else
    match readObject fuel cs with
    | none => none
    | some ms => storeMembers fields names ms vals

/-- The call `json.Unmarshal(b, &data)`, where `data` holds a pointer to storage of type `t`
and content `old`, as far as this development follows encoding/json: the content of the
storage after the call and the error, for
* an input that is not valid JSON: the storage is untouched and the error is the
  `SyntaxError` of `checkValid`;
* the input `null`: the storage is untouched;
* an object read into a struct without unmarshalling methods whose fields are of string,
  boolean, integer or other types that are not of struct, pointer or interface kind, when
  every key selects no field, or a field of string, boolean or integer type that its value
  fits.
Everywhere else the result is none, and the codec of `Env` is left free. -/
def jsonRead (quote : String → String) (isUpper : Char → Bool) (b : String) (t : Typ)
    (old : Value) : Option (Value × Option Error) :=
  match checkValid quote (bytesOf b) with
  | some msg => some (old, some (.foreign msg))
  | none =>
    match skipSpace b.data with
    | [] => none
    | c :: cs =>
      if c = 'n' then some (old, none)
      else if c.toNat = 123 then
        match t, old with
        | .struct _ fields, .struct vals =>
          match readStruct isUpper b.length cs fields vals with
          | some vals => some (.struct vals, none)
          | none => none
        | _, _ => none
      else none

/-- Whether the codec writes the character of a string as it is: not a control character, not
the quote or the backslash, not `<`, `>` or `&`, which the codec escapes for HTML, and not a
line or paragraph separator. -/
def isPlainChar (c : Char) : Bool :=
  decide (32 ≤ c.toNat) && c.toNat != 34 && c.toNat != 92 && c.toNat != 60 && c.toNat != 62 &&
    c.toNat != 38 && c.toNat != 0x2028 && c.toNat != 0x2029

/-- The characters that `json.Marshal` writes for a value of a string, boolean or integer
type; none for a string with a character that the codec escapes, a value outside the range of
its type, and any other type. -/
def writeScalar (t : Typ) (v : Value) : Option (List Char) :=
  let signed (bits : Nat) : Option (List Char) :=
    match v with
    | .int n =>
      if -(2 ^ (bits - 1) : Int) ≤ n ∧ n < 2 ^ (bits - 1) then some (FormatInt n).data else none
    | _ => none
  let unsigned (bits : Nat) : Option (List Char) :=
    match v with
    | .uint n => if n < 2 ^ bits then some (FormatUint n).data else none
    | _ => none
  match t with
  | .string =>
    match v with
    | .string s =>
      if s.data.all isPlainChar then some (Char.ofNat 34 :: s.data ++ [Char.ofNat 34]) else none
    | _ => none
  | .bool =>
    match v with
    | .bool true => some ['t', 'r', 'u', 'e']
    | .bool false => some ['f', 'a', 'l', 's', 'e']
    | _ => none
  | .int => signed 64 | .int8 => signed 8 | .int16 => signed 16 | .int32 => signed 32
  | .int64 => signed 64 | .duration => signed 64
  | .uint => unsigned 64 | .uint8 => unsigned 8 | .uint16 => unsigned 16
  | .uint32 => unsigned 32 | .uint64 => unsigned 64
  | _ => none

/-- The name that `json.Marshal` writes for a field; none for a field that the codec passes
over, a field outside the reader, a `json` tag with options, and a name with a character that
the codec escapes. -/
def writeName (isUpper : Char → Bool) (f : StructField) : Option String :=
  match jsonField isUpper f with
  | .named name =>
    if (Split f.Tag.json).tail.isEmpty && name.data.all isPlainChar then some name else none
  | _ => none

/-- The members that `json.Marshal` writes for the fields of a struct, in order: the name in
quotes, a colon and the value. -/
def writeMembers (isUpper : Char → Bool) :
    List StructField → List Value → Option (List (List Char))
  | [], [] => some []
  | f :: fs, v :: vs =>
    match writeName isUpper f, writeScalar f.Typ v, writeMembers isUpper fs vs with
    | some name, some x, some ms =>
      some ((Char.ofNat 34 :: name.data ++ Char.ofNat 34 :: Char.ofNat 58 :: x) :: ms)
    | _, _, _ => none
  | _, _ => none

/-- The members of an object separated by commas, and the closing brace. -/
def joinMembers : List (List Char) → List Char
  | [] => [Char.ofNat 125]
  | [m] => m ++ [Char.ofNat 125]
  | m :: n :: ms => m ++ Char.ofNat 44 :: joinMembers (n :: ms)

/-- The bytes of `json.Marshal(v)` for a struct value, as far as this development follows
encoding/json: a struct without marshalling methods whose fields are all exported, of string,
boolean or integer type, under names of their own and without tag options, holding strings
that the codec writes without escapes. Everywhere else the result is none. -/
def jsonWrite (isUpper : Char → Bool) (t : Typ) (v : Value) : Option String :=
  match t, v with
  | .struct _ fields, .struct vals =>
    if hasDuplicate (fields.map (jsonField isUpper)) then none
    else
      match writeMembers isUpper fields vals with
      | some ms => some (String.mk (Char.ofNat 123 :: joinMembers ms))
      | none => none
  | _, _ => none

/-- The codec of the environment follows encoding/json wherever `jsonRead` says what it
does. -/
def Env.ReadsJson (env : Env) : Prop :=
  ∀ b t old res, jsonRead env.Quote env.IsUpper b t old = some res → env.Unmarshal b t old = res

/-! ## A sample environment -/

/-- The function `strconv.Quote` for closed examples: right on printable ASCII. -/
def sampleQuote (str : String) : String :=
  "\"" ++ String.mk (str.data.flatMap fun c =>
    if c.toNat = 34 ∨ c.toNat = 92 then [Char.ofNat 92, c] else [c]) ++ "\""

/-- The function `unicode.IsUpper` for closed examples: the capital letters of Latin-1. -/
def sampleIsUpper (c : Char) : Bool :=
  decide (0xC0 ≤ c.toNat ∧ c.toNat ≤ 0xDE ∧ c.toNat ≠ 0xD7)

/-- A body codec for closed examples: `jsonRead` where it says what encoding/json does, and
an error that names the gap everywhere else. -/
def sampleUnmarshal (b : String) (t : Typ) (v : Value) : Value × Option Error :=
  match jsonRead sampleQuote sampleIsUpper b t v with
  | some res => res
  | none => (v, some (.foreign "json: input outside the reader of the examples"))

/-- An environment for closed examples: the parsers outside the model report an error on every
token, and the capital letters outside ASCII are those of Latin-1. -/
def sampleEnv : Env where
  ParseFloat := fun _ _ => (0, some (.foreign "strconv.ParseFloat"))
  float32 := id
  ParseComplex := fun _ _ => ((0, 0), some (.foreign "strconv.ParseComplex"))
  complex64 := id
  timeParse := fun _ => (0, some (.foreign "time.Parse"))
  ParseDuration := fun _ => (0, some (.foreign "time.ParseDuration"))
  Unmarshal := sampleUnmarshal
  Marshal := fun _ => ("null", none)
  MarshalErrorResponse := fun _ stack => ("\x7b\"Error\":\x7b\x7d,\"StackTrace\":\"" ++ stack ++ "\"\x7d", none)
  Quote := sampleQuote
  Stack := "goroutine 1 [running]"
  IsUpper := sampleIsUpper

/-- The target of the test `Test_Decode`: `struct { Name string "json:name" }`. -/
def testType : Typ := .struct "testType" [.mk "Name" .string ⟨"", "", "name"⟩]

/-- The request of the test `Test_Decode`: `POST /` with Content-Type `application/json` and
the body `{"name":"test"}`, as `httptest.NewRequest` makes it. -/
def jsonRequest : Request where
  URL := ⟨"/", []⟩
  Header := [("Content-Type", ["application/json"])]
  Body := ⟨"\x7b\"name\":\"test\"\x7d", none, 0, none⟩

/-- A target without body annotation that has a query-annotated field:
`struct { Name string; ID int "query:id" }`. -/
def taggedType : Typ :=
  .struct "taggedType" [.mk "Name" .string ⟨"", "", ""⟩, .mk "ID" .int ⟨"id", "", ""⟩]

/-- The request `POST /?id=abc` with Content-Type `application/json` and the body
`{"name":"test"}`. -/
def badQueryRequest : Request where
  URL := ⟨"/?id=abc", [("id", ["abc"])]⟩
  Header := [("Content-Type", ["application/json"])]
  Body := ⟨"\x7b\"name\":\"test\"\x7d", none, 0, none⟩

/-- The request `POST /?id=7` with Content-Type `application/json` and the body
`{"Name":"a b","ID":-12}`, which is what `json.Marshal` writes for the value
`taggedType{Name: "a b", ID: -12}`. -/
def overwriteRequest : Request where
  URL := ⟨"/?id=7", [("id", ["7"])]⟩
  Header := [("Content-Type", ["application/json"])]
  Body := ⟨"\x7b\"Name\":\"a b\",\"ID\":-12\x7d", none, 0, none⟩

/-- A target with a query-annotated pointer field and a query-annotated sequence field:
`struct { Page *int "query:page"; Tags []string "query:tag,explode"; Name string "query:name" }`. -/
def listType : Typ :=
  .struct "listType" [.mk "Page" (.pointer .int) ⟨"page", "", ""⟩,
    .mk "Tags" (.slice .string) ⟨"tag,explode", "", ""⟩, .mk "Name" .string ⟨"name", "", ""⟩]

/-- The request `GET /?name=x` with an empty body. -/
def nameRequest : Request where
  URL := ⟨"/?name=x", [("name", ["x"])]⟩
  Header := []
  Body := ⟨"", none, 0, none⟩

/-- The request `jsonRequest` as the decoder leaves it: the body read and closed. -/
def drainedRequest : Request :=
  { jsonRequest with Body := ⟨"", none, 1, none⟩ }

/-- A handler without boundaries whose `Handle` returns the error `boom`. -/
def failingHandler : Handler where
  typeName := "*main.failing"
  Handle := fun _ => .ret (.nil, some (.foreign "boom"))
  ErrorBoundary := none
  PanicBoundary := none

/-- A handler whose `Handle` returns the error `boom` and whose error boundary redirects
every error to the handler `errorPage`. -/
def redirectingHandler : Handler where
  typeName := "*main.redirecting"
  Handle := fun _ => .ret (.nil, some (.foreign "boom"))
  ErrorBoundary := some (fun _ _ => some "errorPage")
  PanicBoundary := none

/-- A handler whose `Handle` panics with the string `boom` and whose fault boundary
redirects every fault to the handler `panicPage`. -/
def panickingHandler : Handler where
  typeName := "*main.panicking"
  Handle := fun _ => .fault (.other "boom")
  ErrorBoundary := none
  PanicBoundary := some (fun _ _ => some "panicPage")

/-- A handler whose fault boundary returns nil for every fault. -/
def silentHandler : Handler where
  typeName := "*main.silent"
  Handle := fun _ => .ret (.nil, some (.foreign "boom"))
  ErrorBoundary := none
  PanicBoundary := some (fun _ _ => none)

/-- The request `GET /` with the header `Accept: text/plain` and an empty body. -/
def textRequest : Request where
  URL := ⟨"/", []⟩
  Header := [("Accept", ["text/plain"])]
  Body := ⟨"", none, 0, none⟩

/-- A handler without boundaries whose `Handle` returns a response and no error. -/
def okHandler : Handler where
  typeName := "*main.ok"
  Handle := fun _ => .ret (.string "done", none)
  ErrorBoundary := none
  PanicBoundary := none

/-- The request `jsonRequest` with the header `Accept: application/json` added. -/
def acceptJsonRequest : Request :=
  { jsonRequest with
    Header := [("Content-Type", ["application/json"]), ("Accept", ["application/json"])] }

/-- The request `acceptJsonRequest` as the decoder leaves it. -/
def drainedAcceptJsonRequest : Request :=
  { acceptJsonRequest with Body := ⟨"", none, 1, none⟩ }

/-- The request `POST /` with Content-Type `application/json` and a malformed body. -/
def malformedRequest : Request where
  URL := ⟨"/", []⟩
  Header := [("Content-Type", ["application/json"])]
  Body := ⟨"\x7b", none, 0, none⟩

/-- The request `POST /` with a non-empty body and the Content-Type
`application/json; charset=utf-8`. -/
def charsetRequest : Request where
  URL := ⟨"/", []⟩
  Header := [("Content-Type", ["application/json; charset=utf-8"])]
  Body := ⟨"\x7b\"name\":\"test\"\x7d", none, 0, none⟩

/-- A target whose body-annotated field is followed by a field of struct type without body
annotation: `struct { Payload testType "body:json"; Meta struct{} }`. -/
def bodyThenStructType : Typ :=
  .struct "bodyThenStructType"
    [.mk "Payload" testType ⟨"", "json", ""⟩, .mk "Meta" (.struct "struct {}" []) ⟨"", "", ""⟩]

/-- A target whose query-annotated sequence field is not exported:
`struct { ids []int "query:id" }`. -/
def unexportedListType : Typ :=
  .struct "unexportedListType" [.mk "ids" (.slice .int) ⟨"id", "", ""⟩]

/-- The request `GET /?id=1,2,3` with an empty body. -/
def idsRequest : Request where
  URL := ⟨"/?id=1,2,3", [("id", ["1,2,3"])]⟩
  Header := []
  Body := ⟨"", none, 0, none⟩

/-- A target whose query-annotated scalar field is not exported:
`struct { id int "query:id" }`. -/
def unexportedIdType : Typ :=
  .struct "unexportedIdType" [.mk "id" .int ⟨"id", "", ""⟩]

/-- A target whose query-annotated pointer field is not exported:
`struct { page *int "query:page" }`. -/
def unexportedPageType : Typ :=
  .struct "unexportedPageType" [.mk "page" (.pointer .int) ⟨"page", "", ""⟩]

/-- The request `GET /?page=7` with an empty body. -/
def pageRequest : Request where
  URL := ⟨"/?page=7", [("page", ["7"])]⟩
  Header := []
  Body := ⟨"", none, 0, none⟩

/-- A target without body annotation whose query-annotated field is not exported:
`struct { Name string "json:name"; id int "query:id" }`. -/
def hiddenIdType : Typ :=
  .struct "hiddenIdType" [.mk "Name" .string ⟨"", "", "name"⟩, .mk "id" .int ⟨"id", "", ""⟩]

/-- The request `POST /?id=7` with Content-Type `application/json` and the body
`{"name":"test"}`. -/
def idRequest : Request where
  URL := ⟨"/?id=7", [("id", ["7"])]⟩
  Header := [("Content-Type", ["application/json"])]
  Body := ⟨"\x7b\"name\":\"test\"\x7d", none, 0, none⟩

/-- The request `jsonRequest` as a server receives it: a read of the closed body fails. -/
def serverJsonRequest : Request :=
  { jsonRequest with
    Body := ⟨"\x7b\"name\":\"test\"\x7d", none, 0,
      some (.foreign "http: invalid Read on closed Body")⟩ }

/-! # Properties -/

theorem digitChar_toNat (d : Nat) (h : d < 10) : (digitChar d).toNat = 48 + d := by
  interval_cases d <;> rfl

theorem digitsVal_ge (ds : List Char) (a : Nat) : a ≤ digitsVal ds a := by
  induction ds generalizing a with
  | nil => simp [digitsVal]
  | cons c cs ih =>
    have := ih (a * 10 + (c.toNat - 48))
    simp only [digitsVal, List.foldl_cons] at this ⊢
    omega

theorem parseUintLoop_digits (s0 : String) (maxVal : Nat) (hmax : maxVal < 2 ^ 64)
    (ds : List Char) (hds : ∀ c ∈ ds, 48 ≤ c.toNat ∧ c.toNat ≤ 57) (n : Nat) (hn : n ≤ maxVal) :
    parseUintLoop s0 (maxUint64 / 10 + 1) maxVal ds n =
      if digitsVal ds n ≤ maxVal then (digitsVal ds n, none)
      else (maxVal, some (.numRange "ParseUint" s0)) := by
  induction ds generalizing n with
  | nil => simp [parseUintLoop, digitsVal, hn]
  | cons c cs ih =>
    have hc := hds c (List.mem_cons_self _ _)
    have hcs : ∀ c ∈ cs, 48 ≤ c.toNat ∧ c.toNat ≤ 57 := fun x hx => hds x (List.mem_cons_of_mem _ hx)
    have hge := digitsVal_ge cs (n * 10 + (c.toNat - 48))
    have hcut : maxUint64 / 10 + 1 = 1844674407370955162 := by decide
    have h64 : (2:Nat) ^ 64 = 18446744073709551616 := by norm_num
    rw [h64] at hmax
    rw [hcut] at ih
    simp only [parseUintLoop, hc, and_self, if_true, hcut, h64]
    have hd : ¬ (c.toNat - 48 ≥ 10) := by omega
    simp only [hd, if_false]
    by_cases h1 : n ≥ 1844674407370955162
    · simp only [h1, if_true]
      have : ¬ digitsVal (c :: cs) n ≤ maxVal := by
        simp only [digitsVal, List.foldl_cons] at hge ⊢
        omega
      simp [this]
    · simp only [h1, if_false]
      by_cases h2 : (n * 10 + (c.toNat - 48)) % 18446744073709551616 < n * 10 ∨
          (n * 10 + (c.toNat - 48)) % 18446744073709551616 > maxVal
      · simp only [h2, if_true]
        have : ¬ digitsVal (c :: cs) n ≤ maxVal := by
          simp only [digitsVal, List.foldl_cons] at hge ⊢
          omega
        simp [this]
      · simp only [h2, if_false]
        have e : (n * 10 + (c.toNat - 48)) % 18446744073709551616 = n * 10 + (c.toNat - 48) := by
          omega
        rw [e, ih hcs (n * 10 + (c.toNat - 48)) (by omega)]
        simp [digitsVal]

theorem formatDigits_append (fuel n : Nat) (acc : List Char) :
    formatDigits fuel n acc = formatDigits fuel n [] ++ acc := by
  induction fuel generalizing n acc with
  | zero => simp [formatDigits]
  | succ k ih =>
    simp only [formatDigits]
    split
    · simp
    · rw [ih (n / 10) (digitChar (n % 10) :: acc), ih (n / 10) [digitChar (n % 10)]]
      simp

theorem digitsVal_append (xs ys : List Char) (a : Nat) :
    digitsVal (xs ++ ys) a = digitsVal ys (digitsVal xs a) := by
  simp [digitsVal, List.foldl_append]

theorem formatDigits_val (fuel n : Nat) (h : n < fuel) :
    digitsVal (formatDigits fuel n []) 0 = n := by
  induction fuel generalizing n with
  | zero => omega
  | succ k ih =>
    simp only [formatDigits]
    split
    · rename_i h10
      simp [digitsVal, digitChar_toNat n h10]
    · rw [formatDigits_append, digitsVal_append, ih (n / 10) (by omega)]
      simp [digitsVal, digitChar_toNat (n % 10) (Nat.mod_lt _ (by norm_num))]
      omega

theorem formatDigits_digits (fuel n : Nat) (acc : List Char)
    (hacc : ∀ c ∈ acc, 48 ≤ c.toNat ∧ c.toNat ≤ 57) :
    ∀ c ∈ formatDigits fuel n acc, 48 ≤ c.toNat ∧ c.toNat ≤ 57 := by
  induction fuel generalizing n acc with
  | zero => simpa [formatDigits] using hacc
  | succ k ih =>
    simp only [formatDigits]
    split
    · rename_i h10
      intro c hc
      rcases List.mem_cons.1 hc with rfl | hc
      · rw [digitChar_toNat n h10]; omega
      · exact hacc c hc
    · apply ih
      intro c hc
      rcases List.mem_cons.1 hc with rfl | hc
      · rw [digitChar_toNat (n % 10) (Nat.mod_lt _ (by norm_num))]
        have := Nat.mod_lt n (show 10 > 0 by norm_num)
        omega
      · exact hacc c hc

theorem formatDigits_ne_nil (n : Nat) : formatDigits (n + 1) n [] ≠ [] := by
  simp only [formatDigits]
  split
  · simp
  · rw [formatDigits_append]; simp

/-- The result of `ParseUint` on the token of a natural number. -/
theorem ParseUint_FormatUint (n bits : Nat) (h1 : 1 ≤ bits) (h2 : bits ≤ 64) :
    ParseUint (FormatUint n) bits =
      if n ≤ 2 ^ bits - 1 then (n, none)
      else (2 ^ bits - 1, some (.numRange "ParseUint" (FormatUint n))) := by
  have hne : FormatUint n ≠ "" := by
    intro h
    have := congrArg String.data h
    exact formatDigits_ne_nil n this
  have hb : ¬ bits > 64 := by omega
  have hb0 : ¬ bits = 0 := by omega
  have hmax : 2 ^ bits - 1 < 2 ^ 64 := by
    have : 2 ^ bits ≤ 2 ^ 64 := Nat.pow_le_pow_right (by norm_num) h2
    have : 0 < 2 ^ bits := Nat.pow_pos (by norm_num)
    omega
  simp only [ParseUint, hne, hb, hb0, if_false]
  have hd : (FormatUint n).data = formatDigits (n + 1) n [] := rfl
  rw [hd, parseUintLoop_digits _ _ hmax _ (formatDigits_digits _ _ _ (by simp)) 0 (Nat.zero_le _)]
  simp only [formatDigits_val (n + 1) n (Nat.lt_succ_self n)]

theorem formatDigits_head (n : Nat) :
    ∃ c cs, formatDigits (n + 1) n [] = c :: cs ∧ 48 ≤ c.toNat ∧ c.toNat ≤ 57 := by
  have hne := formatDigits_ne_nil n
  have hd := formatDigits_digits (n + 1) n [] (by simp)
  cases h : formatDigits (n + 1) n [] with
  | nil => exact absurd h hne
  | cons c cs =>
    refine ⟨c, cs, rfl, ?_⟩
    exact hd c (by rw [h]; exact List.mem_cons_self _ _)

theorem FormatUint_ne_empty (n : Nat) : FormatUint n ≠ "" := by
  intro h
  exact formatDigits_ne_nil n (congrArg String.data h)

theorem wrapInt_of_lt (m : Nat) (h : m < 2 ^ 63) : wrapInt 64 (m : Int) = m := by
  unfold wrapInt
  norm_num at h ⊢
  omega

/-- The result of `ParseInt` on the token of a natural number. -/
theorem ParseInt_FormatUint (m bits : Nat)
    (hb : bits = 8 ∨ bits = 16 ∨ bits = 32 ∨ bits = 64) :
    ParseInt (FormatUint m) bits =
      if m < 2 ^ (bits - 1) then ((m : Int), none)
      else ((2 ^ (bits - 1) : Nat) - 1, some (.numRange "ParseInt" (FormatUint m))) := by
  obtain ⟨c, cs, hcs, hc1, hc2⟩ := formatDigits_head m
  have hd : (FormatUint m).data = c :: cs := hcs
  have hplus : ¬ (some c = some '+') := by
    intro h; have := congrArg Char.toNat (Option.some.inj h); rw [this] at hc1; revert hc1; decide
  have hminus : ¬ (some c = some '-') := by
    intro h; have := congrArg Char.toNat (Option.some.inj h); rw [this] at hc1; revert hc1; decide
  have hb0 : ¬ bits = 0 := by omega
  simp only [ParseInt, FormatUint_ne_empty, hd, List.head?_cons, hplus, hminus, or_self,
    if_false, hb0]
  rw [ParseUint_FormatUint m bits (by omega) (by omega)]
  rcases hb with rfl | rfl | rfl | rfl <;>
  · norm_num
    by_cases h : m < 2 ^ 63
    · split_ifs <;> first | omega | (simp [wrapInt_of_lt m h] <;> omega)
    · split_ifs <;> first | omega | (simp <;> omega)

theorem wrapInt_neg_wrapInt (m : Nat) (h : m ≤ 2 ^ 63) :
    wrapInt 64 (-(wrapInt 64 (m : Int))) = -(m : Int) := by
  unfold wrapInt
  norm_num at h ⊢
  omega

/-- The result of `ParseInt` on the token of a negative integer `-m`. -/
theorem ParseInt_neg (m bits : Nat)
    (hb : bits = 8 ∨ bits = 16 ∨ bits = 32 ∨ bits = 64) :
    ParseInt (String.mk ('-' :: formatDigits (m + 1) m [])) bits =
      if m > 2 ^ (bits - 1) then
        (-((2 ^ (bits - 1) : Nat) : Int),
          some (.numRange "ParseInt" (String.mk ('-' :: formatDigits (m + 1) m []))))
      else (-(m : Int), none) := by
  have hne : String.mk ('-' :: formatDigits (m + 1) m []) ≠ "" := by
    intro h; exact List.cons_ne_nil _ _ (congrArg String.data h)
  have hplus : ¬ (some '-' = some '+') := by decide
  have hb0 : ¬ bits = 0 := by omega
  have hs : String.mk (formatDigits (m + 1) m []) = FormatUint m := rfl
  simp only [ParseInt, hne, List.head?_cons, hplus, false_or, if_true, if_false, hb0,
    List.tail_cons, hs]
  rw [ParseUint_FormatUint m bits (by omega) (by omega)]
  rcases hb with rfl | rfl | rfl | rfl
  all_goals
    norm_num only
    split_ifs <;> dsimp only <;> (try simp only [false_and, true_and, if_false]) <;>
      (try split_ifs) <;>
      first
        | with_reducible rfl
        | (exfalso; omega)
        | (rw [wrapInt_neg_wrapInt m (by norm_num only; omega)])

/-- The result of `ParseUint` on the token of a negative integer: a syntax error. -/
theorem ParseUint_neg (cs : List Char) (bits : Nat) (hb : bits ≤ 64) :
    ParseUint (String.mk ('-' :: cs)) bits =
      (0, some (.numSyntax "ParseUint" (String.mk ('-' :: cs)))) := by
  have hne : String.mk ('-' :: cs) ≠ "" := by
    intro h; exact List.cons_ne_nil _ _ (congrArg String.data h)
  have hb' : ¬ bits > 64 := by omega
  simp only [ParseUint, hne, hb', if_false, parseUintLoop]
  rfl

/-- The result of `ParseInt` on the base-10 token of any integer. -/
theorem ParseInt_FormatInt (n : Int) (bits : Nat)
    (hb : bits = 8 ∨ bits = 16 ∨ bits = 32 ∨ bits = 64) :
    ParseInt (FormatInt n) bits =
      if n < -((2 ^ (bits - 1) : Nat) : Int) then
        (-((2 ^ (bits - 1) : Nat) : Int), some (.numRange "ParseInt" (FormatInt n)))
      else if n ≥ ((2 ^ (bits - 1) : Nat) : Int) then
        (((2 ^ (bits - 1) : Nat) : Int) - 1, some (.numRange "ParseInt" (FormatInt n)))
      else (n, none) := by
  by_cases hn : n < 0
  · have hf : FormatInt n = String.mk ('-' :: formatDigits (n.natAbs + 1) n.natAbs []) := by
      simp [FormatInt, hn]
    rw [hf, ParseInt_neg n.natAbs bits hb]
    have habs : (n.natAbs : Int) = -n := by omega
    have hpos : (0 : Int) ≤ ((2 ^ (bits - 1) : Nat) : Int) := Int.natCast_nonneg _
    split_ifs <;> first | omega | simp [habs]
  · have hf : FormatInt n = FormatUint n.toNat := by simp [FormatInt, hn]
    rw [hf, ParseInt_FormatUint n.toNat bits hb]
    have habs : (n.toNat : Int) = n := by omega
    have hpos : (0 : Int) ≤ ((2 ^ (bits - 1) : Nat) : Int) := Int.natCast_nonneg _
    split_ifs <;> first | omega | simp [habs]

/-- The result of `ParseUint` on the base-10 token of any integer. -/
theorem ParseUint_FormatInt (n : Int) (bits : Nat) (h1 : 1 ≤ bits) (h2 : bits ≤ 64) :
    ParseUint (FormatInt n) bits =
      if n < 0 then (0, some (.numSyntax "ParseUint" (FormatInt n)))
      else if n.toNat ≤ 2 ^ bits - 1 then (n.toNat, none)
      else (2 ^ bits - 1, some (.numRange "ParseUint" (FormatInt n))) := by
  by_cases hn : n < 0
  · have hf : FormatInt n = String.mk ('-' :: formatDigits (n.natAbs + 1) n.natAbs []) := by
      simp [FormatInt, hn]
    rw [hf, ParseUint_neg _ bits h2]
    simp [hn]
  · have hf : FormatInt n = FormatUint n.toNat := by simp [FormatInt, hn]
    rw [hf, ParseUint_FormatUint n.toNat bits h1 h2]
    simp [hn]

theorem wrapInt_of_range (bits : Nat) (n : Int) (hb : bits = 8 ∨ bits = 16 ∨ bits = 32 ∨ bits = 64)
    (h1 : -((2 ^ (bits - 1) : Nat) : Int) ≤ n) (h2 : n < ((2 ^ (bits - 1) : Nat) : Int)) :
    wrapInt bits n = n := by
  unfold wrapInt
  rcases hb with rfl | rfl | rfl | rfl <;>
  · norm_num at h1 h2 ⊢
    omega

theorem wrapUint_of_range (bits n : Nat) (h : n ≤ 2 ^ bits - 1) : wrapUint bits n = n := by
  unfold wrapUint
  have : 0 < 2 ^ bits := Nat.pow_pos (by norm_num)
  exact Nat.mod_eq_of_lt (by omega)


theorem ParseInt_signed_case (b : Nat) (hb : b = 8 ∨ b = 16 ∨ b = 32 ∨ b = 64) (n : Int) :
    (-(2 ^ (b - 1) : Int) ≤ n ∧ n < 2 ^ (b - 1) →
      ParseInt (FormatInt n) b = (n, none) ∧ wrapInt b n = n) ∧
    (¬ (-(2 ^ (b - 1) : Int) ≤ n ∧ n < 2 ^ (b - 1)) →
      (ParseInt (FormatInt n) b).2 ≠ none) := by
  have hc : (((2 ^ (b - 1) : Nat) : Int)) = 2 ^ (b - 1) := by push_cast; rfl
  rw [ParseInt_FormatInt n b hb, hc]
  constructor
  · rintro ⟨h1, h2⟩
    rw [if_neg (by omega), if_neg (by omega)]
    exact ⟨rfl, wrapInt_of_range b n hb (by rw [hc]; exact h1) (by rw [hc]; exact h2)⟩
  · intro h
    by_cases h1 : n < -(2 ^ (b - 1) : Int)
    · rw [if_pos h1]; exact Option.some_ne_none _
    · rw [if_neg h1]
      have h2 : n ≥ (2 ^ (b - 1) : Int) := by
        by_contra h2
        exact h ⟨by omega, by omega⟩
      rw [if_pos h2]; exact Option.some_ne_none _

theorem ParseUint_unsigned_case (b : Nat) (h1 : 1 ≤ b) (h2 : b ≤ 64) (n : Int) :
    (0 ≤ n ∧ n < 2 ^ b →
      ParseUint (FormatInt n) b = (n.toNat, none) ∧ wrapUint b n.toNat = n.toNat) ∧
    (¬ (0 ≤ n ∧ n < 2 ^ b) → (ParseUint (FormatInt n) b).2 ≠ none) := by
  have hpos : 0 < 2 ^ b := Nat.pow_pos (by norm_num)
  have hc : (((2 ^ b : Nat) : Int)) = 2 ^ b := by push_cast; rfl
  rw [ParseUint_FormatInt n b h1 h2]
  constructor
  · rintro ⟨h3, h4⟩
    have h5 : n.toNat ≤ 2 ^ b - 1 := by
      have : (n.toNat : Int) = n := Int.toNat_of_nonneg h3
      have : (n.toNat : Int) < ((2 ^ b : Nat) : Int) := by rw [hc]; omega
      have := Int.ofNat_lt.1 this
      omega
    rw [if_neg (by omega), if_pos h5]
    exact ⟨rfl, wrapUint_of_range b _ h5⟩
  · intro h
    by_cases h3 : n < 0
    · rw [if_pos h3]; exact Option.some_ne_none _
    · rw [if_neg h3]
      have h5 : ¬ n.toNat ≤ 2 ^ b - 1 := by
        intro h5
        apply h
        refine ⟨by omega, ?_⟩
        have : (n.toNat : Int) = n := Int.toNat_of_nonneg (by omega)
        have h6 : (n.toNat : Int) < ((2 ^ b : Nat) : Int) := Int.ofNat_lt.2 (by omega)
        rw [hc] at h6
        omega
      rw [if_neg h5]; exact Option.some_ne_none _


theorem resolve_signed_aux (b : Nat) (hb : b = 8 ∨ b = 16 ∨ b = 32 ∨ b = 64) (n : Int)
    (t : Typ) (w : Int → Int) (hw : wrapInt b n = n → w n = n) :
    (-(2 ^ (b - 1) : Int) ≤ n ∧ n < 2 ^ (b - 1) →
      (match ParseInt (FormatInt n) b with
        | (i, err) => ((some (t, Value.int (w i)) : Any), err)) =
        (some (t, Value.int n), none)) ∧
    (¬ (-(2 ^ (b - 1) : Int) ≤ n ∧ n < 2 ^ (b - 1)) →
      (match ParseInt (FormatInt n) b with
        | (i, err) => ((some (t, Value.int (w i)) : Any), err)).2 ≠ none) := by
  obtain ⟨hin, hout⟩ := ParseInt_signed_case b hb n
  constructor
  · intro h
    obtain ⟨e1, e2⟩ := hin h
    rw [e1]
    show ((some (t, Value.int (w n)) : Any), (none : Option Error)) = _
    rw [hw e2]
  · intro h
    have := hout h
    cases hr : ParseInt (FormatInt n) b with
    | mk i err =>
      rw [hr] at this
      exact this

theorem resolve_unsigned_aux (b : Nat) (h1 : 1 ≤ b) (h2 : b ≤ 64) (n : Int)
    (t : Typ) (w : Nat → Nat) (hw : wrapUint b n.toNat = n.toNat → w n.toNat = n.toNat) :
    (0 ≤ n ∧ n < 2 ^ b →
      (match ParseUint (FormatInt n) b with
        | (i, err) => ((some (t, Value.uint (w i)) : Any), err)) =
        (some (t, Value.uint n.toNat), none)) ∧
    (¬ (0 ≤ n ∧ n < 2 ^ b) →
      (match ParseUint (FormatInt n) b with
        | (i, err) => ((some (t, Value.uint (w i)) : Any), err)).2 ≠ none) := by
  obtain ⟨hin, hout⟩ := ParseUint_unsigned_case b h1 h2 n
  constructor
  · intro h
    obtain ⟨e1, e2⟩ := hin h
    rw [e1]
    show ((some (t, Value.uint (w n.toNat)) : Any), (none : Option Error)) = _
    rw [hw e2]
  · intro h
    have := hout h
    cases hr : ParseUint (FormatInt n) b with
    | mk i err =>
      rw [hr] at this
      exact this

/-- C2. For every fixed-width integer kind `K` and every integer `n` written as the base-10
token `FormatInt n`: `resolve` returns `n` with a nil error when `n` lies in the range of `K`,
a non-nil error when it lies outside, and whenever the error is nil the value is `n` itself
(no wrapped or truncated value comes with a nil error). -/
theorem resolve_fixed_width_integer (env : Env) (K : IntKind) (x : Value) (n : Int) :
    (K.InRange n →
      resolve env (some (K.typ, x)) (FormatInt n) = (some (K.typ, K.box n), none)) ∧
    (¬ K.InRange n → (resolve env (some (K.typ, x)) (FormatInt n)).2 ≠ none) ∧
    ((resolve env (some (K.typ, x)) (FormatInt n)).2 = none →
      (resolve env (some (K.typ, x)) (FormatInt n)).1 = some (K.typ, K.box n)) := by
  have key : (K.InRange n →
      resolve env (some (K.typ, x)) (FormatInt n) = (some (K.typ, K.box n), none)) ∧
    (¬ K.InRange n → (resolve env (some (K.typ, x)) (FormatInt n)).2 ≠ none) := by
    cases K
    · exact resolve_signed_aux 8 (by simp) n .int8 (wrapInt 8) id
    · exact resolve_signed_aux 16 (by simp) n .int16 (wrapInt 16) id
    · exact resolve_signed_aux 32 (by simp) n .int32 (wrapInt 32) id
    · exact resolve_signed_aux 64 (by simp) n .int64 id (fun _ => rfl)
    · exact resolve_unsigned_aux 8 (by norm_num) (by norm_num) n .uint8 (wrapUint 8) id
    · exact resolve_unsigned_aux 16 (by norm_num) (by norm_num) n .uint16 (wrapUint 16) id
    · exact resolve_unsigned_aux 32 (by norm_num) (by norm_num) n .uint32 (wrapUint 32) id
    · exact resolve_unsigned_aux 64 (by norm_num) (by norm_num) n .uint64 id (fun _ => rfl)
  refine ⟨key.1, key.2, fun h => ?_⟩
  by_cases hr : K.InRange n
  · rw [key.1 hr]
  · exact absurd h (key.2 hr)


/-- C2, at a concrete input: `"127"` resolves to 127 for int8, and `"128"` is rejected. -/
theorem resolve_fixed_width_integer_witness :
    resolve sampleEnv (some (Typ.int8, Value.int 0)) "127" =
      (some (Typ.int8, Value.int 127), none) ∧
    (resolve sampleEnv (some (Typ.int8, Value.int 0)) "128").2 ≠ none :=
  ⟨(resolve_fixed_width_integer sampleEnv .int8 (.int 0) 127).1 (by decide),
   (resolve_fixed_width_integer sampleEnv .int8 (.int 0) 128).2.1 (by decide)⟩

/-- C3. The platform-width kinds are parsed with bit size 32: the token of 2147483648, a value
in the range of a 64-bit `int`, is rejected with a range error, and so is the token of
4294967296 for `uint`. -/
theorem resolve_int_parses_32_bits (env : Env) (x : Value) :
    (-(2 ^ 63 : Int) ≤ 2147483648 ∧ (2147483648 : Int) < 2 ^ 63) ∧
    resolve env (some (Typ.int, x)) "2147483648" =
      (some (Typ.int, Value.int 2147483647), some (.numRange "ParseInt" "2147483648")) ∧
    ((4294967296 : Nat) < 2 ^ 64) ∧
    resolve env (some (Typ.uint, x)) "4294967296" =
      (some (Typ.uint, Value.uint 4294967295), some (.numRange "ParseUint" "4294967296")) :=
  ⟨by norm_num, rfl, by norm_num, rfl⟩

/-! ## Sequence fields -/

theorem splitComma_ne_nil (cs : List Char) : splitComma cs ≠ [] := by
  induction cs with
  | nil => simp [splitComma]
  | cons c cs ih =>
    simp only [splitComma]
    split
    · simp
    · split <;> simp

theorem splitComma_no_comma (t : List Char) (h : ',' ∉ t) : splitComma t = [t] := by
  induction t with
  | nil => rfl
  | cons c cs ih =>
    have hc : ¬ c = ',' := fun e => h (by simp [e])
    have hcs : ',' ∉ cs := fun e => h (List.mem_cons_of_mem _ e)
    simp [splitComma, hc, ih hcs]

theorem splitComma_append (t rest : List Char) (h : ',' ∉ t) :
    splitComma (t ++ ',' :: rest) = t :: splitComma rest := by
  induction t with
  | nil => simp [splitComma]
  | cons c cs ih =>
    have hc : ¬ c = ',' := fun e => h (by simp [e])
    have hcs : ',' ∉ cs := fun e => h (List.mem_cons_of_mem _ e)
    simp [splitComma, hc, ih hcs]

theorem splitComma_joinComma (toks : List (List Char)) (hne : toks ≠ [])
    (h : ∀ t ∈ toks, ',' ∉ t) : splitComma (joinComma toks) = toks := by
  induction toks with
  | nil => exact absurd rfl hne
  | cons t rest ih =>
    cases rest with
    | nil => simpa [joinComma] using splitComma_no_comma t (h t (List.mem_cons_self _ _))
    | cons u rest =>
      have ht := h t (List.mem_cons_self _ _)
      have hr : ∀ x ∈ u :: rest, ',' ∉ x := fun x hx => h x (List.mem_cons_of_mem _ hx)
      simp only [joinComma]
      rw [splitComma_append t _ ht, ih (by simp) hr]

/-- Splitting undoes joining: `strings.Split(strings.Join(toks, ","), ",")` is `toks` for a
non-empty list of tokens without commas. -/
theorem Split_Join (toks : List String) (hne : toks ≠ [])
    (h : ∀ t ∈ toks, ',' ∉ t.data) : Split (Join toks) = toks := by
  unfold Split Join
  have h' : ∀ t ∈ toks.map String.data, ',' ∉ t := by
    intro t ht
    obtain ⟨s, hs, rfl⟩ := List.mem_map.1 ht
    exact h s hs
  show (splitComma (joinComma (toks.map String.data))).map String.mk = toks
  rw [splitComma_joinComma _ (by simpa using hne) h']
  simp [List.map_map, Function.comp_def]

theorem resolve_supported (env : Env) (elem : Typ) (hs : elem.Supported = true) (z : Value)
    (tok : String) : ∃ x, (resolve env (some (elem, z)) tok).1 = some (elem, x) := by
  cases elem <;> simp [Typ.Supported] at hs <;> simp [resolve]

theorem supported_kind (elem : Typ) (hs : elem.Supported = true) :
    elem.Kind ≠ .Pointer ∧ elem.Kind ≠ .Interface ∧ elem.Kind ≠ .Slice := by
  cases elem <;> simp [Typ.Supported] at hs <;> simp [Typ.Kind]

/-- One element of a sequence: at a supported element type, a token that resolves without
error sets the element to the resolved value. -/
theorem resolveValue_supported (env : Env) (elem typ : Typ) (hs : elem.Supported = true)
    (tok : String) (h : (resolve env (some (elem, zero elem)) tok).2 = none) :
    resolveValue env ⟨elem, zero elem, false⟩ typ tok = (resolved env elem tok, none) := by
  obtain ⟨hp, hi, _⟩ := supported_kind elem hs
  obtain ⟨x, hx⟩ := resolve_supported env elem hs (zero elem) tok
  have hI : RValue.Interface ⟨elem, zero elem, false⟩ = some (elem, zero elem) := by
    unfold RValue.Interface
    split <;> simp_all
  cases hr : resolve env (some (elem, zero elem)) tok with
  | mk v err =>
    rw [hr] at h hx
    simp only at h hx
    subst h
    subst hx
    simp [resolveValue, RValue.Kind, hp, hI, hr, RValue.Set, hi, resolved]

theorem resolveElems_supported (env : Env) (typ : Typ) (hs : typ.Elem.Supported = true)
    (source : List String)
    (h : ∀ tok ∈ source, (resolve env (some (typ.Elem, zero typ.Elem)) tok).2 = none) :
    resolveElems env typ source = (source.map (resolved env typ.Elem), none) := by
  induction source with
  | nil => rfl
  | cons tok rest ih =>
    have h1 := h tok (List.mem_cons_self _ _)
    have h2 : ∀ t ∈ rest, (resolve env (some (typ.Elem, zero typ.Elem)) t).2 = none :=
      fun t ht => h t (List.mem_cons_of_mem _ ht)
    simp [resolveElems, resolveValue_supported env typ.Elem typ hs tok h1, ih h2]

/-- The source list of a sequence field under the annotation `tag`: every occurrence of the
parameter when the annotation carries `explode`, the comma-split of the first occurrence
otherwise. -/
theorem decodeQuery_slice (env : Env) (field : RValue) (typ : Typ) (query : Values)
    (tag : String) (source : List String)
    (hk : field.Kind = .Slice)
    (hp : query.Has ((Split tag).headD "") = true)
    (hsrc : source =
      if "explode" ∈ (Split tag).tail then query.index ((Split tag).headD "")
      else Split (query.Get ((Split tag).headD ""))) :
    decodeQuery env field typ query tag = resolveValues env field typ source := by
  have hany : (Split tag).tail.any (fun p => decide (p = "explode")) =
      decide ("explode" ∈ (Split tag).tail) := by
    by_cases h : "explode" ∈ (Split tag).tail
    · have : (Split tag).tail.any (fun p => decide (p = "explode")) = true :=
        List.any_eq_true.2 ⟨"explode", h, by simp⟩
      simp only [this, h, decide_True]
    · have : (Split tag).tail.any (fun p => decide (p = "explode")) = false := by
        apply List.any_eq_false.2
        intro p hp e
        exact h (by rw [← of_decide_eq_true e]; exact hp)
      simp only [this, h, decide_False]
  have hsrc' : (if (Split tag).tail.any (fun p => decide (p = "explode")) = true then
      query.index ((Split tag).headD "")
      else Split (query.Get ((Split tag).headD ""))) = source := by
    rw [hsrc, hany]
    by_cases h : "explode" ∈ (Split tag).tail
    · simp only [h, decide_True, if_true]
    · simp only [h, decide_False, if_false, Bool.false_eq_true]
  unfold decodeQuery
  simp only [hp, if_true, hk, hsrc']

/-- C1, as amended. A query-annotated sequence field of a supported scalar element type, whose
parameter is present and whose tokens all resolve: when the field is exported it is assigned
the sequence of the resolved tokens of the source list, element by element and in order, by
`decodeQuery` and so by the round of `decodeStruct` on the field; the source list is every
occurrence of the parameter when the annotation carries `explode`, and the comma-split of the
first occurrence otherwise. The sequence is as long as the source list: `N` occurrences give
length `N`, and a first occurrence that joins `M` comma-free tokens gives length `M`. On an
unexported field the closing `Set` panics and the field stays as it was. -/
theorem decodeQuery_sequence (env : Env) (typ : Typ) (old : Value) (query : Values)
    (tag : String) (source : List String)
    (hk : typ.Kind = .Slice) (hs : typ.Elem.Supported = true)
    (hp : query.Has ((Split tag).headD "") = true)
    (hsrc : source =
      if "explode" ∈ (Split tag).tail then query.index ((Split tag).headD "")
      else Split (query.Get ((Split tag).headD "")))
    (hres : ∀ tok ∈ source, (resolve env (some (typ.Elem, zero typ.Elem)) tok).2 = none) :
    decodeQuery env ⟨typ, old, false⟩ typ query tag =
      (.slice (source.map (resolved env typ.Elem)), none) ∧
    (∀ (r : Request) (n : String) (b : Bool), r.URL.Query = query → tag ≠ "" →
      IsExported env n = true →
      decodeField env r (.mk n typ ⟨tag, "", ""⟩) old b =
        (r, .slice (source.map (resolved env typ.Elem)), b, none)) ∧
    (source.map (resolved env typ.Elem)).length = source.length ∧
    (∀ toks : List String, toks ≠ [] → (∀ t ∈ toks, ',' ∉ t.data) →
      "explode" ∉ (Split tag).tail → query.Get ((Split tag).headD "") = Join toks →
      source = toks) ∧
    decodeQuery env ⟨typ, old, true⟩ typ query tag = (old, some (.fault setPanic)) := by
  have hE := resolveElems_supported env typ hs source hres
  have h1 : decodeQuery env ⟨typ, old, false⟩ typ query tag =
      (.slice (source.map (resolved env typ.Elem)), none) := by
    rw [decodeQuery_slice env ⟨typ, old, false⟩ typ query tag source hk hp hsrc]
    unfold resolveValues
    rw [hE]
    rfl
  refine ⟨h1, ?_, List.length_map _ _, ?_, ?_⟩
  · intro r n b hq ht hx
    have hns : ¬ (typ.Kind = .Struct) := by rw [hk]; decide
    simp only [decodeField, if_neg hns, hx, Bool.not_true, hq, ne_eq, ht, not_false_eq_true,
      if_true, h1, not_true_eq_false, if_false]
  · intro toks hne hc hex hget
    rw [hsrc, if_neg hex, hget, Split_Join toks hne hc]
  · rw [decodeQuery_slice env ⟨typ, old, true⟩ typ query tag source hk hp hsrc]
    unfold resolveValues
    rw [hE]
    rfl

/-- C1, at concrete inputs: `?id=1,2,3` into an exported `[]int` field tagged `query:"id"`
gives `[1,2,3]`, and `?id=1&id=2` into a field tagged `query:"id,explode"` gives `[1,2]`. -/
theorem decodeQuery_sequence_witness :
    decodeQuery sampleEnv ⟨.slice .int, .nil, false⟩ (.slice .int) [("id", ["1,2,3"])] "id" =
      (.slice [.int 1, .int 2, .int 3], none) ∧
    decodeQuery sampleEnv ⟨.slice .int, .nil, false⟩ (.slice .int) [("id", ["1", "2"])]
      "id,explode" = (.slice [.int 1, .int 2], none) :=
  ⟨(decodeQuery_sequence sampleEnv (.slice .int) .nil [("id", ["1,2,3"])] "id" ["1", "2", "3"]
      rfl rfl rfl rfl (by decide)).1,
   (decodeQuery_sequence sampleEnv (.slice .int) .nil [("id", ["1", "2"])] "id,explode"
      ["1", "2"] rfl rfl rfl rfl (by decide)).1⟩

/-- C1 as stated fails: the target `struct { ids []int "query:id" }` has a query-annotated
sequence field of a supported element type, the parameter is present in `?id=1,2,3` and every
token resolves, and yet the field is not assigned: it is not exported, `field.Set` panics in
`resolveValues`, and the panic passes through `DecodeRequest`. -/
theorem decodeQuery_sequence_unexported :
    (∀ tok ∈ ["1", "2", "3"], (resolve sampleEnv (some (.int, .int 0)) tok).2 = none) ∧
    IsExported sampleEnv "ids" = false ∧
    decodeQuery sampleEnv ⟨.slice .int, .nil, true⟩ (.slice .int) idsRequest.URL.Query "id" =
      (.nil, some (.fault setPanic)) ∧
    DecodeRequest sampleEnv unexportedListType idsRequest =
      (idsRequest, none, some (.fault setPanic)) :=
  ⟨by decide, rfl, rfl, rfl⟩

/-! ## The walk over a struct -/

mutual
theorem decodeStruct_noBody (env : Env) (r : Request) :
    (t : Typ) → (v : Value) → noBodyTag t = true →
      (decodeStruct env r t v).1 = r ∧ (decodeStruct env r t v).2.2.1 = false
  | .struct _ fs, .struct vals, h => by
    have ih := decodeFields_noBody env r fs vals (by simpa [noBodyTag] using h)
    simp only [decodeStruct]
    exact ih
  | .struct _ _, .string _, _ | .struct _ _, .bool _, _ | .struct _ _, .time _, _
  | .struct _ _, .int _, _ | .struct _ _, .uint _, _ | .struct _ _, .float _, _
  | .struct _ _, .complex _ _, _ | .struct _ _, .nil, _ | .struct _ _, .pointer _, _
  | .struct _ _, .slice _, _ | .struct _ _, .boxed _ _, _ | .struct _ _, .unmodelled _, _ => by
    simp [decodeStruct]
  | .defined _ u, v, h => by
    have ih := decodeStruct_noBody env r u v (by simpa [noBodyTag] using h)
    simp only [decodeStruct]
    exact ih
  | .string, _, _ | .bool, _, _ | .time, _, _ | .duration, _, _
  | .int, _, _ | .int8, _, _ | .int16, _, _ | .int32, _, _ | .int64, _, _
  | .uint, _, _ | .uint8, _, _ | .uint16, _, _ | .uint32, _, _ | .uint64, _, _
  | .float32, _, _ | .float64, _, _ | .complex64, _, _ | .complex128, _, _
  | .pointer _, _, _ | .slice _, _, _ | .iface _, _, _ | .unmodelled _ _, _, _ => by
    simp [decodeStruct]
theorem decodeField_noBody (env : Env) (r : Request) :
    (f : StructField) → (v : Value) → noBodyTagField f = true →
      (decodeField env r f v false).1 = r ∧ (decodeField env r f v false).2.2.1 = false
  | .mk n typ tag, v, h => by
    have h' : tag.body = "" ∧ noBodyTag typ = true := by simpa [noBodyTagField] using h
    have ih := decodeStruct_noBody env r typ v h'.2
    have hb : ¬ (tag.body ≠ "") := by simp [h'.1]
    have hstep :
        (if typ.Kind = .Struct then
            if IsExported env n then decodeStruct env r typ v
            else (r, v, false, some (.fault interfacePanic))
          else (r, v, false, none)).1 = r ∧
        (if typ.Kind = .Struct then
            if IsExported env n then decodeStruct env r typ v
            else (r, v, false, some (.fault interfacePanic))
          else (r, v, false, none)).2.2.1 = false := by
      split
      · split
        · exact ih
        · exact ⟨rfl, rfl⟩
      · exact ⟨rfl, rfl⟩
    simp only [decodeField, hb, if_false]
    rcases hd : (if typ.Kind = .Struct then
        if IsExported env n then decodeStruct env r typ v
        else (r, v, false, some (.fault interfacePanic))
      else (r, v, false, none)) with ⟨r1, v1, b1, e1⟩
    rw [hd] at hstep
    obtain ⟨rfl, rfl⟩ := hstep
    cases e1 with
    | some stop => exact ⟨rfl, rfl⟩
    | none =>
      simp only
      split <;> exact ⟨rfl, rfl⟩
theorem decodeFields_noBody (env : Env) (r : Request) :
    (fs : List StructField) → (vals : List Value) → noBodyTagFields fs = true →
      (decodeFields env r fs vals false).1 = r ∧ (decodeFields env r fs vals false).2.2.1 = false
  | [], _, _ => by simp [decodeFields]
  | _ :: _, [], _ => by simp [decodeFields]
  | f :: fs, v :: vals, h => by
    have h' : noBodyTagField f = true ∧ noBodyTagFields fs = true := by
      simpa [noBodyTagFields] using h
    have ih1 := decodeField_noBody env r f v h'.1
    have ih2 := decodeFields_noBody env r fs vals h'.2
    simp only [decodeFields]
    split
    · rename_i r1 v1 b1 err heq
      rw [heq] at ih1; exact ih1
    · rename_i r1 v1 b1 heq
      rw [heq] at ih1
      obtain ⟨rfl, rfl⟩ := ih1
      exact ih2
end

mutual
theorem decodeStruct_plain (env : Env) (r : Request) :
    (t : Typ) → (v : Value) → noBodyTag t = true → noQueryTag t = true →
      (decodeStruct env r t v).2.1 = v
  | .struct _ fs, .struct vals, h, hq => by
    have ih := decodeFields_plain env r fs vals (by simpa [noBodyTag] using h)
      (by simpa [noQueryTag] using hq)
    simp only [decodeStruct, ih]
  | .struct _ _, .string _, _, _ | .struct _ _, .bool _, _, _ | .struct _ _, .time _, _, _
  | .struct _ _, .int _, _, _ | .struct _ _, .uint _, _, _ | .struct _ _, .float _, _, _
  | .struct _ _, .complex _ _, _, _ | .struct _ _, .nil, _, _ | .struct _ _, .pointer _, _, _
  | .struct _ _, .slice _, _, _ | .struct _ _, .boxed _ _, _, _
  | .struct _ _, .unmodelled _, _, _ => by
    simp [decodeStruct]
  | .defined _ u, v, h, hq => by
    have ih := decodeStruct_plain env r u v (by simpa [noBodyTag] using h)
      (by simpa [noQueryTag] using hq)
    simp only [decodeStruct]
    exact ih
  | .string, _, _, _ | .bool, _, _, _ | .time, _, _, _ | .duration, _, _, _
  | .int, _, _, _ | .int8, _, _, _ | .int16, _, _, _ | .int32, _, _, _ | .int64, _, _, _
  | .uint, _, _, _ | .uint8, _, _, _ | .uint16, _, _, _ | .uint32, _, _, _ | .uint64, _, _, _
  | .float32, _, _, _ | .float64, _, _, _ | .complex64, _, _, _ | .complex128, _, _, _
  | .pointer _, _, _, _ | .slice _, _, _, _ | .iface _, _, _, _ | .unmodelled _ _, _, _, _ => by
    simp [decodeStruct]
theorem decodeField_plain (env : Env) (r : Request) :
    (f : StructField) → (v : Value) → (b : Bool) → noBodyTagField f = true →
      noQueryTagField f = true → (decodeField env r f v b).2.1 = v
  | .mk n typ tag, v, b, h, hq => by
    have h' : tag.body = "" ∧ noBodyTag typ = true := by simpa [noBodyTagField] using h
    have hq' : tag.query = "" ∧ noQueryTag typ = true := by simpa [noQueryTagField] using hq
    have ih := decodeStruct_plain env r typ v h'.2 hq'.2
    have hb : ¬ (tag.body ≠ "") := by simp [h'.1]
    have hqq : ¬ (tag.query ≠ "") := by simp [hq'.1]
    have hstep :
        (if typ.Kind = .Struct then
            if IsExported env n then decodeStruct env r typ v
            else (r, v, b, some (.fault interfacePanic))
          else (r, v, b, none)).2.1 = v := by
      split
      · split
        · exact ih
        · rfl
      · rfl
    simp only [decodeField, hb, hqq, if_false]
    rcases hd : (if typ.Kind = .Struct then
        if IsExported env n then decodeStruct env r typ v
        else (r, v, b, some (.fault interfacePanic))
      else (r, v, b, none)) with ⟨r1, v1, b1, e1⟩
    rw [hd] at hstep
    cases e1 <;> exact hstep
theorem decodeFields_plain (env : Env) (r : Request) :
    (fs : List StructField) → (vals : List Value) → noBodyTagFields fs = true →
      noQueryTagFields fs = true → (decodeFields env r fs vals false).2.1 = vals
  | [], _, _, _ => by simp [decodeFields]
  | _ :: _, [], _, _ => by simp [decodeFields]
  | f :: fs, v :: vals, h, hq => by
    have h' : noBodyTagField f = true ∧ noBodyTagFields fs = true := by
      simpa [noBodyTagFields] using h
    have hq' : noQueryTagField f = true ∧ noQueryTagFields fs = true := by
      simpa [noQueryTagFields] using hq
    have ih1 := decodeField_plain env r f v false h'.1 hq'.1
    have hn := decodeField_noBody env r f v h'.1
    simp only [decodeFields]
    rcases hd : decodeField env r f v false with ⟨r1, v1, b1, e1⟩
    rw [hd] at ih1 hn
    simp only at ih1 hn
    obtain ⟨rfl, rfl⟩ := hn
    subst ih1
    cases e1 with
    | some stop => rfl
    | none =>
      have ih2 := decodeFields_plain env r1 fs vals h'.2 hq'.2
      simp only
      rcases hc : decodeFields env r1 fs vals false with ⟨r2, v2, b2, e2⟩
      rw [hc] at ih2
      simp only at ih2
      rw [ih2]
end

theorem zeroFields_length (fs : List StructField) : (zeroFields fs).length = fs.length := by
  induction fs with
  | nil => rfl
  | cons p ps ih =>
    cases p with
    | mk n t tag => simp only [zeroFields, List.length_cons, ih]

theorem decodeFields_length (env : Env) (fields : List StructField) :
    ∀ (r : Request) (vals : List Value) (body : Bool),
      (decodeFields env r fields vals body).2.1.length = vals.length := by
  induction fields with
  | nil =>
    intro r vals body
    simp only [decodeFields]
  | cons f fs ih =>
    intro r vals body
    cases vals with
    | nil => simp only [decodeFields]
    | cons v vs =>
      simp only [decodeFields]
      rcases hd : decodeField env r f v body with ⟨r1, v1, b1, e1⟩
      cases e1 with
      | some stop => rfl
      | none =>
        simp only
        have := ih r1 vs b1
        rcases hf : decodeFields env r1 fs vs b1 with ⟨r2, vs2, b2, e2⟩
        rw [hf] at this
        simpa using this

/-- The walk over a struct leaves a struct with as many fields as the type has. -/
theorem decodeStruct_shape (env : Env) (r : Request) (nm : String)
    (fields : List StructField) :
    ∃ vals, (decodeStruct env r (.struct nm fields) (zero (.struct nm fields))).2.1 =
      .struct vals ∧ vals.length = fields.length := by
  refine ⟨(decodeFields env r fields (zeroFields fields) false).2.1, ?_, ?_⟩
  · simp only [zero, decodeStruct]
  · rw [decodeFields_length, zeroFields_length]

/-! ## The codec on its own encoding -/

theorem scanAll_append (quote : String → String) (s : Scanner) (xs ys : List Nat) :
    scanAll quote s (xs ++ ys) =
      match scanAll quote s xs with
      | .ok s' => scanAll quote s' ys
      | .error msg => .error msg := by
  induction xs generalizing s with
  | nil => rfl
  | cons c cs ih =>
    simp only [List.cons_append, scanAll]
    cases scanStep quote s c with
    | error msg => rfl
    | ok s' => exact ih s'

theorem scanAll_append_ok (quote : String → String) (s s' : Scanner) (xs ys : List Nat)
    (h : scanAll quote s xs = .ok s') :
    scanAll quote s (xs ++ ys) = scanAll quote s' ys := by
  rw [scanAll_append, h]

/-- The bytes of a character that the codec writes as it is: none of them ends a string or
starts an escape. -/
theorem utf8_plain (c : Char) (h : isPlainChar c = true) :
    ∀ b ∈ utf8 c, 32 ≤ b ∧ b ≠ 34 ∧ b ≠ 92 := by
  simp only [isPlainChar, Bool.and_eq_true, decide_eq_true_eq, bne_iff_ne, ne_eq] at h
  obtain ⟨⟨⟨⟨⟨⟨⟨h1, h2⟩, h3⟩, _⟩, _⟩, _⟩, _⟩, _⟩ := h
  intro b hb
  unfold utf8 at hb
  simp only at hb
  split at hb
  · simp only [List.mem_singleton] at hb
    subst hb
    exact ⟨h1, h2, h3⟩
  · split at hb
    · simp only [List.mem_cons, List.mem_singleton, List.not_mem_nil, or_false] at hb
      rcases hb with rfl | rfl <;> omega
    · split at hb
      · simp only [List.mem_cons, List.mem_singleton, List.not_mem_nil, or_false] at hb
        rcases hb with rfl | rfl | rfl <;> omega
      · simp only [List.mem_cons, List.mem_singleton, List.not_mem_nil, or_false] at hb
        rcases hb with rfl | rfl | rfl | rfl <;> omega

theorem scanAll_inString (quote : String → String) (st : List ParseState) (bs : List Nat)
    (h : ∀ b ∈ bs, 32 ≤ b ∧ b ≠ 34 ∧ b ≠ 92) :
    scanAll quote ⟨.inString, st⟩ bs = .ok ⟨.inString, st⟩ := by
  induction bs with
  | nil => rfl
  | cons b bs ih =>
    obtain ⟨h1, h2, h3⟩ := h b (List.mem_cons_self _ _)
    have h4 : ¬ b < 32 := by omega
    simp only [scanAll, scanStep, h2, h3, h4, if_false]
    exact ih (fun x hx => h x (List.mem_cons_of_mem _ hx))

theorem plain_bytes (ps : List Char) (h : ps.all isPlainChar = true) :
    ∀ b ∈ ps.flatMap utf8, 32 ≤ b ∧ b ≠ 34 ∧ b ≠ 92 := by
  intro b hb
  rw [List.mem_flatMap] at hb
  obtain ⟨c, hc, hbc⟩ := hb
  exact utf8_plain c (List.all_eq_true.1 h c hc) b hbc

/-- The scanner over the rest of a string that the codec writes without escapes. -/
theorem scanAll_string (quote : String → String) (st : List ParseState) (ps : List Char)
    (h : ps.all isPlainChar = true) :
    scanAll quote ⟨.inString, st⟩ ((ps ++ [Char.ofNat 34]).flatMap utf8) =
      .ok ⟨.endValue, st⟩ := by
  rw [List.flatMap_append, scanAll_append_ok quote _ _ _ _
    (scanAll_inString quote st _ (plain_bytes ps h))]
  rfl

theorem isSpace_false (c : Nat) (h : 33 ≤ c) : isSpace c = false := by
  simp only [isSpace, Bool.or_eq_false_iff, decide_eq_false_iff_not]
  omega

theorem utf8_ascii (c : Char) (h : c.toNat < 128) : utf8 c = [c.toNat] := by
  simp only [utf8]
  rw [if_pos h]

theorem flatMap_utf8_ascii (cs : List Char) (h : ∀ c ∈ cs, c.toNat < 128) :
    cs.flatMap utf8 = cs.map Char.toNat := by
  induction cs with
  | nil => rfl
  | cons c cs ih =>
    rw [List.flatMap_cons, utf8_ascii c (h c (List.mem_cons_self _ _)),
      ih (fun x hx => h x (List.mem_cons_of_mem _ hx))]
    rfl

/-- The digits of a positive number do not start with a zero. -/
theorem formatDigits_lead (fuel n : Nat) (h0 : 0 < n) (h : n < fuel) :
    ∃ c cs, formatDigits fuel n [] = c :: cs ∧ (49 ≤ c.toNat ∧ c.toNat ≤ 57) ∧
      ∀ d ∈ cs, 48 ≤ d.toNat ∧ d.toNat ≤ 57 := by
  induction fuel generalizing n with
  | zero => omega
  | succ k ih =>
    simp only [formatDigits]
    by_cases h10 : n < 10
    · rw [if_pos h10]
      refine ⟨digitChar n, [], rfl, ?_, by simp⟩
      rw [digitChar_toNat n h10]
      omega
    · rw [if_neg h10, formatDigits_append]
      obtain ⟨c, cs, hc, hlead, hrest⟩ := ih (n / 10) (by omega) (by omega)
      refine ⟨c, cs ++ [digitChar (n % 10)], by rw [hc]; rfl, hlead, ?_⟩
      intro d hd
      rcases List.mem_append.1 hd with hd | hd
      · exact hrest d hd
      · rw [List.mem_singleton] at hd
        subst hd
        rw [digitChar_toNat (n % 10) (Nat.mod_lt _ (by norm_num))]
        have := Nat.mod_lt n (show 10 > 0 by norm_num)
        omega

theorem scanAll_one (quote : String → String) (st : List ParseState) (ds : List Nat)
    (h : ∀ d ∈ ds, 48 ≤ d ∧ d ≤ 57) :
    scanAll quote ⟨.one, st⟩ ds = .ok ⟨.one, st⟩ := by
  induction ds with
  | nil => rfl
  | cons d ds ih =>
    have hd := h d (List.mem_cons_self _ _)
    simp only [scanAll, scanStep, hd, and_self, if_true]
    exact ih (fun x hx => h x (List.mem_cons_of_mem _ hx))

theorem scanStep_lead (quote : String → String) (st : List ParseState) (b : Nat)
    (h : 49 ≤ b ∧ b ≤ 57) :
    scanStep quote ⟨.beginValue, st⟩ b = .ok ⟨.one, st⟩ ∧
      scanStep quote ⟨.neg, st⟩ b = .ok ⟨.one, st⟩ := by
  have h1 : isSpace b = false := isSpace_false b (by omega)
  have h2 : ¬ b = 123 := by omega
  have h3 : ¬ b = 91 := by omega
  have h4 : ¬ b = 34 := by omega
  have h5 : ¬ b = 45 := by omega
  have h6 : ¬ b = 48 := by omega
  have h7 : ¬ b = 116 := by omega
  have h8 : ¬ b = 102 := by omega
  have h9 : ¬ b = 110 := by omega
  constructor
  · simp only [scanStep, stateBeginValue, h1, h2, h3, h4, h5, h6, h7, h8, h9, h, and_self,
      if_true, if_false, Bool.false_eq_true]
  · simp only [scanStep, h6, h, and_self, if_true, if_false]

/-- The scanner over the digits of a number, behind a sign or at the start of a value: it
ends inside the number. -/
theorem scanAll_digits (quote : String → String) (st : List ParseState) (n : Nat) :
    (scanAll quote ⟨.beginValue, st⟩ ((formatDigits (n + 1) n []).flatMap utf8) = .ok ⟨.zero, st⟩ ∨
      scanAll quote ⟨.beginValue, st⟩ ((formatDigits (n + 1) n []).flatMap utf8) =
        .ok ⟨.one, st⟩) ∧
    (scanAll quote ⟨.neg, st⟩ ((formatDigits (n + 1) n []).flatMap utf8) = .ok ⟨.zero, st⟩ ∨
      scanAll quote ⟨.neg, st⟩ ((formatDigits (n + 1) n []).flatMap utf8) = .ok ⟨.one, st⟩) := by
  rcases Nat.eq_zero_or_pos n with rfl | hpos
  · exact ⟨Or.inl rfl, Or.inl rfl⟩
  · obtain ⟨c, cs, hc, hlead, hrest⟩ := formatDigits_lead (n + 1) n hpos (Nat.lt_succ_self n)
    have hasc : ∀ x ∈ c :: cs, x.toNat < 128 := by
      intro x hx
      rcases List.mem_cons.1 hx with rfl | hx
      · omega
      · have := hrest x hx
        omega
    have hds : ∀ d ∈ cs.map Char.toNat, 48 ≤ d ∧ d ≤ 57 := by
      intro d hd
      obtain ⟨x, hx, rfl⟩ := List.mem_map.1 hd
      exact hrest x hx
    rw [hc, flatMap_utf8_ascii _ hasc]
    simp only [List.map_cons, scanAll, (scanStep_lead quote st c.toNat hlead).1,
      (scanStep_lead quote st c.toNat hlead).2, scanAll_one quote st _ hds]
    exact ⟨Or.inr trivial, Or.inr trivial⟩

/-- The scanner behind the value of a member, at the comma and at the closing brace. -/
theorem scanStep_delimiter (quote : String → String) (step : ScanStep)
    (h : step = .endValue ∨ step = .zero ∨ step = .one) :
    scanStep quote ⟨step, [.objectValue]⟩ 44 = .ok ⟨.beginString, [.objectKey]⟩ ∧
      scanStep quote ⟨step, [.objectValue]⟩ 125 = .ok ⟨.endTop, []⟩ := by
  rcases h with rfl | rfl | rfl <;> exact ⟨rfl, rfl⟩

theorem literalStore_FormatInt (n : Int) (h : -(2 ^ 63 : Int) ≤ n ∧ n < 2 ^ 63) :
    ParseInt (FormatInt n) 64 = (n, none) := by
  rw [ParseInt_FormatInt n 64 (by decide)]
  have h1 : ¬ n < -((2 ^ (64 - 1) : Nat) : Int) := by norm_num; omega
  have h2 : ¬ n ≥ ((2 ^ (64 - 1) : Nat) : Int) := by norm_num; omega
  rw [if_neg h1, if_neg h2]

theorem literalStore_FormatUint (n : Nat) (h : n < 2 ^ 64) :
    ParseUint (FormatUint n) 64 = (n, none) := by
  rw [ParseUint_FormatUint n 64 (by decide) (by decide)]
  have h1 : n ≤ 2 ^ 64 - 1 := by omega
  rw [if_pos h1]

/-- What the codec writes for a value, and what its reader stores for that text. -/
theorem writeScalar_cases (t : Typ) (v : Value) (x : List Char) (h : writeScalar t v = some x) :
    (∃ s, v = .string s ∧ s.data.all isPlainChar = true ∧
        x = Char.ofNat 34 :: s.data ++ [Char.ofNat 34] ∧
        ∀ old, literalStore t old (.string s) = some v) ∨
    (∃ b, v = .bool b ∧ x = (if b then ['t', 'r', 'u', 'e'] else ['f', 'a', 'l', 's', 'e']) ∧
        ∀ old, literalStore t old (.bool b) = some v) ∨
    (∃ n, v = .int n ∧ x = (FormatInt n).data ∧
        ∀ old, literalStore t old (.number (FormatInt n)) = some v) ∨
    (∃ n, v = .uint n ∧ x = (FormatUint n).data ∧
        ∀ old, literalStore t old (.number (FormatUint n)) = some v) := by
  cases t <;> simp only [writeScalar] at h
  case string =>
    cases v <;> simp only at h
    case string s =>
      by_cases hp : s.data.all isPlainChar = true
      · rw [if_pos hp] at h
        exact Or.inl ⟨s, rfl, hp, (Option.some.inj h).symm, fun _ => rfl⟩
      · rw [if_neg hp] at h
        cases h
    all_goals cases h
  case bool =>
    cases v <;> try simp only at h
    case bool b =>
      cases b <;> simp only at h
      · exact Or.inr (Or.inl ⟨false, rfl, (Option.some.inj h).symm, fun _ => rfl⟩)
      · exact Or.inr (Or.inl ⟨true, rfl, (Option.some.inj h).symm, fun _ => rfl⟩)
    all_goals cases h
  case int | int8 | int16 | int32 | int64 | duration =>
    cases v <;> simp only at h
    case int n =>
      split at h
      · rename_i hr
        refine Or.inr (Or.inr (Or.inl ⟨n, rfl, (Option.some.inj h).symm, fun old => ?_⟩))
        have hp := literalStore_FormatInt n (by norm_num at hr ⊢; omega)
        simp only [literalStore, hp]
        rw [if_pos hr]
      · cases h
    all_goals cases h
  case uint | uint8 | uint16 | uint32 | uint64 =>
    cases v <;> simp only at h
    case uint n =>
      split at h
      · rename_i hr
        refine Or.inr (Or.inr (Or.inr ⟨n, rfl, (Option.some.inj h).symm, fun old => ?_⟩))
        have hp := literalStore_FormatUint n (by norm_num at hr ⊢; omega)
        simp only [literalStore, hp]
        rw [if_pos hr]
      · cases h
    all_goals cases h
  all_goals cases h

theorem isDigit_iff (c : Char) : c.isDigit = true ↔ 48 ≤ c.toNat ∧ c.toNat ≤ 57 := by
  simp only [Char.isDigit, Bool.and_eq_true, decide_eq_true_eq, Char.toNat, UInt32.le_def]
  rfl

theorem readString_plain (q : Char) (hq : q.toNat = 34) (ps : List Char)
    (h : ∀ c ∈ ps, c.toNat ≠ 34 ∧ c.toNat ≠ 92) (acc rest : List Char) :
    readString false acc (ps ++ q :: rest) = some (String.mk (acc.reverse ++ ps), rest) := by
  induction ps generalizing acc with
  | nil => simp only [List.nil_append, readString, hq, if_true, List.append_nil]
  | cons c cs ih =>
    obtain ⟨h1, h2⟩ := h c (List.mem_cons_self _ _)
    simp only [List.cons_append, readString, h1, h2, if_false]
    refine (ih (fun x hx => h x (List.mem_cons_of_mem _ hx)) (c :: acc)).trans ?_
    simp

theorem takeWhile_append_stop (p : Char → Bool) (xs : List Char) (d : Char) (rest : List Char)
    (hx : ∀ c ∈ xs, p c = true) (hd : p d = false) :
    (xs ++ d :: rest).takeWhile p = xs ∧ (xs ++ d :: rest).dropWhile p = d :: rest := by
  induction xs with
  | nil => simp [List.takeWhile, List.dropWhile, hd]
  | cons c cs ih =>
    have hc := hx c (List.mem_cons_self _ _)
    obtain ⟨h1, h2⟩ := ih (fun x hx2 => hx x (List.mem_cons_of_mem _ hx2))
    rw [List.cons_append, List.takeWhile_cons, List.dropWhile_cons, if_pos hc, if_pos hc, h1, h2]
    exact ⟨rfl, rfl⟩

/-- The scanner over the value of a member: it ends behind the value or inside a number. -/
theorem scanAll_value (quote : String → String) (t : Typ) (v : Value) (x : List Char)
    (h : writeScalar t v = some x) :
    ∃ step, (step = .endValue ∨ step = .zero ∨ step = .one) ∧
      scanAll quote ⟨.beginValue, [.objectValue]⟩ (x.flatMap utf8) =
        .ok ⟨step, [.objectValue]⟩ := by
  rcases writeScalar_cases t v x h with ⟨s, _, hp, rfl, _⟩ | ⟨b, _, rfl, _⟩ | ⟨n, _, rfl, _⟩ |
    ⟨n, _, rfl, _⟩
  · refine ⟨.endValue, Or.inl rfl, ?_⟩
    rw [List.cons_append, List.flatMap_cons]
    exact scanAll_string quote [.objectValue] s.data hp
  · cases b
    · exact ⟨.endValue, Or.inl rfl, rfl⟩
    · exact ⟨.endValue, Or.inl rfl, rfl⟩
  · by_cases hn : n < 0
    · have hf : (FormatInt n).data = '-' :: formatDigits (n.natAbs + 1) n.natAbs [] := by
        simp only [FormatInt, if_pos hn]
      rw [hf, List.flatMap_cons]
      rcases (scanAll_digits quote [.objectValue] n.natAbs).2 with h0 | h1
      · exact ⟨.zero, Or.inr (Or.inl rfl), h0⟩
      · exact ⟨.one, Or.inr (Or.inr rfl), h1⟩
    · have hf : (FormatInt n).data = formatDigits (n.toNat + 1) n.toNat [] := by
        simp only [FormatInt, if_neg hn, FormatUint]
      rw [hf]
      rcases (scanAll_digits quote [.objectValue] n.toNat).1 with h0 | h1
      · exact ⟨.zero, Or.inr (Or.inl rfl), h0⟩
      · exact ⟨.one, Or.inr (Or.inr rfl), h1⟩
  · rcases (scanAll_digits quote [.objectValue] n).1 with h0 | h1
    · exact ⟨.zero, Or.inr (Or.inl rfl), h0⟩
    · exact ⟨.one, Or.inr (Or.inr rfl), h1⟩

theorem isNumberChar_digit (c : Char) (h : 48 ≤ c.toNat ∧ c.toNat ≤ 57) :
    isNumberChar c = true := by
  simp only [isNumberChar, (isDigit_iff c).2 h, Bool.true_or]

/-- The reader at a number that a comma or a closing brace follows. -/
theorem readScalar_number (c : Char) (cs : List Char) (d : Char) (rest : List Char)
    (hc : c = '-' ∨ (48 ≤ c.toNat ∧ c.toNat ≤ 57))
    (hcs : ∀ x ∈ cs, 48 ≤ x.toNat ∧ x.toNat ≤ 57)
    (hd : d = Char.ofNat 44 ∨ d = Char.ofNat 125) :
    skipSpace (c :: cs ++ d :: rest) = c :: cs ++ d :: rest ∧
      readScalar (c :: cs ++ d :: rest) = some (.number (String.mk (c :: cs)), d :: rest) := by
  have hnum : isNumberChar c = true := by
    rcases hc with rfl | hc
    · rfl
    · exact isNumberChar_digit c hc
  have hall : ∀ x ∈ c :: cs, isNumberChar x = true := by
    intro x hx
    rcases List.mem_cons.1 hx with rfl | hx
    · exact hnum
    · exact isNumberChar_digit x (hcs x hx)
  have hdn : isNumberChar d = false := by
    rcases hd with rfl | rfl <;> rfl
  have hn : c.toNat = 45 ∨ (48 ≤ c.toNat ∧ c.toNat ≤ 57) := by
    rcases hc with rfl | hc
    · exact Or.inl rfl
    · exact Or.inr hc
  have hsp : isSpace c.toNat = false := isSpace_false _ (by omega)
  have h34 : ¬ c.toNat = 34 := by omega
  have ht : ¬ c = 't' := by rintro rfl; revert hn; decide
  have hf : ¬ c = 'f' := by rintro rfl; revert hn; decide
  have hnn : ¬ c = 'n' := by rintro rfl; revert hn; decide
  have hb : ¬ (c.toNat = 123 ∨ c.toNat = 91) := by omega
  obtain ⟨h1, h2⟩ := takeWhile_append_stop isNumberChar (c :: cs) d rest hall hdn
  constructor
  · simp only [List.cons_append, skipSpace, hsp, Bool.false_eq_true, if_false]
    rfl
  · rw [List.cons_append] at h1 h2 ⊢
    simp only [readScalar, h34, ht, hf, hnn, hb, hnum, if_true, if_false, h1, h2]

theorem FormatUint_chars (n : Nat) :
    ∃ c cs, (FormatUint n).data = c :: cs ∧ (c = '-' ∨ (48 ≤ c.toNat ∧ c.toNat ≤ 57)) ∧
      ∀ x ∈ cs, 48 ≤ x.toNat ∧ x.toNat ≤ 57 := by
  have hd := formatDigits_digits (n + 1) n [] (by simp)
  obtain ⟨c, cs, hc, _⟩ := formatDigits_head n
  refine ⟨c, cs, hc, Or.inr (hd c (by rw [hc]; exact List.mem_cons_self _ _)), ?_⟩
  intro x hx
  exact hd x (by rw [hc]; exact List.mem_cons_of_mem _ hx)

theorem FormatInt_chars (n : Int) :
    ∃ c cs, (FormatInt n).data = c :: cs ∧ (c = '-' ∨ (48 ≤ c.toNat ∧ c.toNat ≤ 57)) ∧
      ∀ x ∈ cs, 48 ≤ x.toNat ∧ x.toNat ≤ 57 := by
  by_cases hn : n < 0
  · refine ⟨'-', formatDigits (n.natAbs + 1) n.natAbs [], ?_, Or.inl rfl,
      formatDigits_digits _ _ _ (by simp)⟩
    simp only [FormatInt, if_pos hn]
  · have hf : FormatInt n = FormatUint n.toNat := by simp only [FormatInt, if_neg hn]
    rw [hf]
    exact FormatUint_chars n.toNat

/-- The reader at the value of a member that a comma or a closing brace follows: it reads
the value back. -/
theorem readScalar_value (t : Typ) (v : Value) (x : List Char) (h : writeScalar t v = some x)
    (d : Char) (rest : List Char) (hd : d = Char.ofNat 44 ∨ d = Char.ofNat 125) :
    skipSpace (x ++ d :: rest) = x ++ d :: rest ∧
      ∃ sc, readScalar (x ++ d :: rest) = some (sc, d :: rest) ∧
        ∀ old, literalStore t old sc = some v := by
  rcases writeScalar_cases t v x h with ⟨s, _, hp, rfl, hs⟩ | ⟨b, _, rfl, hs⟩ | ⟨n, _, hx, hs⟩ |
    ⟨n, _, hx, hs⟩
  · refine ⟨rfl, .string s, ?_, hs⟩
    have hplain : ∀ c ∈ s.data, c.toNat ≠ 34 ∧ c.toNat ≠ 92 := by
      intro c hc
      have := List.all_eq_true.1 hp c hc
      simp only [isPlainChar, Bool.and_eq_true, decide_eq_true_eq, bne_iff_ne, ne_eq] at this
      exact ⟨this.1.1.1.1.1.1.2, this.1.1.1.1.1.2⟩
    have hr := readString_plain (Char.ofNat 34) rfl s.data hplain [] (d :: rest)
    rw [List.cons_append, List.cons_append, List.append_assoc]
    simp only [readScalar]
    rw [if_pos (show (Char.ofNat 34).toNat = 34 from rfl)]
    exact (congrArg (fun o => match o with
      | some (s, rest) => some (Scalar.string s, rest)
      | none => none) hr)
  · cases b
    · exact ⟨rfl, .bool false, rfl, hs⟩
    · exact ⟨rfl, .bool true, rfl, hs⟩
  · obtain ⟨c, cs, hc, hlead, hrest⟩ := FormatInt_chars n
    rw [hx, hc]
    obtain ⟨h1, h2⟩ := readScalar_number c cs d rest hlead hrest hd
    refine ⟨h1, .number (FormatInt n), ?_, hs⟩
    rw [h2, ← hc]
  · obtain ⟨c, cs, hc, hlead, hrest⟩ := FormatUint_chars n
    rw [hx, hc]
    obtain ⟨h1, h2⟩ := readScalar_number c cs d rest hlead hrest hd
    refine ⟨h1, .number (FormatUint n), ?_, hs⟩
    rw [h2, ← hc]

theorem plain_not_quote (ps : List Char) (hp : ps.all isPlainChar = true) :
    ∀ c ∈ ps, c.toNat ≠ 34 ∧ c.toNat ≠ 92 := by
  intro c hc
  have := List.all_eq_true.1 hp c hc
  simp only [isPlainChar, Bool.and_eq_true, decide_eq_true_eq, bne_iff_ne, ne_eq] at this
  exact ⟨this.1.1.1.1.1.1.2, this.1.1.1.1.1.2⟩

/-- The reader at a member that the codec wrote, with a comma or a closing brace behind it. -/
theorem readMembers_step (name : String) (hp : name.data.all isPlainChar = true)
    (t : Typ) (v : Value) (x : List Char) (h : writeScalar t v = some x)
    (d : Char) (hd : d = Char.ofNat 44 ∨ d = Char.ofNat 125) (rest : List Char) (fuel : Nat) :
    ∃ sc, (∀ old, literalStore t old sc = some v) ∧
      readMembers (fuel + 1)
          ((Char.ofNat 34 :: name.data ++ Char.ofNat 34 :: Char.ofNat 58 :: x) ++ d :: rest) =
        if d.toNat = 44 then
          match readMembers fuel rest with
          | some ms => some ((name, sc) :: ms)
          | none => none
        else some [(name, sc)] := by
  obtain ⟨hsp, sc, hsc, hst⟩ := readScalar_value t v x h d rest hd
  refine ⟨sc, hst, ?_⟩
  have hr := readString_plain (Char.ofNat 34) rfl name.data (plain_not_quote _ hp) []
    (Char.ofNat 58 :: (x ++ d :: rest))
  have hl : (Char.ofNat 34 :: name.data ++ Char.ofNat 34 :: Char.ofNat 58 :: x) ++ d :: rest =
      Char.ofNat 34 :: (name.data ++ Char.ofNat 34 :: Char.ofNat 58 :: (x ++ d :: rest)) := by
    simp
  have hds : skipSpace (d :: rest) = d :: rest := by
    rcases hd with rfl | rfl <;> rfl
  rw [hl]
  simp only [readMembers]
  rw [show skipSpace (Char.ofNat 34 :: (name.data ++
      Char.ofNat 34 :: Char.ofNat 58 :: (x ++ d :: rest))) = Char.ofNat 34 :: (name.data ++
      Char.ofNat 34 :: Char.ofNat 58 :: (x ++ d :: rest)) from rfl]
  simp only [hr]
  rw [show skipSpace (Char.ofNat 58 :: (x ++ d :: rest)) = Char.ofNat 58 :: (x ++ d :: rest)
    from rfl]
  simp only [hsp, hsc, hds]
  rfl

theorem firstField_exact (key : String) (pre post : List JsonField)
    (h : JsonField.named key ∉ pre) :
    firstField (fun f => decide (f = .named key)) (pre ++ .named key :: post) =
      some pre.length := by
  induction pre with
  | nil => simp [firstField]
  | cons p ps ih =>
    have hp : ¬ p = .named key := fun e => h (e ▸ List.mem_cons_self _ _)
    have hps : JsonField.named key ∉ ps := fun e => h (List.mem_cons_of_mem _ e)
    rw [List.cons_append]
    simp only [firstField, hp, decide_False, Bool.false_eq_true, if_false]
    rw [ih hps]
    rfl

theorem findField_exact (key : String) (pre post : List JsonField)
    (h : JsonField.named key ∉ pre) :
    findField (pre ++ .named key :: post) key = some pre.length := by
  simp only [findField, firstField_exact key pre post h]

theorem hasDuplicate_split (key : String) (pre post : List JsonField)
    (h : hasDuplicate (pre ++ .named key :: post) = false) : JsonField.named key ∉ pre := by
  induction pre with
  | nil => simp
  | cons p ps ih =>
    rw [List.cons_append] at h
    simp only [hasDuplicate, Bool.or_eq_false_iff] at h
    intro hmem
    rcases List.mem_cons.1 hmem with e | e
    · subst e
      have hc : (ps ++ JsonField.named key :: post).contains (JsonField.named key) = true := by
        simp
      rw [hc] at h
      exact Bool.noConfusion h.1
    · exact ih h.2 e

theorem storeField_at (f : StructField) (o : Value) (x : Scalar)
    (fpre : List StructField) (vpre : List Value) (fpost : List StructField)
    (opost : List Value) (hl : vpre.length = fpre.length) :
    storeField (fpre ++ f :: fpost) (vpre ++ o :: opost) fpre.length x =
      match literalStore f.Typ o x with
      | some v => some (vpre ++ v :: opost)
      | none => none := by
  induction fpre generalizing vpre with
  | nil =>
    cases vpre with
    | nil => rfl
    | cons a as => simp at hl
  | cons g gs ih =>
    cases vpre with
    | nil => simp at hl
    | cons a as =>
      have hl2 : as.length = gs.length := by simpa using hl
      rw [List.cons_append, List.cons_append, List.length_cons]
      simp only [storeField]
      rw [ih as hl2]
      cases literalStore f.Typ o x <;> rfl

theorem jsonField_named_ascii (isUpper : Char → Bool) (f : StructField) (name : String)
    (h : jsonField isUpper f = .named name) :
    (name.data.all fun c => decide (c.toNat < 128)) = true := by
  cases f with
  | mk nm typ tag =>
    simp only [jsonField] at h
    split at h
    · cases h
    · split at h
      · cases h
      · split at h
        · cases h
        · split at h
          · cases h
          · split at h
            · cases h
            · rename_i hasc
              simp only [Bool.or_eq_true, Bool.not_eq_true', not_or, Bool.not_eq_false] at hasc
              split at h
              · cases h
                exact hasc.2
              · cases h
                exact hasc.1

theorem writeName_named (isUpper : Char → Bool) (f : StructField) (name : String)
    (h : writeName isUpper f = some name) :
    jsonField isUpper f = .named name ∧ name.data.all isPlainChar = true ∧
      (name.data.all fun c => decide (c.toNat < 128)) = true := by
  unfold writeName at h
  cases hj : jsonField isUpper f with
  | hidden => rw [hj] at h; cases h
  | unmodelled => rw [hj] at h; cases h
  | named nm =>
    rw [hj] at h
    simp only at h
    split at h
    · rename_i hc
      cases h
      simp only [Bool.and_eq_true] at hc
      exact ⟨rfl, hc.2, jsonField_named_ascii isUpper f _ hj⟩
    · cases h

theorem writeMembers_cons (isUpper : Char → Bool) (f : StructField) (fs : List StructField)
    (vals : List Value) (ms : List (List Char))
    (h : writeMembers isUpper (f :: fs) vals = some ms) :
    ∃ v vs name x ms', vals = v :: vs ∧ writeName isUpper f = some name ∧
      writeScalar f.Typ v = some x ∧ writeMembers isUpper fs vs = some ms' ∧
      ms = (Char.ofNat 34 :: name.data ++ Char.ofNat 34 :: Char.ofNat 58 :: x) :: ms' := by
  cases vals with
  | nil => simp only [writeMembers] at h; cases h
  | cons v vs =>
    simp only [writeMembers] at h
    cases hn : writeName isUpper f with
    | none => rw [hn] at h; cases h
    | some name =>
      cases hx : writeScalar f.Typ v with
      | none => rw [hn, hx] at h; cases h
      | some x =>
        cases hm : writeMembers isUpper fs vs with
        | none => rw [hn, hx, hm] at h; cases h
        | some ms' =>
          rw [hn, hx, hm] at h
          exact ⟨v, vs, name, x, ms', rfl, rfl, hx, hm, (Option.some.inj h).symm⟩

theorem writeMembers_length (isUpper : Char → Bool) (fs : List StructField) :
    ∀ (vals : List Value) (ms : List (List Char)), writeMembers isUpper fs vals = some ms →
      vals.length = fs.length ∧ ms.length = fs.length := by
  induction fs with
  | nil =>
    intro vals ms h
    cases vals with
    | nil => simp only [writeMembers] at h; cases h; exact ⟨rfl, rfl⟩
    | cons v vs => simp only [writeMembers] at h; cases h
  | cons f fs ih =>
    intro vals ms h
    obtain ⟨v, vs, name, x, ms', rfl, _, _, hm, rfl⟩ := writeMembers_cons isUpper f fs vals ms h
    obtain ⟨h1, h2⟩ := ih vs ms' hm
    simp only [List.length_cons, h1, h2, and_self]

/-- The scanner over a member that the codec wrote and the comma or the closing brace behind
it. -/
theorem scanAll_member (quote : String → String) (name : String)
    (hp : name.data.all isPlainChar = true) (t : Typ) (v : Value) (x : List Char)
    (h : writeScalar t v = some x) (step : ScanStep)
    (hs : step = .beginString ∨ step = .beginStringOrEmpty) :
    scanAll quote ⟨step, [.objectKey]⟩
        (((Char.ofNat 34 :: name.data ++ Char.ofNat 34 :: Char.ofNat 58 :: x) ++
          [Char.ofNat 44]).flatMap utf8) = .ok ⟨.beginString, [.objectKey]⟩ ∧
      scanAll quote ⟨step, [.objectKey]⟩
        (((Char.ofNat 34 :: name.data ++ Char.ofNat 34 :: Char.ofNat 58 :: x) ++
          [Char.ofNat 125]).flatMap utf8) = .ok ⟨.endTop, []⟩ := by
  obtain ⟨vstep, hv, hsv⟩ := scanAll_value quote t v x h
  have hname := scanAll_string quote [.objectKey] name.data hp
  have hbytes : ∀ d : Char, utf8 d = [d.toNat] →
      ((Char.ofNat 34 :: name.data ++ Char.ofNat 34 :: Char.ofNat 58 :: x) ++ [d]).flatMap utf8 =
        34 :: ((name.data ++ [Char.ofNat 34]).flatMap utf8 ++
          (58 :: (x.flatMap utf8 ++ [d.toNat]))) := by
    intro d hd
    have u34 : utf8 (Char.ofNat 34) = [34] := rfl
    have u58 : utf8 (Char.ofNat 58) = [58] := rfl
    simp only [List.cons_append, List.flatMap_cons, List.flatMap_append, List.flatMap_nil, u34,
      u58, hd, List.append_assoc, List.singleton_append, List.append_nil, List.nil_append]
  have hstart : scanStep quote ⟨step, [.objectKey]⟩ 34 = .ok ⟨.inString, [.objectKey]⟩ := by
    rcases hs with rfl | rfl <;> rfl
  have hcolon : scanStep quote ⟨.endValue, [.objectKey]⟩ 58 =
      .ok ⟨.beginValue, [.objectValue]⟩ := rfl
  have hrun : ∀ (d : Nat) (res : Scanner),
      scanStep quote ⟨vstep, [.objectValue]⟩ d = .ok res →
      scanAll quote ⟨step, [.objectKey]⟩ (34 :: ((name.data ++ [Char.ofNat 34]).flatMap utf8 ++
          (58 :: (x.flatMap utf8 ++ [d])))) = .ok res := by
    intro d res hd
    simp only [scanAll, hstart]
    rw [scanAll_append_ok quote _ _ _ _ hname]
    simp only [scanAll, hcolon]
    rw [scanAll_append_ok quote _ _ _ _ hsv]
    simp only [scanAll, hd]
  obtain ⟨h44, h125⟩ := scanStep_delimiter quote vstep hv
  constructor
  · rw [hbytes (Char.ofNat 44) rfl]
    exact hrun 44 _ h44
  · rw [hbytes (Char.ofNat 125) rfl]
    exact hrun 125 _ h125

theorem joinMembers_cons (m : List Char) (ms : List (List Char)) :
    joinMembers (m :: ms) =
      if ms = [] then m ++ [Char.ofNat 125] else m ++ Char.ofNat 44 :: joinMembers ms := by
  cases ms with
  | nil => rfl
  | cons n ns => rfl

/-- The scanner over the members that the codec wrote, to the closing brace of the object. -/
theorem scanAll_members (quote : String → String) (isUpper : Char → Bool)
    (fs : List StructField) :
    ∀ (vals : List Value) (ms : List (List Char)), writeMembers isUpper fs vals = some ms →
      ms ≠ [] → ∀ step, step = .beginString ∨ step = .beginStringOrEmpty →
      scanAll quote ⟨step, [.objectKey]⟩ ((joinMembers ms).flatMap utf8) =
        .ok ⟨.endTop, []⟩ := by
  induction fs with
  | nil =>
    intro vals ms h hne
    cases vals with
    | nil => simp only [writeMembers] at h; cases h; exact absurd rfl hne
    | cons v vs => simp only [writeMembers] at h; cases h
  | cons f fs ih =>
    intro vals ms h _ step hs
    obtain ⟨v, vs, name, x, ms', rfl, hn, hx, hm, rfl⟩ := writeMembers_cons isUpper f fs vals ms h
    obtain ⟨_, hp, _⟩ := writeName_named isUpper f name hn
    obtain ⟨hcomma, hbrace⟩ := scanAll_member quote name hp f.Typ v x hx step hs
    rw [joinMembers_cons]
    by_cases he : ms' = []
    · rw [if_pos he]
      exact hbrace
    · rw [if_neg he]
      have hl : (Char.ofNat 34 :: name.data ++ Char.ofNat 34 :: Char.ofNat 58 :: x) ++
          Char.ofNat 44 :: joinMembers ms' =
          ((Char.ofNat 34 :: name.data ++ Char.ofNat 34 :: Char.ofNat 58 :: x) ++
            [Char.ofNat 44]) ++ joinMembers ms' := by simp
      rw [hl, List.flatMap_append, scanAll_append_ok quote _ _ _ _ hcomma]
      exact ih vs ms' hm he .beginString (Or.inl rfl)

/-- The text that the codec writes for a struct is valid JSON. -/
theorem checkValid_jsonWrite (quote : String → String) (isUpper : Char → Bool)
    (fs : List StructField) (vals : List Value) (ms : List (List Char))
    (h : writeMembers isUpper fs vals = some ms) :
    checkValid quote (bytesOf (String.mk (Char.ofNat 123 :: joinMembers ms))) = none := by
  have hb : bytesOf (String.mk (Char.ofNat 123 :: joinMembers ms)) =
      123 :: (joinMembers ms).flatMap utf8 := rfl
  have hopen : scanStep quote ⟨.beginValue, []⟩ 123 =
      .ok ⟨.beginStringOrEmpty, [.objectKey]⟩ := rfl
  have hall : scanAll quote ⟨.beginValue, []⟩ (123 :: (joinMembers ms).flatMap utf8) =
      .ok ⟨.endTop, []⟩ := by
    simp only [scanAll, hopen]
    by_cases he : ms = []
    · subst he
      rfl
    · exact scanAll_members quote isUpper fs vals ms h he _ (Or.inr rfl)
  rw [hb]
  simp only [checkValid, hall]

/-- One turn of the object loop at a member that the codec wrote for the field behind
`fpre`. -/
theorem storeMembers_step (isUpper : Char → Bool) (f : StructField) (name : String)
    (hn : writeName isUpper f = some name) (sc : Scalar) (o v : Value)
    (hst : literalStore f.Typ o sc = some v)
    (fpre fs : List StructField) (vpre opost : List Value) (hl : vpre.length = fpre.length)
    (hdup : hasDuplicate ((fpre ++ f :: fs).map (jsonField isUpper)) = false)
    (pairs : List (String × Scalar)) :
    storeMembers (fpre ++ f :: fs) ((fpre ++ f :: fs).map (jsonField isUpper))
        ((name, sc) :: pairs) (vpre ++ o :: opost) =
      storeMembers (fpre ++ f :: fs) ((fpre ++ f :: fs).map (jsonField isUpper))
        pairs (vpre ++ v :: opost) := by
  obtain ⟨hj, _, hasc⟩ := writeName_named isUpper f name hn
  have hnames : (fpre ++ f :: fs).map (jsonField isUpper) =
      fpre.map (jsonField isUpper) ++ .named name :: fs.map (jsonField isUpper) := by
    rw [List.map_append, List.map_cons, hj]
  have hfind : findField ((fpre ++ f :: fs).map (jsonField isUpper)) name =
      some fpre.length := by
    rw [hnames, findField_exact name _ _ (hasDuplicate_split name _ _ (hnames ▸ hdup)),
      List.length_map]
  have hstore : storeField (fpre ++ f :: fs) (vpre ++ o :: opost) fpre.length sc =
      some (vpre ++ v :: opost) := by
    rw [storeField_at f o sc fpre vpre fs opost hl, hst]
  rw [storeMembers]
  simp only [hasc, hfind, hstore, Bool.not_true, Bool.false_eq_true, if_false]

/-- The reader over the members that the codec wrote, and the object loop over what it
read: the fields take the values that were written. -/
theorem readMembers_store (isUpper : Char → Bool) (fpost : List StructField) :
    ∀ (vpost : List Value) (ms : List (List Char)),
      writeMembers isUpper fpost vpost = some ms → ms ≠ [] →
      ∀ fuel, ms.length ≤ fuel →
      ∃ pairs, readMembers fuel (joinMembers ms) = some pairs ∧
        ∀ (fpre : List StructField) (vpre opost : List Value),
          vpre.length = fpre.length → opost.length = fpost.length →
          hasDuplicate ((fpre ++ fpost).map (jsonField isUpper)) = false →
          storeMembers (fpre ++ fpost) ((fpre ++ fpost).map (jsonField isUpper)) pairs
            (vpre ++ opost) = some (vpre ++ vpost) := by
  induction fpost with
  | nil =>
    intro vpost ms h hne
    cases vpost with
    | nil => simp only [writeMembers] at h; cases h; exact absurd rfl hne
    | cons v vs => simp only [writeMembers] at h; cases h
  | cons f fs ih =>
    intro vpost ms h _ fuel hfuel
    obtain ⟨v, vs, name, x, ms', rfl, hn, hx, hm, rfl⟩ :=
      writeMembers_cons isUpper f fs vpost ms h
    obtain ⟨hvl, hml⟩ := writeMembers_length isUpper fs vs ms' hm
    obtain ⟨_, hp, _⟩ := writeName_named isUpper f name hn
    cases fuel with
    | zero => simp at hfuel
    | succ k =>
      have hk : ms'.length ≤ k := by simpa using hfuel
      rw [joinMembers_cons]
      by_cases he : ms' = []
      · subst he
        rw [if_pos rfl]
        obtain ⟨sc, hst, hr⟩ := readMembers_step name hp f.Typ v x hx (Char.ofNat 125)
          (Or.inr rfl) [] k
        refine ⟨[(name, sc)], ?_, ?_⟩
        · rw [hr]
          rfl
        · intro fpre vpre opost hl hol hdup
          have hfs : fs = [] := List.length_eq_zero.1 hml.symm
          have hvs : vs = [] := List.length_eq_zero.1 (hvl.trans (hfs ▸ rfl))
          subst hfs
          subst hvs
          cases opost with
          | nil => simp at hol
          | cons o os =>
            have hos : os = [] := List.length_eq_zero.1 (by simpa using hol)
            subst hos
            rw [storeMembers_step isUpper f name hn sc o v (hst o) fpre [] vpre [] hl hdup []]
            rfl
      · rw [if_neg he]
        obtain ⟨sc, hst, hr⟩ := readMembers_step name hp f.Typ v x hx (Char.ofNat 44)
          (Or.inl rfl) (joinMembers ms') k
        obtain ⟨pairs, hread, hstore⟩ := ih vs ms' hm he k hk
        refine ⟨(name, sc) :: pairs, ?_, ?_⟩
        · rw [hr, if_pos (show (Char.ofNat 44).toNat = 44 from rfl), hread]
        · intro fpre vpre opost hl hol hdup
          cases opost with
          | nil => simp at hol
          | cons o os =>
            have hos : os.length = fs.length := by simpa using hol
            rw [storeMembers_step isUpper f name hn sc o v (hst o) fpre fs vpre os hl hdup pairs]
            have hfl : fpre ++ f :: fs = (fpre ++ [f]) ++ fs := by simp
            have hvl2 : vpre ++ v :: os = (vpre ++ [v]) ++ os := by simp
            have hvl3 : vpre ++ v :: vs = (vpre ++ [v]) ++ vs := by simp
            rw [hfl, hvl2, hvl3]
            exact hstore (fpre ++ [f]) (vpre ++ [v]) os (by simp [hl]) hos (hfl ▸ hdup)

theorem joinMembers_length (ms : List (List Char)) : ms.length ≤ (joinMembers ms).length := by
  induction ms with
  | nil => simp
  | cons m ms ih =>
    rw [joinMembers_cons]
    by_cases he : ms = []
    · subst he
      rw [if_pos rfl]
      simp
    · rw [if_neg he]
      simp only [List.length_append, List.length_cons]
      omega

theorem writeMembers_modelled (isUpper : Char → Bool) (fs : List StructField) :
    ∀ (vals : List Value) (ms : List (List Char)), writeMembers isUpper fs vals = some ms →
      (fs.map (jsonField isUpper)).contains .unmodelled = false := by
  induction fs with
  | nil => intro _ _ _; rfl
  | cons f fs ih =>
    intro vals ms h
    obtain ⟨v, vs, name, x, ms', rfl, hn, _, hm, rfl⟩ := writeMembers_cons isUpper f fs vals ms h
    obtain ⟨hj, _, _⟩ := writeName_named isUpper f name hn
    have := ih vs ms' hm
    rw [List.map_cons, hj, List.contains_cons, this]
    rfl

theorem joinMembers_head (isUpper : Char → Bool) (fs : List StructField) (vals : List Value)
    (ms : List (List Char)) (h : writeMembers isUpper fs vals = some ms) (hne : ms ≠ []) :
    ∃ rest, joinMembers ms = Char.ofNat 34 :: rest := by
  cases fs with
  | nil =>
    cases vals with
    | nil => simp only [writeMembers] at h; cases h; exact absurd rfl hne
    | cons v vs => simp only [writeMembers] at h; cases h
  | cons f fs =>
    obtain ⟨v, vs, name, x, ms', rfl, _, _, _, rfl⟩ := writeMembers_cons isUpper f fs vals ms h
    rw [joinMembers_cons]
    by_cases he : ms' = []
    · rw [if_pos he]
      exact ⟨_, rfl⟩
    · rw [if_neg he]
      exact ⟨_, rfl⟩

/-- The reader on the text that the codec writes for a struct: the fields take the values
that were written, whatever they held before. -/
theorem readStruct_writeMembers (isUpper : Char → Bool) (fields : List StructField)
    (vals old : List Value) (ms : List (List Char))
    (h : writeMembers isUpper fields vals = some ms)
    (hdup : hasDuplicate (fields.map (jsonField isUpper)) = false)
    (hold : old.length = fields.length) (fuel : Nat) (hfuel : ms.length ≤ fuel) :
    readStruct isUpper fuel (joinMembers ms) fields old = some vals := by
  obtain ⟨hvl, hml⟩ := writeMembers_length isUpper fields vals ms h
  have hlen : (fields.length != old.length) = false := by
    rw [hold]
    simp
  simp only [readStruct, writeMembers_modelled isUpper fields vals ms h, hdup, hlen,
    Bool.or_false, Bool.false_eq_true, if_false]
  by_cases he : ms = []
  · subst he
    have hf : fields = [] := List.length_eq_zero.1 hml.symm
    subst hf
    have hv : vals = [] := List.length_eq_zero.1 hvl
    have ho : old = [] := List.length_eq_zero.1 hold
    subst hv
    subst ho
    rfl
  · obtain ⟨rest, hrest⟩ := joinMembers_head isUpper fields vals ms h he
    obtain ⟨pairs, hread, hstore⟩ := readMembers_store isUpper fields vals ms h he fuel hfuel
    have hobj : readObject fuel (joinMembers ms) = some pairs := by
      rw [← hread]
      simp only [readObject]
      rw [hrest]
      rfl
    rw [hobj]
    exact hstore [] [] old rfl hold hdup

/-- The codec reads back what it wrote: for a struct value `v` of type `t` that `jsonWrite`
follows, `json.Unmarshal` of the bytes of `json.Marshal(v)` into storage of type `t` leaves
the storage holding `v`, whatever it held before, and returns no error. -/
theorem jsonRead_jsonWrite (quote : String → String) (isUpper : Char → Bool) (nm : String)
    (fields : List StructField) (v : Value) (b : String) (old : List Value)
    (hw : jsonWrite isUpper (.struct nm fields) v = some b)
    (hold : old.length = fields.length) :
    jsonRead quote isUpper b (.struct nm fields) (.struct old) = some (v, none) := by
  cases v <;> simp only [jsonWrite] at hw
  case struct vals =>
    split at hw
    · cases hw
    · rename_i hdup
      cases hm : writeMembers isUpper fields vals with
      | none => rw [hm] at hw; cases hw
      | some ms =>
        rw [hm] at hw
        cases hw
        have hdup2 : hasDuplicate (fields.map (jsonField isUpper)) = false := by
          simpa using hdup
        have hfuel : ms.length ≤ (String.mk (Char.ofNat 123 :: joinMembers ms)).length := by
          have := joinMembers_length ms
          show ms.length ≤ (Char.ofNat 123 :: joinMembers ms).length
          rw [List.length_cons]
          omega
        have hr := readStruct_writeMembers isUpper fields vals old ms hm hdup2 hold _ hfuel
        simp only [jsonRead, checkValid_jsonWrite quote isUpper fields vals ms hm]
        rw [show skipSpace (Char.ofNat 123 :: joinMembers ms) = Char.ofNat 123 :: joinMembers ms
          from rfl]
        simp only
        rw [if_neg (show ¬ Char.ofNat 123 = 'n' by decide),
          if_pos (show (Char.ofNat 123).toNat = 123 from rfl), hr]
  all_goals cases hw

/-! ## The request body -/

theorem length_eq_zero_iff (b : String) : b.length = 0 ↔ b = "" := by
  cases b with
  | mk data =>
    constructor
    · intro h
      have : data = [] := List.length_eq_zero.1 h
      rw [this]
    · intro h
      rw [h]; rfl

/-- What `decodeBody` does with a readable, non-empty body under `application/json`: the
codec decides the content of the target and the error. -/
theorem decodeBody_json (env : Env) (r : Request) (data : RValue)
    (hct : r.Header.Get "Content-Type" = "application/json")
    (hread : r.Body.ReadAll.2.1 = none) (hne : r.Body.ReadAll.1 ≠ "") :
    (decodeBody env r data).2 = env.Unmarshal r.Body.ReadAll.1 data.typ data.val := by
  have hl : ¬ r.Body.ReadAll.1.length = 0 := fun h => hne ((length_eq_zero_iff _).1 h)
  rcases hd : r.Body.ReadAll with ⟨b, e, rest⟩
  rw [hd] at hread hl
  simp only at hread hl
  subst hread
  simp only [decodeBody, hd, hl, if_false, hct, if_true]

/-- The codec of the sample environment follows `jsonRead`. -/
theorem sampleEnv_readsJson : sampleEnv.ReadsJson := by
  intro b t old res h
  have h' : jsonRead sampleQuote sampleIsUpper b t old = some res := h
  show sampleUnmarshal b t old = res
  simp only [sampleUnmarshal, h']

/-- C4, as amended. For a struct target that the walk finds without body annotation, a request
with Content-Type `application/json` and a readable, non-empty body, and a walk over the
fields that raises neither an error nor a panic: `DecodeRequest` returns the value that the
JSON document of the body denotes, read into the target as the query binding left it, which
is the zero target when no field is query-annotated; decoding undoes the encoding: when the
body is what `json.Marshal` writes for a value `v` of the target type, `DecodeRequest` returns
`v`, whatever the query binding had stored; if the body is not valid JSON, `DecodeRequest`
returns the syntax error of the codec and no target, as it does with every error of the
codec. -/
theorem DecodeRequest_json_body (env : Env) (nm : String) (fields : List StructField)
    (req : Request)
    (hcodec : env.ReadsJson)
    (hno : noBodyTagFields fields = true)
    (hct : req.Header.Get "Content-Type" = "application/json")
    (hread : req.Body.ReadAll.2.1 = none) (hne : req.Body.ReadAll.1 ≠ "")
    (hq : (decodeStruct env req (.struct nm fields) (zero (.struct nm fields))).2.2.2 = none) :
    (∀ v, jsonRead env.Quote env.IsUpper req.Body.ReadAll.1 (.struct nm fields)
        (decodeStruct env req (.struct nm fields) (zero (.struct nm fields))).2.1 =
          some (v, none) →
      (DecodeRequest env (.struct nm fields) req).2 = (some v, none)) ∧
    (∀ v, jsonWrite env.IsUpper (.struct nm fields) v = some req.Body.ReadAll.1 →
      (DecodeRequest env (.struct nm fields) req).2 = (some v, none)) ∧
    (∀ msg, checkValid env.Quote (bytesOf req.Body.ReadAll.1) = some msg →
      (DecodeRequest env (.struct nm fields) req).2 = (none, some (.error (.foreign msg)))) ∧
    (∀ v e, env.Unmarshal req.Body.ReadAll.1 (.struct nm fields)
        (decodeStruct env req (.struct nm fields) (zero (.struct nm fields))).2.1 = (v, some e) →
      (DecodeRequest env (.struct nm fields) req).2 = (none, some (.error e))) ∧
    (noQueryTagFields fields = true →
      (decodeStruct env req (.struct nm fields) (zero (.struct nm fields))).2.1 =
        zero (.struct nm fields)) := by
  have hframe := decodeStruct_noBody env req (.struct nm fields) (zero (.struct nm fields))
    (by simpa [noBodyTag] using hno)
  have hplain := decodeStruct_plain env req (.struct nm fields) (zero (.struct nm fields))
    (by simpa [noBodyTag] using hno)
  have hshape := decodeStruct_shape env req nm fields
  rcases hd : decodeStruct env req (.struct nm fields) (zero (.struct nm fields)) with
    ⟨r1, bound, b1, e1⟩
  rw [hd] at hq hframe hplain hshape
  simp only at hq hframe hplain hshape
  obtain ⟨rfl, rfl⟩ := hframe
  subst hq
  have hb := decodeBody_json env r1 ⟨.struct nm fields, bound, false⟩ hct hread hne
  have hD : DecodeRequest env (.struct nm fields) r1 =
      match decodeBody env r1 ⟨.struct nm fields, bound, false⟩ with
      | (req, _, some err) => (req, none, some (.error err))
      | (req, data, none) => (req, some data, none) := by
    simp only [DecodeRequest, decodeRequest, Typ.Kind, Typ.Elem, if_true, ne_eq,
      not_true_eq_false, if_false, hd, Bool.false_eq_true, not_false_eq_true]
    rcases decodeBody env r1 ⟨.struct nm fields, bound, false⟩ with ⟨r2, v2, e2⟩
    cases e2 <;> rfl
  have herr : ∀ v e, env.Unmarshal r1.Body.ReadAll.1 (.struct nm fields) bound = (v, some e) →
      (DecodeRequest env (.struct nm fields) r1).2 = (none, some (.error e)) := by
    intro v e hv
    rw [hD]
    rcases hdb : decodeBody env r1 ⟨.struct nm fields, bound, false⟩ with ⟨r2, v2, e2⟩
    rw [hdb] at hb
    simp only at hb
    rw [hv] at hb
    cases hb
    rfl
  have hval : ∀ v, jsonRead env.Quote env.IsUpper r1.Body.ReadAll.1 (.struct nm fields)
      bound = some (v, none) →
      (DecodeRequest env (.struct nm fields) r1).2 = (some v, none) := by
    intro v hv
    have hu := hcodec _ _ _ _ hv
    rw [hD]
    rcases hdb : decodeBody env r1 ⟨.struct nm fields, bound, false⟩ with ⟨r2, v2, e2⟩
    rw [hdb] at hb
    simp only at hb
    rw [hu] at hb
    cases hb
    rfl
  refine ⟨hval, ?_, ?_, herr, ?_⟩
  · intro v hw
    obtain ⟨vals, hvals, hlen⟩ := hshape
    apply hval
    rw [hvals]
    exact jsonRead_jsonWrite env.Quote env.IsUpper nm fields v _ vals hw hlen
  · intro msg hmsg
    have hj : jsonRead env.Quote env.IsUpper r1.Body.ReadAll.1 (.struct nm fields) bound =
        some (bound, some (.foreign msg)) := by
      simp only [jsonRead, hmsg]
    exact herr bound (.foreign msg) (hcodec _ _ _ _ hj)
  · intro hnq
    exact hplain (by simpa [noQueryTag] using hnq)

/-- C4, at the input of `Test_Decode`: the body `{"name":"test"}` gives `Name = "test"`; the
encoding `{"Name":"a b","ID":-12}` of a value of `taggedType`, sent with the parameter `id=7`,
gives that value back; and the body `{` gives the syntax error of the codec and no target. -/
theorem DecodeRequest_json_body_witness :
    (DecodeRequest sampleEnv testType jsonRequest).2 =
      (some (.struct [.string "test"]), none) ∧
    (DecodeRequest sampleEnv taggedType overwriteRequest).2 =
      (some (.struct [.string "a b", .int (-12)]), none) ∧
    (DecodeRequest sampleEnv testType malformedRequest).2 =
      (none, some (.error (.foreign "unexpected end of JSON input"))) :=
  ⟨(DecodeRequest_json_body sampleEnv "testType" [.mk "Name" .string ⟨"", "", "name"⟩]
      jsonRequest sampleEnv_readsJson rfl rfl rfl (by decide) rfl).1
      (.struct [.string "test"]) rfl,
   (DecodeRequest_json_body sampleEnv "taggedType"
      [.mk "Name" .string ⟨"", "", ""⟩, .mk "ID" .int ⟨"id", "", ""⟩]
      overwriteRequest sampleEnv_readsJson rfl rfl rfl (by decide) rfl).2.1
      (.struct [.string "a b", .int (-12)]) (by decide),
   (DecodeRequest_json_body sampleEnv "testType" [.mk "Name" .string ⟨"", "", "name"⟩]
      malformedRequest sampleEnv_readsJson rfl rfl rfl (by decide) rfl).2.2.1
      "unexpected end of JSON input" rfl⟩

/-- C4 as stated fails. The target `taggedType` has no body annotation, the request has
Content-Type `application/json` and a body that is a JSON document for the target, and yet
`DecodeRequest` returns the error of the query parameter `id=abc` and no target. The target
`hiddenIdType` has no body annotation either, the body of the request is a JSON document for
it and the parameter `id=7` resolves, and yet `DecodeRequest` does not return: the
query-annotated field is not exported, and `field.Interface()` panics. -/
theorem DecodeRequest_json_body_query_failure :
    (noBodyTag taggedType = true ∧
      badQueryRequest.Header.Get "Content-Type" = "application/json" ∧
      jsonRead sampleQuote sampleIsUpper badQueryRequest.Body.pending taggedType
        (zero taggedType) = some (.struct [.string "test", .int 0], none) ∧
      (DecodeRequest sampleEnv taggedType badQueryRequest).2 =
        (none, some (.error (.numSyntax "ParseInt" "abc")))) ∧
    (noBodyTag hiddenIdType = true ∧
      idRequest.Header.Get "Content-Type" = "application/json" ∧
      jsonRead sampleQuote sampleIsUpper idRequest.Body.pending hiddenIdType
        (zero hiddenIdType) = some (.struct [.string "test", .int 0], none) ∧
      (DecodeRequest sampleEnv hiddenIdType idRequest).2 =
        (none, some (.fault interfacePanic))) :=
  ⟨⟨rfl, rfl, rfl, rfl⟩, ⟨rfl, rfl, rfl, rfl⟩⟩

/-! ## Abort on a resolve failure -/

theorem decodeField_query_error (env : Env) {r r1 : Request} (n : String) {typ : Typ}
    {tag : StructTag} {v v1 v' : Value} {b b1 : Bool} {stop : Stop}
    (h1 : (if typ.Kind = .Struct then
          if IsExported env n then decodeStruct env r typ v
          else (r, v, b, some (.fault interfacePanic))
        else (r, v, b, none)) = (r1, v1, b1, none))
    (hq : tag.query ≠ "")
    (h2 : decodeQuery env ⟨typ, v1, !IsExported env n⟩ typ r1.URL.Query tag.query =
      (v', some stop)) :
    decodeField env r (.mk n typ tag) v b = (r1, v', b1, some stop) := by
  simp only [decodeField, h1, hq, if_true, h2, ne_eq, not_false_eq_true]

theorem decodeField_nested_error (env : Env) {r r1 : Request} (n : String) {typ : Typ}
    (tag : StructTag) {v v1 : Value} (b : Bool) {b1 : Bool} {stop : Stop}
    (hk : typ.Kind = .Struct) (hx : IsExported env n = true)
    (h1 : decodeStruct env r typ v = (r1, v1, b1, some stop)) :
    decodeField env r (.mk n typ tag) v b = (r1, v1, b1, some stop) := by
  simp only [decodeField, hk, hx, if_true, h1]

mutual
theorem FailsIn_decodeStruct (env : Env) :
    {r : Request} → {t : Typ} → {v : Value} → {err : Error} → FailsIn env r t v err →
      ∃ r' v' b', decodeStruct env r t v = (r', v', b', some (.error err))
  | _, _, _, _, .struct h => by
    obtain ⟨r', vs', b', e⟩ := FailsAt_decodeFields env h
    simp only [decodeStruct, e]
    exact ⟨_, _, _, rfl⟩
  | _, _, _, _, .defined h => by
    obtain ⟨r', v', b', e⟩ := FailsIn_decodeStruct env h
    simp only [decodeStruct, e]
    exact ⟨_, _, _, rfl⟩
theorem FailsAt_decodeFields (env : Env) :
    {r : Request} → {fs : List StructField} → {vs : List Value} → {b : Bool} → {err : Error} →
      FailsAt env r fs vs b err →
      ∃ r' vs' b', decodeFields env r fs vs b = (r', vs', b', some (.error err))
  | _, .mk n _ _ :: _, _, _, _, .here h1 hq _ h2 => by
    have e := decodeField_query_error env n h1 hq h2
    simp only [decodeFields, e]
    exact ⟨_, _, _, rfl⟩
  | _, .mk n _ tag :: _, _, b, _, .inside hk hx h => by
    obtain ⟨r', v', b', e⟩ := FailsIn_decodeStruct env h
    have e' := decodeField_nested_error env n tag b hk hx e
    simp only [decodeFields, e']
    exact ⟨_, _, _, rfl⟩
  | _, _ :: _, _, _, _, .after h1 h => by
    obtain ⟨r', vs', b', e⟩ := FailsAt_decodeFields env h
    simp only [decodeFields, h1, e]
    exact ⟨_, _, _, rfl⟩
end

/-- C5, as amended. When the walk over a struct target comes to a query-annotated field, at
any depth, whose present parameter fails to resolve, the decode is aborted there:
`DecodeRequest` returns the error of that field and a nil target. The fields declared after
the failing one are not processed: the loop returns at the failing field with the request and
the later fields as they were, whatever those fields are. A field that is neither of pointer
nor of sequence kind fails to resolve in this way when it is exported: `decodeQuery` then
returns the error of `resolve` on its token; on an unexported one `field.Interface()` panics
before the token is resolved. -/
theorem DecodeRequest_aborts_on_resolve_failure (env : Env) (nm : String)
    (fields : List StructField) (req : Request) (err : Error)
    (h : FailsAt env req fields (zeroFields fields) false err) :
    (∃ r', DecodeRequest env (.struct nm fields) req = (r', none, some (.error err))) ∧
    (∀ (r : Request) (n : String) (typ : Typ) (tag : StructTag) (v v' : Value)
        (vs : List Value) (post : List StructField) (b : Bool) (e : Error),
      typ.Kind ≠ .Struct → tag.query ≠ "" →
      decodeQuery env ⟨typ, v, !IsExported env n⟩ typ r.URL.Query tag.query =
        (v', some (.error e)) →
      decodeFields env r (.mk n typ tag :: post) (v :: vs) b =
        (r, v' :: vs, b, some (.error e))) ∧
    (∀ (typ : Typ) (v : Value) (query : Values) (tag : String) (a : Any) (e : Error),
      typ.Kind ≠ .Pointer → typ.Kind ≠ .Slice →
      query.Has ((Split tag).headD "") = true →
      resolve env (RValue.Interface ⟨typ, v, false⟩) (query.Get ((Split tag).headD "")) =
        (a, some e) →
      decodeQuery env ⟨typ, v, false⟩ typ query tag = (v, some (.error e)) ∧
      decodeQuery env ⟨typ, v, true⟩ typ query tag = (v, some (.fault interfacePanic))) := by
  refine ⟨?_, ?_, ?_⟩
  · obtain ⟨r', vs', b', e⟩ := FailsAt_decodeFields env h
    refine ⟨r', ?_⟩
    have hz : zero (.struct nm fields) = .struct (zeroFields fields) := by
      simp only [zero]
    simp only [DecodeRequest, decodeRequest, Typ.Kind, Typ.Elem, if_true, ne_eq,
      not_true_eq_false, if_false, hz, decodeStruct, e]
  · intro r n typ tag v v' vs post b e hk hq hd
    have h1 : (if typ.Kind = .Struct then
          if IsExported env n then decodeStruct env r typ v
          else (r, v, b, some (.fault interfacePanic))
        else (r, v, b, none)) = (r, v, b, none) := if_neg hk
    have e' := decodeField_query_error env n h1 hq hd
    simp only [decodeFields, e']
  · intro typ v query tag a e hp hs hq hr
    constructor
    · simp only [decodeQuery, hq, if_true, RValue.Kind, hs, if_false, resolveValue, hp,
        Bool.false_eq_true, hr]
    · simp only [decodeQuery, hq, if_true, RValue.Kind, hs, if_false, resolveValue, hp]

/-- C5, at a concrete input: `?id=abc` into `struct { Name string; ID int "query:id" }`
returns the syntax error of `ParseInt` and a nil target. -/
theorem DecodeRequest_aborts_on_resolve_failure_witness :
    ∃ r', DecodeRequest sampleEnv taggedType badQueryRequest =
      (r', none, some (.error (.numSyntax "ParseInt" "abc"))) :=
  (DecodeRequest_aborts_on_resolve_failure sampleEnv "taggedType"
    [.mk "Name" .string ⟨"", "", ""⟩, .mk "ID" .int ⟨"id", "", ""⟩] badQueryRequest
    (.numSyntax "ParseInt" "abc")
    (FailsAt.after (show decodeField sampleEnv badQueryRequest (.mk "Name" .string ⟨"", "", ""⟩)
        (.string "") false = (badQueryRequest, .string "", false, none) from rfl)
      (FailsAt.here
        (show (if Typ.int.Kind = .Struct then
            if IsExported sampleEnv "ID" then
              decodeStruct sampleEnv badQueryRequest .int (.int 0)
            else (badQueryRequest, .int 0, false, some (.fault interfacePanic))
          else (badQueryRequest, .int 0, false, none)) =
          (badQueryRequest, .int 0, false, none) from rfl)
        (by decide) rfl
        (show decodeQuery sampleEnv ⟨.int, .int 0, !IsExported sampleEnv "ID"⟩ .int
            badQueryRequest.URL.Query "id" =
          (.int 0, some (.error (.numSyntax "ParseInt" "abc"))) from rfl)))).1

/-- C5 as stated fails: in `struct { id int "query:id" }` the field is query-annotated, its
parameter is present in `?id=abc` and the token fails to resolve, and yet `DecodeRequest`
does not return the error of the field: the field is not exported, and `field.Interface()`
panics in `resolveValue`. -/
theorem DecodeRequest_panics_on_unexported_field :
    badQueryRequest.URL.Query.Has "id" = true ∧
    (resolve sampleEnv (some (.int, .int 0)) (badQueryRequest.URL.Query.Get "id")).2 =
      some (.numSyntax "ParseInt" "abc") ∧
    IsExported sampleEnv "id" = false ∧
    DecodeRequest sampleEnv unexportedIdType badQueryRequest =
      (badQueryRequest, none, some (.fault interfacePanic)) :=
  ⟨rfl, rfl, rfl, rfl⟩

/-! ## Absent parameters and empty bodies -/

/-- With nothing pending in the body, `decodeBody` leaves its target as it was, whether the
read ends with an error or not. -/
theorem decodeBody_empty (env : Env) (r : Request) (data : RValue)
    (h : r.Body.pending = "") :
    (decodeBody env r data).2.1 = data.val ∧
    (decodeBody env r data).1.URL = r.URL ∧ (decodeBody env r data).1.Body.pending = "" := by
  have hl : r.Body.pending.length = 0 := (length_eq_zero_iff _).2 h
  unfold decodeBody Body.ReadAll
  cases hc : (if 0 < r.Body.closed then r.Body.afterClose else none) with
  | some e => exact ⟨rfl, rfl, h⟩
  | none =>
    cases hf : r.Body.failure with
    | some e => simp only [hf]; exact ⟨trivial, trivial, trivial⟩
    | none => simp only [hf, hl, if_true, Body.Close]; exact ⟨trivial, trivial, trivial⟩

mutual
theorem decodeStruct_empty (env : Env) :
    (t : Typ) → (r : Request) → (v : Value) → r.Body.pending = "" →
      (decodeStruct env r t v).1.URL = r.URL ∧ (decodeStruct env r t v).1.Body.pending = ""
  | .struct _ fs, r, .struct vals, h => by
    have ih := decodeFields_empty env fs r vals false h
    simp only [decodeStruct]
    exact ih
  | .struct _ _, _, .string _, h | .struct _ _, _, .bool _, h | .struct _ _, _, .time _, h
  | .struct _ _, _, .int _, h | .struct _ _, _, .uint _, h | .struct _ _, _, .float _, h
  | .struct _ _, _, .complex _ _, h | .struct _ _, _, .nil, h | .struct _ _, _, .pointer _, h
  | .struct _ _, _, .slice _, h | .struct _ _, _, .boxed _ _, h
  | .struct _ _, _, .unmodelled _, h => by
    simp only [decodeStruct]
    exact ⟨trivial, h⟩
  | .defined _ u, r, v, h => by
    have ih := decodeStruct_empty env u r v h
    simp only [decodeStruct]
    exact ih
  | .string, _, _, h | .bool, _, _, h | .time, _, _, h | .duration, _, _, h
  | .int, _, _, h | .int8, _, _, h | .int16, _, _, h | .int32, _, _, h | .int64, _, _, h
  | .uint, _, _, h | .uint8, _, _, h | .uint16, _, _, h | .uint32, _, _, h | .uint64, _, _, h
  | .float32, _, _, h | .float64, _, _, h | .complex64, _, _, h | .complex128, _, _, h
  | .pointer _, _, _, h | .slice _, _, _, h | .iface _, _, _, h | .unmodelled _ _, _, _, h => by
    simp only [decodeStruct]
    exact ⟨trivial, h⟩
theorem decodeField_empty (env : Env) :
    (f : StructField) → (r : Request) → (v : Value) → (b : Bool) → r.Body.pending = "" →
      (decodeField env r f v b).1.URL = r.URL ∧ (decodeField env r f v b).1.Body.pending = ""
  | .mk n typ tag, r, v, b, h => by
    have ih := decodeStruct_empty env typ r v h
    have hstep :
        (if typ.Kind = .Struct then
            if IsExported env n then decodeStruct env r typ v
            else (r, v, b, some (.fault interfacePanic))
          else (r, v, b, none)).1.URL = r.URL ∧
        (if typ.Kind = .Struct then
            if IsExported env n then decodeStruct env r typ v
            else (r, v, b, some (.fault interfacePanic))
          else (r, v, b, none)).1.Body.pending = "" := by
      split
      · split
        · exact ih
        · exact ⟨rfl, h⟩
      · exact ⟨rfl, h⟩
    simp only [decodeField]
    rcases hd : (if typ.Kind = .Struct then
        if IsExported env n then decodeStruct env r typ v
        else (r, v, b, some (.fault interfacePanic))
      else (r, v, b, none)) with ⟨r1, v1, b1, e1⟩
    rw [hd] at hstep
    cases e1 with
    | some stop => exact hstep
    | none =>
      simp only
      split
      · exact hstep
      · rename_i v2 _
        split
        · split
          · have hb := decodeBody_empty env r1 ⟨typ, v2, false⟩ hstep.2
            exact ⟨hb.2.1.trans hstep.1, hb.2.2⟩
          · exact hstep
        · exact hstep
theorem decodeFields_empty (env : Env) :
    (fs : List StructField) → (r : Request) → (vals : List Value) → (b : Bool) →
      r.Body.pending = "" →
      (decodeFields env r fs vals b).1.URL = r.URL ∧
      (decodeFields env r fs vals b).1.Body.pending = ""
  | [], _, _, _, h => by simp only [decodeFields]; exact ⟨trivial, h⟩
  | _ :: _, _, [], _, h => by simp only [decodeFields]; exact ⟨trivial, h⟩
  | f :: fs, r, v :: vals, b, h => by
    have ih1 := decodeField_empty env f r v b h
    simp only [decodeFields]
    split
    · rename_i r1 v1 b1 err heq
      rw [heq] at ih1; exact ih1
    · rename_i r1 v1 b1 heq
      rw [heq] at ih1
      have ih2 := decodeFields_empty env fs r1 vals b1 ih1.2
      exact ⟨ih2.1.trans ih1.1, ih2.2⟩
end

theorem decodeQuery_absent (env : Env) (field : RValue) (typ : Typ) (query : Values)
    (tag : String) (habs : query.Has ((Split tag).headD "") = false) :
    decodeQuery env field typ query tag = (field.val, none) := by
  simp only [decodeQuery, habs, Bool.false_eq_true, if_false]

theorem decodeField_absent (env : Env) (r : Request) (n : String) (typ : Typ)
    (tag : StructTag) (v : Value) (b : Bool)
    (hk : typ.Kind ≠ .Struct ∨ typ = .time) (hr : r.Body.pending = "")
    (habs : r.URL.Query.Has ((Split tag.query).headD "") = false) :
    (decodeField env r (.mk n typ tag) v b).2.1 = v := by
  have h1 : ∃ b1 e1, (if typ.Kind = .Struct then
        if IsExported env n then decodeStruct env r typ v
        else (r, v, b, some (.fault interfacePanic))
      else (r, v, b, none)) = (r, v, b1, e1) := by
    rcases hk with hk | rfl
    · exact ⟨b, none, if_neg hk⟩
    · by_cases hx : IsExported env n = true
      · exact ⟨false, none, by simp only [Typ.Kind, if_true, hx, decodeStruct]⟩
      · refine ⟨b, some (.fault interfacePanic), ?_⟩
        simp only [Typ.Kind, if_true, hx, if_false, Bool.false_eq_true]
  obtain ⟨b1, e1, h1⟩ := h1
  have h2 : (if tag.query ≠ "" then
        decodeQuery env ⟨typ, v, !IsExported env n⟩ typ r.URL.Query tag.query
      else (v, none)) = (v, none) := by
    split
    · exact decodeQuery_absent env ⟨typ, v, !IsExported env n⟩ typ r.URL.Query tag.query habs
    · rfl
  have hb := decodeBody_empty env r ⟨typ, v, false⟩ hr
  simp only [decodeField, h1]
  cases e1 with
  | some stop => rfl
  | none =>
    simp only [h2]
    split
    · split
      · exact hb.1
      · rfl
    · rfl

theorem decodeFields_absent (env : Env) (n : String) (typ : Typ) (tag : StructTag)
    (post : List StructField) (v : Value) (vpost : List Value)
    (hk : typ.Kind ≠ .Struct ∨ typ = .time) (query : Values)
    (habs : query.Has ((Split tag.query).headD "") = false) :
    ∀ (pre : List StructField) (vpre : List Value) (r : Request) (b : Bool),
      pre.length = vpre.length → r.Body.pending = "" → r.URL.Query = query →
      (decodeFields env r (pre ++ .mk n typ tag :: post) (vpre ++ v :: vpost) b).2.2.2 = none →
      ∃ opre opost,
        (decodeFields env r (pre ++ .mk n typ tag :: post) (vpre ++ v :: vpost) b).2.1 =
          opre ++ v :: opost ∧ opre.length = pre.length := by
  intro pre
  induction pre with
  | nil =>
    intro vpre r b hlen hr hq _
    have hv : vpre = [] := List.length_eq_zero.1 hlen.symm
    subst hv
    have hf := decodeField_absent env r n typ tag v b hk hr (by rw [hq]; exact habs)
    rcases hd : decodeField env r (.mk n typ tag) v b with ⟨r1, v1, b1, e1⟩
    rw [hd] at hf
    simp only at hf
    subst hf
    simp only [List.nil_append, decodeFields, hd]
    cases e1 with
    | some stop => exact ⟨[], _, rfl, rfl⟩
    | none =>
      simp only
      exact ⟨[], _, rfl, rfl⟩
  | cons p ps ih =>
    intro vpre r b hlen hr hq hnone
    cases vpre with
    | nil => simp at hlen
    | cons pv pvs =>
      have hlen' : ps.length = pvs.length := by simpa using hlen
      have he := decodeField_empty env p r pv b hr
      rcases hd : decodeField env r p pv b with ⟨r1, v1, b1, e1⟩
      rw [hd] at he
      simp only [List.cons_append, decodeFields, hd] at hnone ⊢
      cases e1 with
      | some err => simp at hnone
      | none =>
        simp only at hnone ⊢
        obtain ⟨opre, opost, h1, h2⟩ := ih pvs r1 b1 hlen' he.2 (by rw [he.1]; exact hq) hnone
        refine ⟨v1 :: opre, opost, ?_, ?_⟩
        · exact congrArg (List.cons v1) h1
        · simp only [List.length_cons, h2]


theorem zeroFields_append (pre post : List StructField) :
    zeroFields (pre ++ post) = zeroFields pre ++ zeroFields post := by
  induction pre with
  | nil => rfl
  | cons p ps ih =>
    cases p with
    | mk n t tag =>
      show zero t :: zeroFields (ps ++ post) = zero t :: zeroFields ps ++ zeroFields post
      rw [ih]; rfl

/-- The result of `DecodeRequest` on a struct target, in terms of the loop over its fields. -/
theorem DecodeRequest_struct (env : Env) (nm : String) (fields : List StructField)
    (req : Request) :
    DecodeRequest env (.struct nm fields) req =
      match decodeFields env req fields (zeroFields fields) false with
      | (r, _, _, some stop) => (r, none, some stop)
      | (r, vals, true, none) => (r, some (.struct vals), none)
      | (r, vals, false, none) =>
        match decodeBody env r ⟨.struct nm fields, .struct vals, false⟩ with
        | (r, _, some err) => (r, none, some (.error err))
        | (r, data, none) => (r, some data, none) := by
  have hz : zero (.struct nm fields) = .struct (zeroFields fields) := by simp only [zero]
  simp only [DecodeRequest, decodeRequest, Typ.Kind, Typ.Elem, if_true, ne_eq,
    not_true_eq_false, if_false, hz, decodeStruct]
  rcases decodeFields env req fields (zeroFields fields) false with ⟨r1, out, b1, e1⟩
  cases e1 with
  | some err => simp only
  | none =>
    cases b1
    · simp only [Bool.false_eq_true, not_false_eq_true, if_true]
      rcases decodeBody env r1 ⟨.struct nm fields, .struct out, false⟩ with ⟨r2, v2, e2⟩
      cases e2 <;> rfl
    · simp

/-- C6. A query-annotated field of any type whose named parameter is absent from the query:
`decodeQuery` returns no error and leaves the field as it was; and when `DecodeRequest` on a
request with an empty body returns a target, such a field (of scalar, pointer or sequence
type) holds its zero value there. -/
theorem absent_parameter_leaves_field (env : Env) (field : RValue) (typ : Typ)
    (query : Values) (tag : String) (habs : query.Has ((Split tag).headD "") = false) :
    decodeQuery env field typ query tag = (field.val, none) ∧
    (∀ (nm n : String) (pre post : List StructField) (ftag : StructTag) (req r' : Request)
        (data : Value),
      ftag.query = tag → (typ.Kind ≠ .Struct ∨ typ = .time) →
      req.URL.Query = query → req.EmptyBody →
      DecodeRequest env (.struct nm (pre ++ .mk n typ ftag :: post)) req =
        (r', some data, none) →
      ∃ vpre vpost, data = .struct (vpre ++ zero typ :: vpost) ∧ vpre.length = pre.length) := by
  refine ⟨decodeQuery_absent env field typ query tag habs, ?_⟩
  intro nm n pre post ftag req r' data htag hk hq hempty hD
  subst htag
  have hz : zeroFields (pre ++ .mk n typ ftag :: post) =
      zeroFields pre ++ zero typ :: zeroFields post := by
    rw [zeroFields_append]; rfl
  have hE := decodeFields_empty env (pre ++ .mk n typ ftag :: post) req
    (zeroFields pre ++ zero typ :: zeroFields post) false hempty.1
  have hA := decodeFields_absent env n typ ftag post (zero typ) (zeroFields post) hk query habs
    pre (zeroFields pre) req false (zeroFields_length pre).symm hempty.1 hq
  rw [DecodeRequest_struct, hz] at hD
  rcases hdf : decodeFields env req (pre ++ .mk n typ ftag :: post)
    (zeroFields pre ++ zero typ :: zeroFields post) false with ⟨r1, out, b1, e1⟩
  rw [hdf] at hE hA hD
  cases e1 with
  | some err => simp at hD
  | none =>
    obtain ⟨opre, opost, h1, h2⟩ := hA rfl
    simp only at h1
    have hb := decodeBody_empty env r1
      ⟨.struct nm (pre ++ .mk n typ ftag :: post), .struct out, false⟩ hE.2
    have hdata : data = .struct out := by
      cases b1
      · simp only at hD
        rcases hdb : decodeBody env r1
          ⟨.struct nm (pre ++ .mk n typ ftag :: post), .struct out, false⟩ with ⟨r2, v2, e2⟩
        rw [hdb] at hb hD
        simp only at hb
        obtain ⟨rfl, _⟩ := hb
        cases e2 with
        | some err => simp at hD
        | none =>
          simp only [Prod.mk.injEq, Option.some.injEq, and_true] at hD
          exact hD.2.symm
      · simp only [Prod.mk.injEq, Option.some.injEq, and_true] at hD
        exact hD.2.symm
    exact ⟨opre, opost, by rw [hdata, h1], h2⟩

/-- C6, at a concrete input: the parameters `page` and `tag` are absent from `?name=x`, so
`decodeQuery` leaves the pointer field nil, and the target that `DecodeRequest` returns holds
the zero value in the field `Tags`. -/
theorem absent_parameter_leaves_field_witness :
    decodeQuery sampleEnv ⟨.pointer .int, .nil, false⟩ (.pointer .int) [("name", ["x"])]
      "page" = (.nil, none) ∧
    ∃ vpre vpost, Value.struct [.nil, .nil, .string "x"] =
      .struct (vpre ++ zero (.slice .string) :: vpost) ∧ vpre.length = 1 :=
  ⟨(absent_parameter_leaves_field sampleEnv ⟨.pointer .int, .nil, false⟩ (.pointer .int)
      [("name", ["x"])] "page" rfl).1,
   (absent_parameter_leaves_field sampleEnv ⟨.slice .string, .nil, false⟩ (.slice .string)
      [("name", ["x"])] "tag,explode" rfl).2 "listType" "Tags"
      [.mk "Page" (.pointer .int) ⟨"page", "", ""⟩] [.mk "Name" .string ⟨"name", "", ""⟩]
      ⟨"tag,explode", "", ""⟩ nameRequest _ (.struct [.nil, .nil, .string "x"]) rfl
      (Or.inl (by decide)) rfl ⟨rfl, rfl⟩ rfl⟩

/-! ## The dispatch core -/

/-- What the body of `ServeHTTP` does once the request is decoded and validated: the request
line, the call of `Validate` if there is one, and then whatever follows the call of
`Handle`. -/
theorem serveBody_validated (env : Env) (ctl : controllerImpl) (req req' : Request)
    (request : Value) (h : Validated env ctl req req' request) :
    ∃ checked, (∀ ev ∈ checked, Event.isStage ev = true) ∧
      serveBody env ctl req =
        match ctl.handler.Handle request with
        | .fault p => (checked ++ [.handle request], some p, req')
        | .ret (_, some err) =>
          (checked ++ [.handle request] ++ (handleError ctl req' err).1,
            (handleError ctl req' err).2, req')
        | .ret (response, none) =>
          if req'.Header.Get "Accept" = "application/json" then
            match env.Marshal response with
            | (_, some e) =>
              (checked ++ [.handle request] ++ (handleError ctl req' e).1,
                (handleError ctl req' e).2, req')
            | (bytes, none) =>
              (checked ++ [.handle request] ++ [.write bytes] ++ [.writeHeader 200], none, req')
          else
            (checked ++ [.handle request] ++ (handleError ctl req' .acceptNotSupported).1,
              (handleError ctl req' .acceptNotSupported).2, req') := by
  obtain ⟨hD, hV⟩ := h
  rcases hV with hV | ⟨v, hV, hv⟩
  · refine ⟨[.log (.request req.URL.text ctl.handler.typeName)], ?_, ?_⟩
    · intro ev hev
      rw [List.mem_singleton.1 hev]; rfl
    · simp only [serveBody, hD, hV]
      cases ctl.handler.Handle request with
      | fault p => simp
      | ret a =>
        obtain ⟨response, e⟩ := a
        cases e with
        | some err => simp
        | none =>
          by_cases hA : req'.Header.Get "Accept" = "application/json"
          · simp only [hA, if_true]
            rcases env.Marshal response with ⟨bytes, e⟩
            cases e <;> simp
          · simp [hA]
  · refine ⟨[.log (.request req.URL.text ctl.handler.typeName), .validate request], ?_, ?_⟩
    · intro ev hev
      rcases List.mem_cons.1 hev with rfl | hev
      · rfl
      · rw [List.mem_singleton.1 hev]; rfl
    · simp only [serveBody, hD, hV, hv]
      cases ctl.handler.Handle request with
      | fault p => simp
      | ret a =>
        obtain ⟨response, e⟩ := a
        cases e with
        | some err => simp
        | none =>
          by_cases hA : req'.Header.Get "Accept" = "application/json"
          · simp only [hA, if_true]
            rcases env.Marshal response with ⟨bytes, e⟩
            cases e <;> simp
          · simp [hA]


/-- What the body of `ServeHTTP` does when a stage returns an error: stage steps, then
`handleError` on that error. -/
theorem serveBody_stageError (env : Env) (ctl : controllerImpl) (req req' : Request)
    (err : Error) (h : StageError env ctl req req' err) :
    ∃ pre, (∀ ev ∈ pre, Event.isStage ev = true) ∧
      serveBody env ctl req =
        (pre ++ (handleError ctl req' err).1, (handleError ctl req' err).2, req') := by
  cases h with
  | decode hD =>
    refine ⟨[.log (.request req.URL.text ctl.handler.typeName)], ?_, ?_⟩
    · intro ev hev
      rw [List.mem_singleton.1 hev]; rfl
    · simp only [serveBody, hD]
  | validate hD hV hv =>
    rename_i request v
    refine ⟨[.log (.request req.URL.text ctl.handler.typeName), .validate request], ?_, ?_⟩
    · intro ev hev
      rcases List.mem_cons.1 hev with rfl | hev
      · rfl
      · rw [List.mem_singleton.1 hev]; rfl
    · simp only [serveBody, hD, hV, hv]
      simp
  | handle hV hH =>
    rename_i request response
    obtain ⟨checked, hc, hs⟩ := serveBody_validated env ctl req req' request hV
    refine ⟨checked ++ [.handle request], ?_, ?_⟩
    · intro ev hev
      rcases List.mem_append.1 hev with hev | hev
      · exact hc ev hev
      · rw [List.mem_singleton.1 hev]; rfl
    · rw [hs, hH]
  | accept hV hH hA =>
    rename_i request response
    obtain ⟨checked, hc, hs⟩ := serveBody_validated env ctl req req' request hV
    refine ⟨checked ++ [.handle request], ?_, ?_⟩
    · intro ev hev
      rcases List.mem_append.1 hev with hev | hev
      · exact hc ev hev
      · rw [List.mem_singleton.1 hev]; rfl
    · rw [hs, hH]
      simp only [hA, if_false]
  | encode hV hH hA hM =>
    rename_i request response bytes
    obtain ⟨checked, hc, hs⟩ := serveBody_validated env ctl req req' request hV
    refine ⟨checked ++ [.handle request], ?_, ?_⟩
    · intro ev hev
      rcases List.mem_append.1 hev with hev | hev
      · exact hc ev hev
      · rw [List.mem_singleton.1 hev]; rfl
    · rw [hs, hH]
      simp only [hA, if_true, hM]

theorem stage_not_errorBoundary (ev : Event) (h : Event.isStage ev = true) :
    Event.isErrorBoundary ev = false ∧ Event.isFault ev = false ∧
    Event.isSinkWrite ev = false ∧ Event.isServe ev = false := by
  cases ev with
  | log line => cases line <;> simp_all [Event.isStage, Event.isErrorBoundary, Event.isFault,
      Event.isSinkWrite, Event.isServe]
  | _ => simp_all [Event.isStage, Event.isErrorBoundary, Event.isFault, Event.isSinkWrite,
      Event.isServe]

theorem handlePanic_not_errorBoundary (env : Env) (ctl : controllerImpl) (req : Request)
    (err : Error) : ∀ ev ∈ handlePanic env ctl req err, Event.isErrorBoundary ev = false := by
  intro ev hev
  unfold handlePanic at hev
  cases hp : ctl.panicBoundary with
  | some boundary =>
    rw [hp] at hev
    simp only at hev
    cases hb : boundary req err with
    | some h =>
      rw [hb] at hev
      simp only [List.mem_cons, List.mem_singleton, List.not_mem_nil, or_false] at hev
      rcases hev with rfl | rfl | rfl <;> rfl
    | none =>
      rw [hb] at hev
      simp only [List.mem_singleton] at hev
      rw [hev]; rfl
  | none =>
    rw [hp] at hev
    simp only at hev
    have hw : ∀ ev ∈ (writeErrorResponse env req err env.Stack).1,
        Event.isErrorBoundary ev = false := by
      intro ev hev
      unfold writeErrorResponse at hev
      split at hev
      · split at hev
        · simp at hev
        · simp only [List.mem_singleton] at hev
          rw [hev]; rfl
      · simp only [httpError, List.mem_cons, List.mem_singleton, List.not_mem_nil,
          or_false] at hev
        rcases hev with rfl | rfl | rfl | rfl <;> rfl
    rcases hwr : writeErrorResponse env req err env.Stack with ⟨written, e⟩
    rw [hwr] at hev hw
    cases e with
    | some e =>
      simp only [List.mem_cons, List.mem_append, List.mem_singleton, List.not_mem_nil,
        or_false] at hev
      rcases hev with (rfl | hev) | rfl
      · rfl
      · exact hw ev hev
      · rfl
    | none =>
      simp only [List.mem_cons] at hev
      rcases hev with rfl | hev
      · rfl
      · exact hw ev hev


/-- C7. On a dispatch unit built from a handler without error boundary, an error returned by
any stage (decode, self-validation, handler, representation) is promoted to the fault tier:
after the stage steps and the line that no error boundary is implemented, `handlePanic` runs
with that same error. No event of the run belongs to the error boundary. `handlePanic` offers
the error to the fault boundary when one is registered, and otherwise logs the stack trace and
renders the last-resort diagnostic response. -/
theorem error_without_boundary_is_promoted (env : Env) (T : Typ)
    (V : Option (Value → Outcome (Option Error))) (h : Handler) (req req' : Request)
    (err : Error) (hno : h.ErrorBoundary = none)
    (hs : StageError env (New T V h) req req' err) :
    (∃ pre, (∀ ev ∈ pre, Event.isStage ev = true) ∧
      ServeHTTP env (New T V h) req =
        pre ++ .log (.errorNotImplemented req'.URL.text) ::
          handlePanic env (New T V h) req' err) ∧
    (∀ ev ∈ ServeHTTP env (New T V h) req, Event.isErrorBoundary ev = false) ∧
    (∀ pb, h.PanicBoundary = some pb →
      ∃ rest, handlePanic env (New T V h) req' err = .panicBoundary req' err :: rest) ∧
    (h.PanicBoundary = none →
      ∃ rest, handlePanic env (New T V h) req' err =
        .log (.uncaughtPanic req'.URL.text h.typeName err env.Stack) ::
          (writeErrorResponse env req' err env.Stack).1 ++ rest) := by
  obtain ⟨pre, hpre, hbody⟩ := serveBody_stageError env (New T V h) req req' err hs
  have hE : (New T V h).errorBoundary = none := hno
  have hHE : handleError (New T V h) req' err =
      ([.log (.errorNotImplemented req'.URL.text)], some (.error err)) := by
    simp only [handleError, hE]
  have hS : ServeHTTP env (New T V h) req =
      pre ++ .log (.errorNotImplemented req'.URL.text) ::
        handlePanic env (New T V h) req' err := by
    simp only [ServeHTTP, hbody, hHE, List.append_assoc, List.singleton_append]
  refine ⟨⟨pre, hpre, hS⟩, ?_, ?_, ?_⟩
  · intro ev hev
    rw [hS] at hev
    rcases List.mem_append.1 hev with hev | hev
    · exact (stage_not_errorBoundary ev (hpre ev hev)).1
    · rcases List.mem_cons.1 hev with rfl | hev
      · rfl
      · exact handlePanic_not_errorBoundary env (New T V h) req' err ev hev
  · intro pb hpb
    have hP : (New T V h).panicBoundary = some pb := hpb
    simp only [handlePanic, hP]
    cases pb req' err with
    | some g => exact ⟨_, rfl⟩
    | none => exact ⟨_, rfl⟩
  · intro hpb
    have hP : (New T V h).panicBoundary = none := hpb
    simp only [handlePanic, hP]
    rcases writeErrorResponse env req' err env.Stack with ⟨written, e⟩
    cases e with
    | some e => exact ⟨_, rfl⟩
    | none => exact ⟨[], by simp [New]⟩

/-- C7, at a concrete input: the handler returns the error `boom`, no boundary is registered,
and the run ends in the last-resort diagnostic response; no event belongs to the error
boundary. -/
theorem error_without_boundary_is_promoted_witness :
    ServeHTTP sampleEnv (New testType none failingHandler) jsonRequest =
      [.log (.request "/" "*main.failing"), .handle (.struct [.string "test"]),
        .log (.errorNotImplemented "/"),
        .log (.uncaughtPanic "/" "*main.failing" (.foreign "boom") "goroutine 1 [running]"),
        .setHeader "Content-Type" "text/plain; charset=utf-8",
        .setHeader "X-Content-Type-Options" "nosniff",
        .writeHeader 500, .write "boom\n"] ∧
    ∀ ev ∈ ServeHTTP sampleEnv (New testType none failingHandler) jsonRequest,
      Event.isErrorBoundary ev = false :=
  ⟨rfl, (error_without_boundary_is_promoted sampleEnv testType none failingHandler jsonRequest
    drainedRequest (.foreign "boom") rfl
    (StageError.handle (show Validated sampleEnv (New testType none failingHandler)
      jsonRequest drainedRequest (.struct [.string "test"]) from ⟨rfl, Or.inl rfl⟩)
      (show failingHandler.Handle (.struct [.string "test"]) =
        .ret (.nil, some (.foreign "boom")) from rfl))).2.1⟩


theorem mem_stage_append (checked : List Event) (tail : List Event)
    (hc : ∀ ev ∈ checked, Event.isStage ev = true)
    (ht : ∀ ev ∈ tail, Event.isFault ev = false ∧ Event.isSinkWrite ev = false) :
    ∀ ev ∈ checked ++ tail, Event.isFault ev = false ∧ Event.isSinkWrite ev = false := by
  intro ev hev
  rcases List.mem_append.1 hev with hev | hev
  · exact ⟨(stage_not_errorBoundary ev (hc ev hev)).2.1,
      (stage_not_errorBoundary ev (hc ev hev)).2.2.1⟩
  · exact ht ev hev

theorem countP_stage (checked : List Event) (hc : ∀ ev ∈ checked, Event.isStage ev = true) :
    checked.countP Event.isServe = 0 := by
  rw [List.countP_eq_zero]
  intro ev hev
  rw [(stage_not_errorBoundary ev (hc ev hev)).2.2.2]
  exact Bool.false_ne_true

/-- C8. When the handler returns an error, an error boundary is registered, and the boundary
returns a redirect handler: after the stage steps the run calls the boundary with the request
and the error, logs that the error was handled, and calls the redirect handler with the same
request; that call is the last event and the only call of a redirect handler, and no event of
the run belongs to the fault path or is a write of the dispatch core to the sink. -/
theorem error_boundary_redirect (env : Env) (ctl : controllerImpl) (req req' : Request)
    (request response : Value) (err : Error) (eb : Request → Error → Option HandlerFunc)
    (h : HandlerFunc)
    (hV : Validated env ctl req req' request)
    (hH : ctl.handler.Handle request = .ret (response, some err))
    (hE : ctl.errorBoundary = some eb) (hR : eb req' err = some h) :
    (∃ checked, (∀ ev ∈ checked, Event.isStage ev = true) ∧
      ServeHTTP env ctl req =
        checked ++ [.handle request, .errorBoundary req' err,
          .log (.errorHandled req'.URL.text), .serve h req']) ∧
    (ServeHTTP env ctl req).countP Event.isServe = 1 ∧
    (ServeHTTP env ctl req).getLast? = some (.serve h req') ∧
    (∀ ev ∈ ServeHTTP env ctl req, Event.isFault ev = false ∧ Event.isSinkWrite ev = false) := by
  obtain ⟨checked, hc, hs⟩ := serveBody_validated env ctl req req' request hV
  have hHE : handleError ctl req' err =
      ([.errorBoundary req' err, .log (.errorHandled req'.URL.text), .serve h req'], none) := by
    simp only [handleError, hE, hR]
  have hS : ServeHTTP env ctl req =
      checked ++ [.handle request, .errorBoundary req' err,
        .log (.errorHandled req'.URL.text), .serve h req'] := by
    simp only [ServeHTTP, hs, hH, hHE, List.append_assoc, List.singleton_append]
  refine ⟨⟨checked, hc, hS⟩, ?_, ?_, ?_⟩
  · rw [hS, List.countP_append, countP_stage checked hc]
    rfl
  · rw [hS, List.getLast?_append]
    rfl
  · rw [hS]
    apply mem_stage_append checked _ hc
    intro ev hev
    simp only [List.mem_cons, List.mem_singleton, List.not_mem_nil, or_false] at hev
    rcases hev with rfl | rfl | rfl | rfl <;> exact ⟨rfl, rfl⟩

/-- C8, at a concrete input: the handler returns `boom`, the error boundary redirects to
`errorPage`, and the call of `errorPage` ends the run. -/
theorem error_boundary_redirect_witness :
    ServeHTTP sampleEnv (New testType none redirectingHandler) jsonRequest =
      [.log (.request "/" "*main.redirecting"), .handle (.struct [.string "test"]),
        .errorBoundary drainedRequest (.foreign "boom"), .log (.errorHandled "/"),
        .serve "errorPage" drainedRequest] ∧
    (ServeHTTP sampleEnv (New testType none redirectingHandler) jsonRequest).countP
      Event.isServe = 1 :=
  ⟨rfl, (error_boundary_redirect sampleEnv (New testType none redirectingHandler) jsonRequest
    drainedRequest (.struct [.string "test"]) .nil (.foreign "boom")
    (fun _ _ => some "errorPage") "errorPage" ⟨rfl, Or.inl rfl⟩ rfl rfl rfl).2.1⟩

/-- C9. A fault that carries a value which is not an `error`, such as a string, is recovered
by the deferred function of `ServeHTTP` and dropped: when `Handle` panics with such a value the
run ends after the call of `Handle`, whether or not a fault boundary is registered; no event
belongs to the fault path and nothing is written to the sink. -/
theorem non_error_panic_is_dropped (env : Env) (ctl : controllerImpl) (req req' : Request)
    (request : Value) (text : String)
    (hV : Validated env ctl req req' request)
    (hH : ctl.handler.Handle request = .fault (.other text)) :
    (∃ checked, (∀ ev ∈ checked, Event.isStage ev = true) ∧
      ServeHTTP env ctl req = checked ++ [.handle request]) ∧
    (∀ ev ∈ ServeHTTP env ctl req, Event.isFault ev = false ∧ Event.isSinkWrite ev = false) := by
  obtain ⟨checked, hc, hs⟩ := serveBody_validated env ctl req req' request hV
  have hS : ServeHTTP env ctl req = checked ++ [.handle request] := by
    simp only [ServeHTTP, hs, hH]
  refine ⟨⟨checked, hc, hS⟩, ?_⟩
  rw [hS]
  apply mem_stage_append checked _ hc
  intro ev hev
  rw [List.mem_singleton.1 hev]
  exact ⟨rfl, rfl⟩

/-- C9, at a concrete input: `Handle` panics with the string `boom`; the registered fault
boundary is never called and no response is rendered. -/
theorem non_error_panic_is_dropped_witness :
    ServeHTTP sampleEnv (New testType none panickingHandler) jsonRequest =
      [.log (.request "/" "*main.panicking"), .handle (.struct [.string "test"])] ∧
    ∀ ev ∈ ServeHTTP sampleEnv (New testType none panickingHandler) jsonRequest,
      Event.isFault ev = false ∧ Event.isSinkWrite ev = false :=
  ⟨rfl, (non_error_panic_is_dropped sampleEnv (New testType none panickingHandler) jsonRequest
    drainedRequest (.struct [.string "test"]) "boom" ⟨rfl, Or.inl rfl⟩ rfl).2⟩

/-- C10. When a fault boundary is registered and returns nil, `handlePanic` does nothing
after the call of the boundary: no stack trace is logged and no diagnostic response is
rendered. -/
theorem panic_boundary_nil_renders_nothing (env : Env) (ctl : controllerImpl) (req : Request)
    (err : Error) (pb : Request → Error → Option HandlerFunc)
    (hP : ctl.panicBoundary = some pb) (hN : pb req err = none) :
    handlePanic env ctl req err = [.panicBoundary req err] := by
  simp only [handlePanic, hP, hN]

/-- C10, at a concrete input: the handler returns `boom`, no error boundary is registered,
the fault boundary returns nil, and the run ends with the call of the fault boundary. -/
theorem panic_boundary_nil_renders_nothing_witness :
    handlePanic sampleEnv (New testType none silentHandler) drainedRequest (.foreign "boom") =
      [.panicBoundary drainedRequest (.foreign "boom")] ∧
    ServeHTTP sampleEnv (New testType none silentHandler) jsonRequest =
      [.log (.request "/" "*main.silent"), .handle (.struct [.string "test"]),
        .log (.errorNotImplemented "/"), .panicBoundary drainedRequest (.foreign "boom")] :=
  ⟨panic_boundary_nil_renders_nothing sampleEnv (New testType none silentHandler)
    drainedRequest (.foreign "boom") (fun _ _ => none) rfl rfl, rfl⟩

/-! ## The diagnostic response -/

/-- C11. Under an `Accept` header other than `application/json`, `writeErrorResponse` calls
`http.Error` with the message of the error: the body of the response is the message and a line
end, and the captured trace is not part of what is written. -/
theorem writeErrorResponse_text_omits_trace (env : Env) (req : Request) (err : Error)
    (stack : String) (hA : req.Header.Get "Accept" ≠ "application/json") :
    writeErrorResponse env req err stack = (httpError (err.Error env) 500, none) ∧
    responseBody (writeErrorResponse env req err stack).1 = err.Error env ++ "\n" := by
  have h : writeErrorResponse env req err stack = (httpError (err.Error env) 500, none) := by
    simp only [writeErrorResponse, hA, if_false]
  refine ⟨h, ?_⟩
  rw [h]
  simp only [httpError, responseBody, String.append_empty]

/-- C11, at a concrete input: for `Accept: text/plain`, the error `boom` and the trace
`goroutine 1 [running]`, the response body is `boom` and a line end, which does not contain
the trace. -/
theorem writeErrorResponse_text_omits_trace_witness :
    responseBody (writeErrorResponse sampleEnv textRequest (.foreign "boom")
      "goroutine 1 [running]").1 = "boom\n" ∧
    containsText "boom\n" "goroutine 1 [running]" = false :=
  ⟨(writeErrorResponse_text_omits_trace sampleEnv textRequest (.foreign "boom")
    "goroutine 1 [running]" (by decide)).2, by decide⟩

/-! ## The order of the stages -/

theorem stage_classes (ev : Event) (h : Event.isStage ev = true) :
    Event.isBoundary ev = false ∧ responseBody [ev] = "" ∧ responseStatus [ev] = none := by
  cases ev with
  | log line => cases line <;> simp_all [Event.isStage, Event.isBoundary, responseBody,
      responseStatus]
  | _ => simp_all [Event.isStage, Event.isBoundary, responseBody, responseStatus]

theorem responseBody_stage (checked rest : List Event)
    (hc : ∀ ev ∈ checked, Event.isStage ev = true) :
    responseBody (checked ++ rest) = responseBody rest := by
  induction checked with
  | nil => rfl
  | cons ev evs ih =>
    have h1 := hc ev (List.mem_cons_self _ _)
    have h2 := ih (fun e he => hc e (List.mem_cons_of_mem _ he))
    cases ev with
    | log line => simpa [responseBody] using h2
    | validate _ => simpa [responseBody] using h2
    | handle _ => simpa [responseBody] using h2
    | _ => simp [Event.isStage] at h1

theorem responseStatus_stage (checked rest : List Event)
    (hc : ∀ ev ∈ checked, Event.isStage ev = true) :
    responseStatus (checked ++ rest) = responseStatus rest := by
  induction checked with
  | nil => rfl
  | cons ev evs ih =>
    have h1 := hc ev (List.mem_cons_self _ _)
    have h2 := ih (fun e he => hc e (List.mem_cons_of_mem _ he))
    cases ev with
    | log line => simpa [responseStatus] using h2
    | validate _ => simpa [responseStatus] using h2
    | handle _ => simpa [responseStatus] using h2
    | _ => simp [Event.isStage] at h1

/-- The events of `handleError` are calls of the error boundary and of its redirect handler
and lines of the log. -/
theorem handleError_events (ctl : controllerImpl) (req : Request) (err : Error) :
    ∀ ev ∈ (handleError ctl req err).1,
      Event.isHandle ev = false ∧ Event.isValidate ev = false ∧
      Event.isSinkWrite ev = false ∧ Event.isFault ev = false := by
  intro ev hev
  unfold handleError at hev
  cases hE : ctl.errorBoundary with
  | none =>
    rw [hE] at hev
    simp only [List.mem_singleton] at hev
    rw [hev]; exact ⟨rfl, rfl, rfl, rfl⟩
  | some boundary =>
    rw [hE] at hev
    simp only at hev
    cases hb : boundary req err with
    | none =>
      rw [hb] at hev
      simp only [List.mem_singleton] at hev
      rw [hev]; exact ⟨rfl, rfl, rfl, rfl⟩
    | some h =>
      rw [hb] at hev
      simp only [List.mem_cons, List.mem_singleton, List.not_mem_nil, or_false] at hev
      rcases hev with rfl | rfl | rfl <;> exact ⟨rfl, rfl, rfl, rfl⟩

theorem writeErrorResponse_events (env : Env) (req : Request) (err : Error) (stack : String) :
    ∀ ev ∈ (writeErrorResponse env req err stack).1,
      Event.isHandle ev = false ∧ Event.isValidate ev = false ∧
      Event.isErrorBoundary ev = false := by
  intro ev hev
  unfold writeErrorResponse at hev
  split at hev
  · split at hev
    · simp at hev
    · simp only [List.mem_singleton] at hev
      rw [hev]; exact ⟨rfl, rfl, rfl⟩
  · simp only [httpError, List.mem_cons, List.mem_singleton, List.not_mem_nil,
      or_false] at hev
    rcases hev with rfl | rfl | rfl | rfl <;> exact ⟨rfl, rfl, rfl⟩

/-- The events of `handlePanic` are no calls of `Handle` or `Validate`, and its writes to the
sink are those of `writeErrorResponse`. -/
theorem handlePanic_events (env : Env) (ctl : controllerImpl) (req : Request) (err : Error) :
    ∀ ev ∈ handlePanic env ctl req err,
      Event.isHandle ev = false ∧ Event.isValidate ev = false ∧
      (Event.isSinkWrite ev = true → ev ∈ (writeErrorResponse env req err env.Stack).1) := by
  intro ev hev
  unfold handlePanic at hev
  cases hp : ctl.panicBoundary with
  | some boundary =>
    rw [hp] at hev
    simp only at hev
    cases hb : boundary req err with
    | some h =>
      rw [hb] at hev
      simp only [List.mem_cons, List.mem_singleton, List.not_mem_nil, or_false] at hev
      rcases hev with rfl | rfl | rfl <;> exact ⟨rfl, rfl, fun h => by cases h⟩
    | none =>
      rw [hb] at hev
      simp only [List.mem_singleton] at hev
      rw [hev]; exact ⟨rfl, rfl, fun h => by cases h⟩
  | none =>
    rw [hp] at hev
    simp only at hev
    have hw := writeErrorResponse_events env req err env.Stack
    rcases hwr : writeErrorResponse env req err env.Stack with ⟨written, e⟩
    rw [hwr] at hev hw
    cases e with
    | some e =>
      simp only [List.mem_cons, List.mem_append, List.mem_singleton, List.not_mem_nil,
        or_false] at hev
      rcases hev with (rfl | hev) | rfl
      · exact ⟨rfl, rfl, fun h => by cases h⟩
      · exact ⟨(hw ev hev).1, (hw ev hev).2.1, fun _ => hev⟩
      · exact ⟨rfl, rfl, fun h => by cases h⟩
    | none =>
      simp only [List.mem_cons] at hev
      rcases hev with rfl | hev
      · exact ⟨rfl, rfl, fun h => by cases h⟩
      · exact ⟨(hw ev hev).1, (hw ev hev).2.1, fun _ => hev⟩


/-- The steps of a run up to the call of `Handle`, once the request is decoded and validated:
the request line, and the call of `Validate` when the type has one. -/
theorem serveBody_validated_steps (env : Env) (ctl : controllerImpl) (req req' : Request)
    (request : Value) (h : Validated env ctl req req' request) :
    ∃ checked,
      (checked = [.log (.request req.URL.text ctl.handler.typeName)] ∨
        checked = [.log (.request req.URL.text ctl.handler.typeName), .validate request]) ∧
      serveBody env ctl req =
        match ctl.handler.Handle request with
        | .fault p => (checked ++ [.handle request], some p, req')
        | .ret (_, some err) =>
          (checked ++ [.handle request] ++ (handleError ctl req' err).1,
            (handleError ctl req' err).2, req')
        | .ret (response, none) =>
          if req'.Header.Get "Accept" = "application/json" then
            match env.Marshal response with
            | (_, some e) =>
              (checked ++ [.handle request] ++ (handleError ctl req' e).1,
                (handleError ctl req' e).2, req')
            | (bytes, none) =>
              (checked ++ [.handle request] ++ [.write bytes] ++ [.writeHeader 200], none, req')
          else
            (checked ++ [.handle request] ++ (handleError ctl req' .acceptNotSupported).1,
              (handleError ctl req' .acceptNotSupported).2, req') := by
  obtain ⟨hD, hV⟩ := h
  rcases hV with hV | ⟨v, hV, hv⟩
  · refine ⟨[.log (.request req.URL.text ctl.handler.typeName)], Or.inl rfl, ?_⟩
    simp only [serveBody, hD, hV]
    cases ctl.handler.Handle request with
    | fault p => simp
    | ret a =>
      obtain ⟨response, e⟩ := a
      cases e with
      | some err => simp
      | none =>
        by_cases hA : req'.Header.Get "Accept" = "application/json"
        · simp only [hA, if_true]
          rcases env.Marshal response with ⟨bytes, e⟩
          cases e <;> simp
        · simp [hA]
  · refine ⟨[.log (.request req.URL.text ctl.handler.typeName), .validate request],
      Or.inr rfl, ?_⟩
    simp only [serveBody, hD, hV, hv]
    cases ctl.handler.Handle request with
    | fault p => simp
    | ret a =>
      obtain ⟨response, e⟩ := a
      cases e with
      | some err => simp
      | none =>
        by_cases hA : req'.Header.Get "Accept" = "application/json"
        · simp only [hA, if_true]
          rcases env.Marshal response with ⟨bytes, e⟩
          cases e <;> simp
        · simp [hA]

/-- The run of `ServeHTTP` in terms of its body: the events of the body, followed by those of
`handlePanic` when the body panics with an error value. -/
theorem ServeHTTP_eq (env : Env) (ctl : controllerImpl) (req : Request) :
    ServeHTTP env ctl req =
      (serveBody env ctl req).1 ++
        match (serveBody env ctl req).2.1 with
        | some (.error err) => handlePanic env ctl (serveBody env ctl req).2.2 err
        | _ => [] := by
  unfold ServeHTTP
  rcases serveBody env ctl req with ⟨done, p, r⟩
  cases p with
  | none => simp
  | some p => cases p <;> simp

/-- The tail of a run after `handleError ctl req' err`: the events of `handleError`, and those
of `handlePanic` on the same error when no error boundary is registered. -/
theorem handleError_tail (env : Env) (ctl : controllerImpl) (req' : Request) (err : Error) :
    ((handleError ctl req' err).1 ++
      match (handleError ctl req' err).2 with
      | some (.error e) => handlePanic env ctl req' e
      | _ => []) =
    match ctl.errorBoundary with
    | some _ => (handleError ctl req' err).1
    | none => .log (.errorNotImplemented req'.URL.text) :: handlePanic env ctl req' err := by
  unfold handleError
  cases ctl.errorBoundary with
  | none => simp
  | some boundary =>
    simp only
    cases boundary req' err <;> simp

theorem handleError_tail_events (env : Env) (ctl : controllerImpl) (req' : Request)
    (err : Error) :
    ∀ ev ∈ ((handleError ctl req' err).1 ++
      match (handleError ctl req' err).2 with
      | some (.error e) => handlePanic env ctl req' e
      | _ => []),
      Event.isHandle ev = false ∧ Event.isValidate ev = false ∧
      (Event.isSinkWrite ev = true → ev ∈ (writeErrorResponse env req' err env.Stack).1) := by
  intro ev hev
  rcases List.mem_append.1 hev with hev | hev
  · have := handleError_events ctl req' err ev hev
    exact ⟨this.1, this.2.1, fun h => by rw [this.2.2.1] at h; cases h⟩
  · unfold handleError at hev
    cases hE : ctl.errorBoundary with
    | none =>
      rw [hE] at hev
      exact handlePanic_events env ctl req' err ev hev
    | some boundary =>
      rw [hE] at hev
      simp only at hev
      cases hb : boundary req' err with
      | none => rw [hb] at hev; simp at hev
      | some h => rw [hb] at hev; simp at hev


/-- C12. When decode, validation and handler succeed but the `Accept` header is anything other
than `application/json`, the run produces the representation error and routes it through
`handleError`: the error boundary is called with it when registered, and otherwise
`handlePanic` runs with it. The response of the handler is not written and the dispatch core
does not write status 200: every write of the run to the sink is one of the diagnostic
`http.Error` response with status 500. -/
theorem unsupported_accept_is_representation_error (env : Env) (ctl : controllerImpl)
    (req req' : Request) (request response : Value)
    (hV : Validated env ctl req req' request)
    (hH : ctl.handler.Handle request = .ret (response, none))
    (hA : req'.Header.Get "Accept" ≠ "application/json") :
    StageError env ctl req req' .acceptNotSupported ∧
    (∃ checked, (∀ ev ∈ checked, Event.isStage ev = true) ∧
      ServeHTTP env ctl req = checked ++ [.handle request] ++
        match ctl.errorBoundary with
        | some _ => (handleError ctl req' .acceptNotSupported).1
        | none => .log (.errorNotImplemented req'.URL.text) ::
            handlePanic env ctl req' .acceptNotSupported) ∧
    (∀ eb, ctl.errorBoundary = some eb →
      Event.errorBoundary req' .acceptNotSupported ∈ ServeHTTP env ctl req) ∧
    (ctl.errorBoundary = none →
      ∃ pre, ServeHTTP env ctl req = pre ++ handlePanic env ctl req' .acceptNotSupported) ∧
    (∀ ev ∈ ServeHTTP env ctl req, Event.isSinkWrite ev = true →
      ev ∈ httpError (Error.Error env .acceptNotSupported) 500) ∧
    Event.writeHeader 200 ∉ ServeHTTP env ctl req := by
  obtain ⟨checked, hc, hs⟩ := serveBody_validated env ctl req req' request hV
  have hbody : serveBody env ctl req =
      (checked ++ [.handle request] ++ (handleError ctl req' .acceptNotSupported).1,
        (handleError ctl req' .acceptNotSupported).2, req') := by
    rw [hs, hH]
    simp only [hA, if_false]
  have hS0 : ServeHTTP env ctl req = checked ++ [.handle request] ++
      ((handleError ctl req' .acceptNotSupported).1 ++
        match (handleError ctl req' .acceptNotSupported).2 with
        | some (.error e) => handlePanic env ctl req' e
        | _ => []) := by
    rw [ServeHTTP_eq, hbody]
    simp only [List.append_assoc]
  have hS : ServeHTTP env ctl req = checked ++ [.handle request] ++
      match ctl.errorBoundary with
      | some _ => (handleError ctl req' .acceptNotSupported).1
      | none => .log (.errorNotImplemented req'.URL.text) ::
          handlePanic env ctl req' .acceptNotSupported := by
    rw [hS0, handleError_tail]
  have hW : writeErrorResponse env req' .acceptNotSupported env.Stack =
      (httpError (Error.Error env .acceptNotSupported) 500, none) := by
    simp only [writeErrorResponse, hA, if_false]
  have hwrites : ∀ ev ∈ ServeHTTP env ctl req, Event.isSinkWrite ev = true →
      ev ∈ httpError (Error.Error env .acceptNotSupported) 500 := by
    intro ev hev hw
    rw [hS0] at hev
    rcases List.mem_append.1 hev with hev | hev
    · rcases List.mem_append.1 hev with hev | hev
      · rw [(stage_not_errorBoundary ev (hc ev hev)).2.2.1] at hw; cases hw
      · rw [List.mem_singleton.1 hev] at hw; cases hw
    · have := (handleError_tail_events env ctl req' .acceptNotSupported ev hev).2.2 hw
      rw [hW] at this
      exact this
  refine ⟨StageError.accept hV hH hA, ⟨checked, hc, hS⟩, ?_, ?_, hwrites, ?_⟩
  · intro eb hE
    rw [hS, hE]
    apply List.mem_append_right
    simp only [handleError, hE]
    cases eb req' .acceptNotSupported <;> simp
  · intro hE
    refine ⟨checked ++ [.handle request] ++ [.log (.errorNotImplemented req'.URL.text)], ?_⟩
    rw [hS, hE]
    simp only [List.append_assoc, List.singleton_append, List.cons_append, List.nil_append]
  · intro hmem
    have := hwrites _ hmem rfl
    simp [httpError] at this

/-- C12, at a concrete input: the handler succeeds, the request has no `Accept` header, and no
boundary is registered; the run goes to the fault path with the representation error and does
not write status 200. -/
theorem unsupported_accept_is_representation_error_witness :
    (∃ pre, ServeHTTP sampleEnv (New testType none okHandler) jsonRequest =
      pre ++ handlePanic sampleEnv (New testType none okHandler) drainedRequest
        .acceptNotSupported) ∧
    Event.writeHeader 200 ∉ ServeHTTP sampleEnv (New testType none okHandler) jsonRequest :=
  ⟨(unsupported_accept_is_representation_error sampleEnv (New testType none okHandler)
      jsonRequest drainedRequest (.struct [.string "test"]) (.string "done")
      ⟨rfl, Or.inl rfl⟩ rfl (by decide)).2.2.2.1 rfl,
   (unsupported_accept_is_representation_error sampleEnv (New testType none okHandler)
      jsonRequest drainedRequest (.struct [.string "test"]) (.string "done")
      ⟨rfl, Or.inl rfl⟩ rfl (by decide)).2.2.2.2.2⟩


/-- C14. When the request has `Accept: application/json` and decode, validation, handler and
JSON encoding all succeed, the run writes the encoding of the response of the handler to the
sink and then calls `WriteHeader(200)`: the body of the response is that encoding, its status
is 200, and no boundary is called. -/
theorem success_writes_json (env : Env) (ctl : controllerImpl) (req req' : Request)
    (request response : Value) (bytes : String)
    (hV : Validated env ctl req req' request)
    (hH : ctl.handler.Handle request = .ret (response, none))
    (hA : req'.Header.Get "Accept" = "application/json")
    (hM : env.Marshal response = (bytes, none)) :
    (∃ checked, (∀ ev ∈ checked, Event.isStage ev = true) ∧
      ServeHTTP env ctl req = checked ++ [.handle request, .write bytes, .writeHeader 200]) ∧
    responseBody (ServeHTTP env ctl req) = bytes ∧
    responseStatus (ServeHTTP env ctl req) = some 200 ∧
    (∀ ev ∈ ServeHTTP env ctl req, Event.isBoundary ev = false) := by
  obtain ⟨checked, hc, hs⟩ := serveBody_validated env ctl req req' request hV
  have hS : ServeHTTP env ctl req =
      checked ++ [.handle request, .write bytes, .writeHeader 200] := by
    rw [ServeHTTP_eq, hs, hH]
    simp only [hA, if_true, hM, List.append_assoc, List.singleton_append, List.append_nil,
      List.cons_append, List.nil_append]
  refine ⟨⟨checked, hc, hS⟩, ?_, ?_, ?_⟩
  · rw [hS, responseBody_stage checked _ hc]
    simp only [responseBody, String.append_empty]
  · rw [hS, responseStatus_stage checked _ hc]
    rfl
  · intro ev hev
    rw [hS] at hev
    rcases List.mem_append.1 hev with hev | hev
    · exact (stage_classes ev (hc ev hev)).1
    · simp only [List.mem_cons, List.mem_singleton, List.not_mem_nil, or_false] at hev
      rcases hev with rfl | rfl | rfl <;> rfl

/-- C14, at a concrete input: the handler succeeds on a request with
`Accept: application/json`; the run writes the encoded response and status 200. -/
theorem success_writes_json_witness :
    responseBody (ServeHTTP sampleEnv (New testType none okHandler) acceptJsonRequest) =
      "null" ∧
    responseStatus (ServeHTTP sampleEnv (New testType none okHandler) acceptJsonRequest) =
      some 200 :=
  ⟨(success_writes_json sampleEnv (New testType none okHandler) acceptJsonRequest
      drainedAcceptJsonRequest (.struct [.string "test"]) (.string "done") "null"
      ⟨rfl, Or.inl rfl⟩ rfl rfl rfl).2.1,
   (success_writes_json sampleEnv (New testType none okHandler) acceptJsonRequest
      drainedAcceptJsonRequest (.struct [.string "test"]) (.string "done") "null"
      ⟨rfl, Or.inl rfl⟩ rfl rfl rfl).2.2.1⟩


theorem panic_tail_events (env : Env) (ctl : controllerImpl) (req' : Request)
    (p : Option PanicValue) :
    ∀ ev ∈ (match p with
      | some (.error err) => handlePanic env ctl req' err
      | _ => []),
      Event.isHandle ev = false ∧ Event.isValidate ev = false := by
  intro ev hev
  cases p with
  | none => simp at hev
  | some p =>
    cases p with
    | other text => simp at hev
    | error err =>
      have := handlePanic_events env ctl req' err ev hev
      exact ⟨this.1, this.2.1⟩

/-- The run on a validated request: the steps up to `Handle`, the call of `Handle`, and a
tail without any call of `Handle` or `Validate`. -/
theorem ServeHTTP_validated (env : Env) (ctl : controllerImpl) (req req' : Request)
    (request : Value) (hV : Validated env ctl req req' request) :
    ∃ checked tail,
      (checked = [.log (.request req.URL.text ctl.handler.typeName)] ∨
        checked = [.log (.request req.URL.text ctl.handler.typeName), .validate request]) ∧
      ServeHTTP env ctl req = checked ++ [.handle request] ++ tail ∧
      ∀ ev ∈ tail, Event.isHandle ev = false ∧ Event.isValidate ev = false := by
  obtain ⟨checked, hc, hs⟩ := serveBody_validated_steps env ctl req req' request hV
  have hE := ServeHTTP_eq env ctl req
  cases hH : ctl.handler.Handle request with
  | fault p =>
    rw [hs, hH] at hE
    exact ⟨checked, _, hc, hE, panic_tail_events env ctl req' (some p)⟩
  | ret a =>
    obtain ⟨response, e⟩ := a
    cases e with
    | some err =>
      rw [hs, hH] at hE
      simp only [List.append_assoc] at hE
      refine ⟨checked, errorTail env ctl req' err, hc,
        by rw [hE]; simp only [errorTail, List.append_assoc], ?_⟩
      intro ev hev
      have := handleError_tail_events env ctl req' err ev hev
      exact ⟨this.1, this.2.1⟩
    | none =>
      by_cases hA : req'.Header.Get "Accept" = "application/json"
      · rcases hM : env.Marshal response with ⟨bytes, e⟩
        cases e with
        | some e =>
          rw [hs, hH] at hE
          simp only [hA, if_true, hM, List.append_assoc] at hE
          refine ⟨checked, errorTail env ctl req' e, hc,
            by rw [hE]; simp only [errorTail, List.append_assoc], ?_⟩
          intro ev hev
          have := handleError_tail_events env ctl req' e ev hev
          exact ⟨this.1, this.2.1⟩
        | none =>
          rw [hs, hH] at hE
          simp only [hA, if_true, hM, List.append_assoc, List.append_nil] at hE
          refine ⟨checked, [.write bytes, .writeHeader 200], hc,
            by rw [hE]; simp only [List.append_assoc, List.singleton_append], ?_⟩
          intro ev hev
          simp only [List.mem_cons, List.mem_singleton, List.not_mem_nil, or_false] at hev
          rcases hev with rfl | rfl <;> exact ⟨rfl, rfl⟩
      · rw [hs, hH] at hE
        simp only [hA, if_false, List.append_assoc] at hE
        refine ⟨checked, errorTail env ctl req' .acceptNotSupported, hc,
          by rw [hE]; simp only [errorTail, List.append_assoc], ?_⟩
        intro ev hev
        have := handleError_tail_events env ctl req' .acceptNotSupported ev hev
        exact ⟨this.1, this.2.1⟩


theorem errorTail_events (env : Env) (ctl : controllerImpl) (req' : Request) (err : Error) :
    ∀ ev ∈ errorTail env ctl req' err,
      Event.isHandle ev = false ∧ Event.isValidate ev = false := by
  intro ev hev
  have := handleError_tail_events env ctl req' err ev hev
  exact ⟨this.1, this.2.1⟩

theorem ServeHTTP_decode_error (env : Env) (ctl : controllerImpl) (req req' : Request)
    (target : Option Value) (err : Error)
    (hD : DecodeRequest env ctl.T req = (req', target, some (.error err))) :
    ServeHTTP env ctl req =
      .log (.request req.URL.text ctl.handler.typeName) :: errorTail env ctl req' err := by
  rw [ServeHTTP_eq]
  simp only [serveBody, hD, errorTail, List.singleton_append, List.cons_append, List.nil_append]

theorem ServeHTTP_decode_fault (env : Env) (ctl : controllerImpl) (req req' : Request)
    (target : Option Value) (p : PanicValue)
    (hD : DecodeRequest env ctl.T req = (req', target, some (.fault p))) :
    ServeHTTP env ctl req =
      .log (.request req.URL.text ctl.handler.typeName) ::
        match some p with
        | some (.error err) => handlePanic env ctl req' err
        | _ => [] := by
  rw [ServeHTTP_eq]
  simp only [serveBody, hD, List.singleton_append, List.cons_append, List.nil_append]

/-- A run whose decode stops, with an error or with a panic, calls neither `Validate` nor
`Handle`. -/
theorem ServeHTTP_decode_stop (env : Env) (ctl : controllerImpl) (req req' : Request)
    (target : Option Value) (stop : Stop)
    (hD : DecodeRequest env ctl.T req = (req', target, some stop)) :
    ∀ ev ∈ ServeHTTP env ctl req, Event.isHandle ev = false ∧ Event.isValidate ev = false := by
  intro ev hev
  cases stop with
  | error err =>
    rw [ServeHTTP_decode_error env ctl req req' target err hD] at hev
    rcases List.mem_cons.1 hev with rfl | hev
    · exact ⟨rfl, rfl⟩
    · exact errorTail_events env ctl req' err ev hev
  | fault p =>
    rw [ServeHTTP_decode_fault env ctl req req' target p hD] at hev
    rcases List.mem_cons.1 hev with rfl | hev
    · exact ⟨rfl, rfl⟩
    · exact panic_tail_events env ctl req' (some p) ev hev

theorem ServeHTTP_nil_target (env : Env) (ctl : controllerImpl) (req req' : Request)
    (hD : DecodeRequest env ctl.T req = (req', none, none)) :
    ServeHTTP env ctl req = [.log (.request req.URL.text ctl.handler.typeName)] := by
  rw [ServeHTTP_eq]
  simp only [serveBody, hD, List.append_nil]

theorem ServeHTTP_validate_error (env : Env) (ctl : controllerImpl) (req req' : Request)
    (request : Value) (v : Value → Outcome (Option Error)) (err : Error)
    (hD : DecodeRequest env ctl.T req = (req', some request, none))
    (hV : ctl.Validate = some v) (hv : v request = .ret (some err)) :
    ServeHTTP env ctl req =
      .log (.request req.URL.text ctl.handler.typeName) :: .validate request ::
        errorTail env ctl req' err := by
  rw [ServeHTTP_eq]
  simp only [serveBody, hD, hV, hv, errorTail, List.singleton_append, List.cons_append,
    List.nil_append, List.append_assoc]

theorem ServeHTTP_validate_fault (env : Env) (ctl : controllerImpl) (req req' : Request)
    (request : Value) (v : Value → Outcome (Option Error)) (p : PanicValue)
    (hD : DecodeRequest env ctl.T req = (req', some request, none))
    (hV : ctl.Validate = some v) (hv : v request = .fault p) :
    ServeHTTP env ctl req =
      .log (.request req.URL.text ctl.handler.typeName) :: .validate request ::
        match some p with
        | some (.error err) => handlePanic env ctl req' err
        | _ => [] := by
  rw [ServeHTTP_eq]
  simp only [serveBody, hD, hV, hv, List.singleton_append, List.cons_append, List.nil_append]

/-- Either the request is decoded and validated, or the run calls `Handle` nowhere. -/
theorem ServeHTTP_handle_cases (env : Env) (ctl : controllerImpl) (req : Request) :
    (∃ req' request, Validated env ctl req req' request) ∨
    (∀ ev ∈ ServeHTTP env ctl req, Event.isHandle ev = false) := by
  rcases hD : DecodeRequest env ctl.T req with ⟨req', target, e⟩
  cases e with
  | some stop =>
    right
    intro ev hev
    exact (ServeHTTP_decode_stop env ctl req req' target stop hD ev hev).1
  | none =>
    cases target with
    | none =>
      right
      rw [ServeHTTP_nil_target env ctl req req' hD]
      intro ev hev
      rw [List.mem_singleton.1 hev]; rfl
    | some request =>
      cases hV : ctl.Validate with
      | none => exact Or.inl ⟨req', request, hD, Or.inl hV⟩
      | some v =>
        cases hv : v request with
        | fault p =>
          right
          rw [ServeHTTP_validate_fault env ctl req req' request v p hD hV hv]
          intro ev hev
          rcases List.mem_cons.1 hev with rfl | hev
          · rfl
          · rcases List.mem_cons.1 hev with rfl | hev
            · rfl
            · exact (panic_tail_events env ctl req' (some p) ev hev).1
        | ret e =>
          cases e with
          | none => exact Or.inl ⟨req', request, hD, Or.inr ⟨v, hV, hv⟩⟩
          | some err =>
            right
            rw [ServeHTTP_validate_error env ctl req req' request v err hD hV hv]
            intro ev hev
            rcases List.mem_cons.1 hev with rfl | hev
            · rfl
            · rcases List.mem_cons.1 hev with rfl | hev
              · rfl
              · exact (errorTail_events env ctl req' err ev hev).1

theorem countP_eq_zero_of_all_false (p : Event → Bool) (l : List Event)
    (h : ∀ ev ∈ l, p ev = false) : l.countP p = 0 := by
  rw [List.countP_eq_zero]
  intro ev hev
  rw [h ev hev]
  exact Bool.false_ne_true

/-- C13. The stages of a run are short-circuited in order: `Handle` is called if and only if
the request is decoded and the decoded value either has no `Validate` or its `Validate`
returned no error; `Handle` is called at most once; when decoding fails, with an error or
with a panic, neither `Validate` nor `Handle` is called; when `Validate` returns an error
`Handle` is not called. -/
theorem stages_short_circuit (env : Env) (ctl : controllerImpl) (req : Request) :
    ((∃ ev ∈ ServeHTTP env ctl req, Event.isHandle ev = true) ↔
      ∃ req' request, Validated env ctl req req' request) ∧
    (ServeHTTP env ctl req).countP Event.isHandle ≤ 1 ∧
    (∀ req' target stop, DecodeRequest env ctl.T req = (req', target, some stop) →
      ∀ ev ∈ ServeHTTP env ctl req, Event.isHandle ev = false ∧ Event.isValidate ev = false) ∧
    (∀ req' request v err, DecodeRequest env ctl.T req = (req', some request, none) →
      ctl.Validate = some v → v request = .ret (some err) →
      ∀ ev ∈ ServeHTTP env ctl req, Event.isHandle ev = false) := by
  refine ⟨⟨?_, ?_⟩, ?_, ?_, ?_⟩
  · rintro ⟨ev, hev, hh⟩
    rcases ServeHTTP_handle_cases env ctl req with h | h
    · exact h
    · rw [h ev hev] at hh; cases hh
  · rintro ⟨req', request, hV⟩
    obtain ⟨checked, tail, _, hS, _⟩ := ServeHTTP_validated env ctl req req' request hV
    refine ⟨.handle request, ?_, rfl⟩
    rw [hS]
    exact List.mem_append_left _ (List.mem_append_right _ (List.mem_singleton_self _))
  · rcases ServeHTTP_handle_cases env ctl req with ⟨req', request, hV⟩ | h
    · obtain ⟨checked, tail, hc, hS, ht⟩ := ServeHTTP_validated env ctl req req' request hV
      have h1 : checked.countP Event.isHandle = 0 := by
        rcases hc with rfl | rfl <;> rfl
      have h2 : tail.countP Event.isHandle = 0 :=
        countP_eq_zero_of_all_false _ tail (fun ev hev => (ht ev hev).1)
      rw [hS, List.countP_append, List.countP_append, h1, h2]
      exact Nat.le_refl 1
    · rw [countP_eq_zero_of_all_false _ _ h]
      exact Nat.zero_le 1
  · intro req' target stop hD ev hev
    exact ServeHTTP_decode_stop env ctl req req' target stop hD ev hev
  · intro req' request v err hD hV hv ev hev
    rw [ServeHTTP_validate_error env ctl req req' request v err hD hV hv] at hev
    rcases List.mem_cons.1 hev with rfl | hev
    · rfl
    · rcases List.mem_cons.1 hev with rfl | hev
      · rfl
      · exact (errorTail_events env ctl req' err ev hev).1

/-- C13, at a concrete input: on a malformed JSON body the decode fails, and the run calls
neither `Validate` nor `Handle`. -/
theorem stages_short_circuit_witness :
    ∀ ev ∈ ServeHTTP sampleEnv (New testType none okHandler) malformedRequest,
      Event.isHandle ev = false ∧ Event.isValidate ev = false :=
  (stages_short_circuit sampleEnv (New testType none okHandler) malformedRequest).2.2.1
    { malformedRequest with Body := ⟨"", none, 1, none⟩ } none
    (.error (.foreign "unexpected end of JSON input")) rfl

/-! ## Unsupported types, pointers, and bodies that are not decoded -/

/-- C16. For every token and every target value whose dynamic type has no case in the type
switch, `resolve` returns the nil value and the `unsupported type` error, whose text names the
type. This covers every defined type over a supported kind, and the elements of a sequence of
pointers, for which `resolveValue` leaves the element as it was. -/
theorem resolve_unsupported (env : Env) (t : Typ) (x : Value) (v : String)
    (h : t.Supported = false) :
    resolve env (some (t, x)) v = (none, some (.unsupportedType t.String)) ∧
    Error.Error env (.unsupportedType t.String) = "unsupported type: " ++ t.String ∧
    (∀ name u, (Typ.defined name u).Supported = false) ∧
    (∀ (e : Typ) (ro : Bool),
      resolveValue env ⟨.pointer e, zero (.pointer e), ro⟩ (.slice (.pointer e)) v =
        (zero (.pointer e), some (.error (.unsupportedType ("*" ++ e.String))))) := by
  refine ⟨?_, rfl, fun _ _ => rfl, ?_⟩
  · cases t <;> simp [Typ.Supported] at h <;> simp [resolve, typeOfString]
  · intro e ro
    simp [resolveValue, RValue.Kind, Typ.Kind, Typ.Elem, zero, RValue.Interface, resolve,
      typeOfString, Typ.String]

/-- C16, at a concrete input: a field of the defined type `main.Status` over `string` is
rejected with the error that names it. -/
theorem resolve_unsupported_witness :
    resolve sampleEnv (some (.defined "main.Status" .string, .string "")) "active" =
      (none, some (.unsupportedType "main.Status")) :=
  (resolve_unsupported sampleEnv (.defined "main.Status" .string) (.string "") "active" rfl).1

/-- C17. `decodeBody` on a readable body (`io.ReadAll` returns no error) that is empty
(`io.ReadAll` returns no bytes), whatever the Content-Type, or whose Content-Type is any string
other than `application/json`, returns no error and leaves the target as it was. -/
theorem decodeBody_noop (env : Env) (r : Request) (data : RValue)
    (hread : r.Body.ReadAll.2.1 = none)
    (h : r.Body.ReadAll.1 = "" ∨ r.Header.Get "Content-Type" ≠ "application/json") :
    (decodeBody env r data).2 = (data.val, none) := by
  rcases hd : r.Body.ReadAll with ⟨b, e, rest⟩
  rw [hd] at hread h
  simp only at hread h
  subst hread
  rcases h with h | h
  · have hl : b.length = 0 := (length_eq_zero_iff _).2 h
    simp only [decodeBody, hd, hl, if_true]
  · simp only [decodeBody, hd, h, if_false]
    split <;> rfl

/-- C17, at a concrete input: a JSON body under `application/json; charset=utf-8` is not
decoded. -/
theorem decodeBody_noop_witness :
    (decodeBody sampleEnv charsetRequest ⟨testType, zero testType, false⟩).2 =
      (zero testType, none) :=
  decodeBody_noop sampleEnv charsetRequest ⟨testType, zero testType, false⟩ rfl
    (Or.inr (by decide))

/-- C20, as amended. For a pointer field whose pointee type is a supported scalar type: when
the token resolves to `x` and the field is exported, `resolveValue` sets the field to a fresh
pointer to `x`, and so does the round of `decodeStruct` on the field; when resolving fails,
`resolveValue` returns the error and leaves the field as it was, exported or not. On an
unexported field a token that resolves makes `field.Set` panic, and the field stays as it
was. -/
theorem resolveValue_pointer (env : Env) (e : Typ) (old : Value) (v : String)
    (hs : e.Supported = true) :
    (∀ x, resolve env (some (e, zero e)) v = (some (e, x), none) →
      resolveValue env ⟨.pointer e, old, false⟩ (.pointer e) v = (.pointer x, none) ∧
      (∀ (r : Request) (n tag : String) (b : Bool), IsExported env n = true → tag ≠ "" →
        r.URL.Query.Has ((Split tag).headD "") = true →
        r.URL.Query.Get ((Split tag).headD "") = v →
        decodeField env r (.mk n (.pointer e) ⟨tag, "", ""⟩) old b = (r, .pointer x, b, none)) ∧
      resolveValue env ⟨.pointer e, old, true⟩ (.pointer e) v =
        (old, some (.fault setPanic))) ∧
    (∀ a err ro, resolve env (some (e, zero e)) v = (a, some err) →
      resolveValue env ⟨.pointer e, old, ro⟩ (.pointer e) v = (old, some (.error err))) := by
  obtain ⟨hp, hi, _⟩ := supported_kind e hs
  have hI : RValue.Interface ⟨e, zero e, false⟩ = some (e, zero e) := by
    unfold RValue.Interface
    split <;> simp_all
  constructor
  · intro x hx
    have h1 : resolveValue env ⟨.pointer e, old, false⟩ (.pointer e) v = (.pointer x, none) := by
      simp [resolveValue, RValue.Kind, Typ.Kind, Typ.Elem, hI, hx, RValue.Set, hi]
    refine ⟨h1, ?_, ?_⟩
    · intro r n tag b hn ht hh hg
      have hq : decodeQuery env ⟨.pointer e, old, false⟩ (.pointer e) r.URL.Query tag =
          (.pointer x, none) := by
        simp only [decodeQuery, hh, if_true, RValue.Kind, Typ.Kind, hg, h1]
        rfl
      have hns : ¬ (Kind.Pointer = Kind.Struct) := by decide
      simp only [decodeField, Typ.Kind, hn, Bool.not_true, ne_eq, ht, not_false_eq_true,
        if_true, not_true_eq_false, if_false, if_neg hns, hq]
    · simp [resolveValue, RValue.Kind, Typ.Kind, Typ.Elem, hI, hx]
  · intro a err ro hx
    simp [resolveValue, RValue.Kind, Typ.Kind, Typ.Elem, hI, hx]

/-- C20, at a concrete input: `"7"` binds a nil exported `*int` field to a pointer to 7, and
`"x"` leaves it nil. -/
theorem resolveValue_pointer_witness :
    resolveValue sampleEnv ⟨.pointer .int, .nil, false⟩ (.pointer .int) "7" =
      (.pointer (.int 7), none) ∧
    resolveValue sampleEnv ⟨.pointer .int, .nil, false⟩ (.pointer .int) "x" =
      (.nil, some (.error (.numSyntax "ParseInt" "x"))) :=
  ⟨((resolveValue_pointer sampleEnv .int .nil "7" rfl).1 (.int 7) rfl).1,
   (resolveValue_pointer sampleEnv .int .nil "x" rfl).2 _ (.numSyntax "ParseInt" "x") false
     rfl⟩

/-- C20 as stated fails: in `struct { page *int "query:page" }` the pointee kind is
supported and the token of `?page=7` resolves to 7, and yet the field is not set to a pointer
to 7: it is not exported, `field.Set` panics in `resolveValue`, and the panic passes through
`DecodeRequest`. -/
theorem resolveValue_pointer_unexported :
    resolve sampleEnv (some (.int, .int 0)) "7" = (some (.int, .int 7), none) ∧
    IsExported sampleEnv "page" = false ∧
    resolveValue sampleEnv ⟨.pointer .int, .nil, true⟩ (.pointer .int) "7" =
      (.nil, some (.fault setPanic)) ∧
    DecodeRequest sampleEnv unexportedPageType pageRequest =
      (pageRequest, none, some (.fault setPanic)) :=
  ⟨rfl, rfl, rfl, rfl⟩

/-! ## The body flag -/

theorem decodeField_struct_flag (env : Env) (r : Request) (n : String) (typ : Typ)
    (tag : StructTag) (v : Value) (b : Bool)
    (hk : typ.Kind = .Struct) (hno : noBodyTag typ = true) (htag : tag.body = "") :
    (decodeField env r (.mk n typ tag) v b).2.2.2 = none →
    (decodeField env r (.mk n typ tag) v b).2.2.1 = false := by
  have ih := (decodeStruct_noBody env r typ v hno).2
  have hb : ¬ (tag.body ≠ "") := by simp [htag]
  by_cases hx : IsExported env n = true
  · simp only [decodeField, hk, if_true, hb, if_false, hx]
    rcases hd : decodeStruct env r typ v with ⟨r1, v1, b1, e1⟩
    rw [hd] at ih
    simp only at ih
    subst ih
    intro _
    cases e1 with
    | some err => rfl
    | none =>
      simp only
      split <;> rfl
  · simp only [decodeField, hk, if_true, hx, if_false, Bool.false_eq_true]
    intro h
    cases h

/-- C19. The flag `body` that the loop of `decodeStruct` reports is overwritten by the walk
over every field of struct kind: when the last field is of struct kind and neither it nor its
struct carries a body annotation, the loop reports `false` whenever it ends without error,
whatever fields precede it, body-annotated ones included. -/
theorem later_struct_field_resets_body (env : Env) (n : String) (typ : Typ) (tag : StructTag)
    (v : Value) (hk : typ.Kind = .Struct) (hno : noBodyTag typ = true)
    (htag : tag.body = "") :
    ∀ (pre : List StructField) (vpre : List Value) (r : Request) (b : Bool),
      pre.length = vpre.length →
      (decodeFields env r (pre ++ [.mk n typ tag]) (vpre ++ [v]) b).2.2.2 = none →
      (decodeFields env r (pre ++ [.mk n typ tag]) (vpre ++ [v]) b).2.2.1 = false := by
  intro pre
  induction pre with
  | nil =>
    intro vpre r b hlen
    have hv : vpre = [] := List.length_eq_zero.1 hlen.symm
    subst hv
    have hf := decodeField_struct_flag env r n typ tag v b hk hno htag
    rcases hd : decodeField env r (.mk n typ tag) v b with ⟨r1, v1, b1, e1⟩
    rw [hd] at hf
    simp only at hf
    simp only [List.nil_append, decodeFields, hd]
    cases e1 with
    | some stop => intro h; cases h
    | none => intro _; exact hf rfl
  | cons p ps ih =>
    intro vpre r b hlen hnone
    cases vpre with
    | nil => simp at hlen
    | cons pv pvs =>
      have hlen' : ps.length = pvs.length := by simpa using hlen
      rcases hd : decodeField env r p pv b with ⟨r1, v1, b1, e1⟩
      simp only [List.cons_append, decodeFields, hd] at hnone ⊢
      cases e1 with
      | some err => simp at hnone
      | none =>
        simp only at hnone ⊢
        exact ih pvs r1 b1 hlen' hnone

/-- C19, at a concrete input: the field `Payload` carries a body annotation and is followed by
the struct field `Meta`; `decodeStruct` reports `false`, and `DecodeRequest` goes on to call
`decodeBody` on the whole target, which closes the body a second time; on the body of a
request that a server received, this second read fails and `DecodeRequest` returns its
error. -/
theorem later_struct_field_resets_body_witness :
    (decodeFields sampleEnv jsonRequest
      ([.mk "Payload" testType ⟨"", "json", ""⟩] ++
        [.mk "Meta" (.struct "struct {}" []) ⟨"", "", ""⟩])
      ([zero testType] ++ [.struct []]) false).2.2.1 = false ∧
    (decodeStruct sampleEnv jsonRequest bodyThenStructType (zero bodyThenStructType)).2.2.1 =
      false ∧
    (DecodeRequest sampleEnv bodyThenStructType jsonRequest).1.Body.closed = 2 ∧
    (DecodeRequest sampleEnv bodyThenStructType serverJsonRequest).2 =
      (none, some (.error (.foreign "http: invalid Read on closed Body"))) :=
  ⟨later_struct_field_resets_body sampleEnv "Meta" (.struct "struct {}" []) ⟨"", "", ""⟩
    (.struct []) rfl rfl rfl [.mk "Payload" testType ⟨"", "json", ""⟩] [zero testType]
    jsonRequest false rfl rfl, rfl, rfl, rfl⟩

/-! ## The shape of the target -/

theorem parseUintLoop_own (s0 : String) (cutoff maxVal : Nat) (cs : List Char) :
    ∀ n, notInvalidType (parseUintLoop s0 cutoff maxVal cs n).2 = true := by
  induction cs with
  | nil => intro n; rfl
  | cons c cs ih =>
    intro n
    simp only [parseUintLoop]
    split
    · rfl
    · split
      · rfl
      · split
        · rfl
        · split
          · rfl
          · exact ih _

theorem ParseUint_own (s : String) (bitSize : Nat) :
    notInvalidType (ParseUint s bitSize).2 = true := by
  unfold ParseUint
  split
  · rfl
  · split
    · rfl
    · exact parseUintLoop_own _ _ _ _ _

theorem ParseInt_own (s : String) (bitSize : Nat) :
    notInvalidType (ParseInt s bitSize).2 = true := by
  unfold ParseInt
  split
  · rfl
  · simp only
    split
    · rfl
    · rfl
    · repeat' split
      all_goals rfl

theorem ParseBool_own (str : String) : notInvalidType (ParseBool str).2 = true := by
  unfold ParseBool
  split
  · rfl
  · split <;> rfl


theorem resolve_own (env : Env) (hE : env.OwnErrors) (t : Any) (v : String) :
    notInvalidType (resolve env t v).2 = true := by
  unfold resolve
  split
  all_goals first
    | rfl
    | (split
       rename_i heq
       have h2 := congrArg Prod.snd heq
       simp only at h2
       rw [← h2]
       first
         | exact ParseBool_own _
         | exact ParseInt_own _ _
         | exact ParseUint_own _ _
         | exact hE.timeParse _
         | exact hE.ParseDuration _
         | exact hE.ParseFloat _ _
         | exact hE.ParseComplex _ _)

theorem resolveValue_own (env : Env) (hE : env.OwnErrors) (field : RValue) (typ : Typ)
    (value : String) : Stop.notInvalidType (resolveValue env field typ value).2 = true := by
  unfold resolveValue
  split
  · have := resolve_own env hE (RValue.Interface ⟨typ.Elem, zero typ.Elem, false⟩) value
    split
    · rename_i heq
      rw [heq] at this
      exact this
    · split <;> rfl
  · split
    · rfl
    · have := resolve_own env hE field.Interface value
      split
      · rename_i heq
        rw [heq] at this
        exact this
      · rfl

theorem resolveElems_own (env : Env) (hE : env.OwnErrors) (typ : Typ) (values : List String) :
    Stop.notInvalidType (resolveElems env typ values).2 = true := by
  induction values with
  | nil => rfl
  | cons value rest ih =>
    have h1 := resolveValue_own env hE ⟨typ.Elem, zero typ.Elem, false⟩ typ value
    simp only [resolveElems]
    split
    · rename_i heq
      rw [heq] at h1
      exact h1
    · rcases hr : resolveElems env typ rest with ⟨xs, err⟩
      rw [hr] at ih
      exact ih

theorem decodeQuery_own (env : Env) (hE : env.OwnErrors) (field : RValue) (typ : Typ)
    (query : Values) (tag : String) :
    Stop.notInvalidType (decodeQuery env field typ query tag).2 = true := by
  unfold decodeQuery
  simp only
  split
  · split
    · unfold resolveValues
      have := resolveElems_own env hE typ
        (if ((Split tag).tail.any fun p => decide (p = "explode")) = true then
          query.index ((Split tag).headD "") else Split (query.Get ((Split tag).headD "")))
      split
      · rename_i heq
        rw [heq] at this
        exact this
      · split <;> rfl
    · exact resolveValue_own env hE field typ _
  · rfl

theorem decodeBody_own (env : Env) (hE : env.OwnErrors) (r : Request) (data : RValue)
    (hr : r.Body.OwnErrors) :
    notInvalidType (decodeBody env r data).2.2 = true ∧
    (decodeBody env r data).1.Body.OwnErrors := by
  obtain ⟨h1, h2⟩ := hr
  unfold decodeBody Body.ReadAll
  cases hc : (if 0 < r.Body.closed then r.Body.afterClose else none) with
  | some e =>
    have he : notInvalidType (some e) = true := by
      split at hc
      · rw [← hc]; exact h2
      · cases hc
    exact ⟨he, h1, h2⟩
  | none =>
    cases hf : r.Body.failure with
    | some err =>
      rw [hf] at h1
      simp only [hf]
      exact ⟨h1, h1, h2⟩
    | none =>
      simp only [hf]
      split
      · exact ⟨rfl, rfl, h2⟩
      · split
        · exact ⟨hE.Unmarshal _ _ _, rfl, h2⟩
        · exact ⟨rfl, rfl, h2⟩

theorem map_error_own (e : Option Error) (h : notInvalidType e = true) :
    Stop.notInvalidType (e.map Stop.error) = true := by
  cases e with
  | none => rfl
  | some err => exact h

mutual
theorem decodeStruct_own (env : Env) (hE : env.OwnErrors) :
    (t : Typ) → (r : Request) → (v : Value) → r.Body.OwnErrors →
      Stop.notInvalidType (decodeStruct env r t v).2.2.2 = true ∧
      (decodeStruct env r t v).1.Body.OwnErrors
  | .struct _ fs, r, .struct vals, h => by
    have ih := decodeFields_own env hE fs r vals false h
    simp only [decodeStruct]
    rcases hd : decodeFields env r fs vals false with ⟨a, w, b, e⟩
    rw [hd] at ih
    exact ih
  | .struct _ _, _, .string _, h | .struct _ _, _, .bool _, h
  | .struct _ _, _, .time _, h | .struct _ _, _, .int _, h
  | .struct _ _, _, .uint _, h | .struct _ _, _, .float _, h
  | .struct _ _, _, .complex _ _, h | .struct _ _, _, .nil, h
  | .struct _ _, _, .pointer _, h | .struct _ _, _, .slice _, h
  | .struct _ _, _, .boxed _ _, h | .struct _ _, _, .unmodelled _, h => by
    simp only [decodeStruct]
    exact ⟨rfl, h⟩
  | .defined _ u, r, v, h => by
    have ih := decodeStruct_own env hE u r v h
    simp only [decodeStruct]
    exact ih
  | .string, _, _, h | .bool, _, _, h | .time, _, _, h | .duration, _, _, h
  | .int, _, _, h | .int8, _, _, h | .int16, _, _, h | .int32, _, _, h
  | .int64, _, _, h
  | .uint, _, _, h | .uint8, _, _, h | .uint16, _, _, h | .uint32, _, _, h
  | .uint64, _, _, h
  | .float32, _, _, h | .float64, _, _, h | .complex64, _, _, h
  | .complex128, _, _, h
  | .pointer _, _, _, h | .slice _, _, _, h | .iface _, _, _, h
  | .unmodelled _ _, _, _, h => by
    simp only [decodeStruct]
    exact ⟨rfl, h⟩
theorem decodeField_own (env : Env) (hE : env.OwnErrors) :
    (f : StructField) → (r : Request) → (v : Value) → (b : Bool) → r.Body.OwnErrors →
      Stop.notInvalidType (decodeField env r f v b).2.2.2 = true ∧
      (decodeField env r f v b).1.Body.OwnErrors
  | .mk n typ tag, r, v, b, h => by
    have ih := decodeStruct_own env hE typ r v h
    have hstep :
        Stop.notInvalidType
          (if typ.Kind = .Struct then
              if IsExported env n then decodeStruct env r typ v
              else (r, v, b, some (.fault interfacePanic))
            else (r, v, b, none)).2.2.2 = true ∧
        (if typ.Kind = .Struct then
            if IsExported env n then decodeStruct env r typ v
            else (r, v, b, some (.fault interfacePanic))
          else (r, v, b, none)).1.Body.OwnErrors := by
      split
      · split
        · exact ih
        · exact ⟨rfl, h⟩
      · exact ⟨rfl, h⟩
    simp only [decodeField]
    rcases hd : (if typ.Kind = .Struct then
        if IsExported env n then decodeStruct env r typ v
        else (r, v, b, some (.fault interfacePanic))
      else (r, v, b, none)) with ⟨a1, v1, b1, e1⟩
    rw [hd] at hstep
    obtain ⟨herr, hbody⟩ := hstep
    cases e1 with
    | some err => exact ⟨herr, hbody⟩
    | none =>
      simp only
      have hq : Stop.notInvalidType
          (if tag.query ≠ "" then
              decodeQuery env ⟨typ, v1, !IsExported env n⟩ typ a1.URL.Query tag.query
            else (v1, none)).2 = true := by
        split
        · exact decodeQuery_own env hE _ _ _ _
        · rfl
      rcases hc : (if tag.query ≠ "" then
          decodeQuery env ⟨typ, v1, !IsExported env n⟩ typ a1.URL.Query tag.query
        else (v1, none)) with ⟨fv, fe⟩
      rw [hc] at hq
      cases fe with
      | some err => exact ⟨hq, hbody⟩
      | none =>
        simp only
        split
        · split
          · have hb := decodeBody_own env hE a1 ⟨typ, fv, false⟩ hbody
            rcases hx : decodeBody env a1 ⟨typ, fv, false⟩ with ⟨c1, w1, g1⟩
            rw [hx] at hb
            exact ⟨map_error_own g1 hb.1, hb.2⟩
          · exact ⟨rfl, hbody⟩
        · exact ⟨rfl, hbody⟩
theorem decodeFields_own (env : Env) (hE : env.OwnErrors) :
    (fs : List StructField) → (r : Request) → (vals : List Value) → (b : Bool) →
      r.Body.OwnErrors →
      Stop.notInvalidType (decodeFields env r fs vals b).2.2.2 = true ∧
      (decodeFields env r fs vals b).1.Body.OwnErrors
  | [], _, _, _, h => by simp only [decodeFields]; exact ⟨rfl, h⟩
  | _ :: _, _, [], _, h => by simp only [decodeFields]; exact ⟨rfl, h⟩
  | f :: fs, r, v :: vals, b, h => by
    have ih1 := decodeField_own env hE f r v b h
    simp only [decodeFields]
    rcases hd : decodeField env r f v b with ⟨a1, v1, b1, e1⟩
    rw [hd] at ih1
    obtain ⟨herr, hbody⟩ := ih1
    cases e1 with
    | some err => exact ⟨herr, hbody⟩
    | none =>
      simp only
      have ih2 := decodeFields_own env hE fs a1 vals b1 hbody
      rcases hc : decodeFields env a1 fs vals b1 with ⟨c1, w1, g1, k1⟩
      rw [hc] at ih2
      exact ih2
end

theorem decodeRequest_own (env : Env) (hE : env.OwnErrors) (t : Typ) (r : Request) (v : Value)
    (h : r.Body.OwnErrors) :
    Stop.notInvalidType (decodeRequest env r t v).2.2 = true := by
  have ih := decodeStruct_own env hE t r v h
  simp only [decodeRequest]
  rcases hd : decodeStruct env r t v with ⟨a1, v1, b1, e1⟩
  rw [hd] at ih
  obtain ⟨herr, hbody⟩ := ih
  cases e1 with
  | some err => exact herr
  | none =>
    simp only
    split
    · have hb := decodeBody_own env hE a1 ⟨t, v1, false⟩ hbody
      rcases hx : decodeBody env a1 ⟨t, v1, false⟩ with ⟨c1, w1, g1⟩
      rw [hx] at hb
      exact map_error_own g1 hb.1
    · rfl

/-- The errors that `jsonRead` reports are syntax errors of the codec. -/
theorem jsonRead_own (quote : String → String) (isUpper : Char → Bool) (b : String) (t : Typ)
    (old : Value) (res : Value × Option Error)
    (h : jsonRead quote isUpper b t old = some res) : notInvalidType res.2 = true := by
  unfold jsonRead at h
  cases hc : checkValid quote (bytesOf b) with
  | some msg => rw [hc] at h; cases h; rfl
  | none =>
    rw [hc] at h
    simp only at h
    cases hs : skipSpace b.data with
    | nil => rw [hs] at h; cases h
    | cons c cs =>
      rw [hs] at h
      simp only at h
      by_cases h1 : c = 'n'
      · rw [if_pos h1] at h; cases h; rfl
      · rw [if_neg h1] at h
        by_cases h2 : c.toNat = 123
        · rw [if_pos h2] at h
          split at h
          · split at h
            · cases h; rfl
            · cases h
          · cases h
        · rw [if_neg h2] at h; cases h

theorem sampleEnv_ownErrors : sampleEnv.OwnErrors := by
  refine ⟨?_, ?_, ?_, ?_, ?_⟩
  · intro s bitSize
    rfl
  · intro s bitSize
    rfl
  · intro s
    rfl
  · intro s
    rfl
  · intro b t v
    show notInvalidType (sampleUnmarshal b t v).2 = true
    unfold sampleUnmarshal
    split
    · rename_i res heq
      exact jsonRead_own _ _ _ _ _ _ heq
    · rfl

/-- C15. `DecodeRequest[T]` on a target type `T` that is not of struct kind (a pointer to a
struct included) returns the request untouched, a nil target and the error
"invalid decode type: " followed by the name of the kind of `T`; on a target of struct kind,
with a codec and a body whose errors are their own, the error returned is never the invalid
decode type error. -/
theorem DecodeRequest_invalid_decode_type (env : Env) (T : Typ) (req : Request) :
    (T.Kind ≠ .Struct →
      DecodeRequest env T req =
        (req, none, some (.error (.invalidDecodeType (kindText T.Kind)))) ∧
      Error.Error env (.invalidDecodeType (kindText T.Kind)) =
        "invalid decode type: " ++ kindText T.Kind) ∧
    (T.Kind = .Struct → env.OwnErrors → req.Body.OwnErrors →
      Stop.notInvalidType (DecodeRequest env T req).2.2 = true) := by
  constructor
  · intro hk
    have h : DecodeRequest env T req =
        (req, none, some (.error (.invalidDecodeType (kindText T.Kind)))) := by
      simp only [DecodeRequest, Typ.Kind, Typ.Elem, if_true, ne_eq, hk, not_false_eq_true]
    exact ⟨h, rfl⟩
  · intro hk hE hb
    have h := decodeRequest_own env hE T req (zero T) hb
    simp only [DecodeRequest, Typ.Kind, Typ.Elem, if_true, ne_eq, hk, not_true_eq_false,
      if_false]
    rcases hd : decodeRequest env req T (zero T) with ⟨a, w, e⟩
    rw [hd] at h
    cases e with
    | some err => exact h
    | none => rfl

theorem DecodeRequest_invalid_decode_type_witness :
    ((Typ.pointer testType).Kind ≠ .Struct ∧
      DecodeRequest sampleEnv (.pointer testType) jsonRequest =
        (jsonRequest, none, some (.error (.invalidDecodeType "ptr"))) ∧
      Error.Error sampleEnv (.invalidDecodeType "ptr") = "invalid decode type: ptr") ∧
    (testType.Kind = .Struct ∧ sampleEnv.OwnErrors ∧ jsonRequest.Body.OwnErrors ∧
      Stop.notInvalidType (DecodeRequest sampleEnv testType jsonRequest).2.2 = true) :=
  ⟨⟨fun h => Kind.noConfusion h,
    (DecodeRequest_invalid_decode_type sampleEnv (.pointer testType) jsonRequest).1
      (fun h => Kind.noConfusion h)⟩,
   ⟨rfl, sampleEnv_ownErrors, ⟨rfl, rfl⟩,
    (DecodeRequest_invalid_decode_type sampleEnv testType jsonRequest).2 rfl
      sampleEnv_ownErrors ⟨rfl, rfl⟩⟩⟩

end Gravity
